import Mathlib

/-!
Shallow embedding of the `orderbook_strategy` repository: the ITCH event
model (`src/types/event.h`), the price-time-priority order book
(`src/orderbook.cpp`), the trading strategy (`strategy.cpp`) and the
framed-packet decoder (`itch_parser.cpp`), together with theorems checking
the natural-language specification against this embedding.

Machine integers are modelled as `Nat`/`Int`; the one place where unsigned
wrap-around is semantically relevant (the strategy's `uint32_t` price
subtractions) uses an explicit `% 2^32`.  C++ `std::list` iterators stored
in the order index are modelled by unique node tags allocated from a
counter (`next_tag`), which mirrors the stability and identity of list
nodes.  The two `std::map` sides are modelled as association lists sorted
by the map's comparator, and `std::unordered_map` as an association list
whose iteration order is never observed.
-/

namespace OrderbookStrategy

/-- Order side, from `src/types/side.h` (`'B'` = Buy, `'S'` = Sell). -/
inductive Side where
  | Buy
  | Sell
  | Unknown
deriving DecidableEq, Repr

/-- Message kind, from `src/types/message_type.h`. -/
inductive MessageType where
  | OrderbookState
  | AddOrder
  | ExecuteOrder
  | DeleteOrder
  | Other
deriving DecidableEq, Repr

/-- Decoded event, from `src/types/event.h`; field defaults mirror the
C++ in-class initializers (`Event()` zero-initializes every field). -/
structure Event where
  type : MessageType := MessageType.Other
  nanosec : Nat := 0
  ranking_time : Nat := 0
  orderbook_id : Nat := 0
  side : Side := Side.Unknown
  order_id : Nat := 0
  quantity : Nat := 0
  price : Nat := 0
  ranking_seq_num : Nat := 0
  orderbook_state : String := ""
deriving DecidableEq, Repr

/-- A resting order, from `orderbook.h` (`struct Order`). -/
structure Order where
  id : Nat := 0
  side : Side := Side.Unknown
  price : Nat := 0
  quantity : Nat := 0
  ranking_time : Nat := 0
  ranking_seq_num : Nat := 0
deriving DecidableEq, Repr

/-- One node of a level's `std::list<Order>` FIFO.  The `tag` models the
list node's address: it is allocated from the book-wide counter
`next_tag`, so distinct insertions get distinct tags, exactly as distinct
`std::list` nodes have distinct stable iterators. -/
structure FifoNode where
  tag : Nat
  ord : Order
deriving DecidableEq, Repr

/-- A price level, from `orderbook.h` (`struct PriceLevel`); field
defaults mirror the C++ value-initializers. -/
structure PriceLevel where
  price : Nat := 0
  aggregate : Nat := 0
  num_orders : Nat := 0
  fifo : List FifoNode := []
deriving DecidableEq, Repr

/-- Handle stored in the order index, from `orderbook.h`
(`struct OrderHandle`); the iterator member is modelled by the node tag. -/
structure OrderHandle where
  side : Side := Side.Unknown
  price : Nat := 0
  tag : Nat := 0
deriving DecidableEq, Repr

/-- A book side: `std::map<Price, PriceLevel>` modelled as an association
list kept in the map's iteration order. -/
abbrev SideMap := List (Nat × PriceLevel)

/-- The order index: `std::unordered_map<OrderId, OrderHandle>` modelled
as an association list without duplicate keys. -/
abbrev IndexMap := List (Nat × OrderHandle)

/-- Key comparator of the bid map (`std::greater<Price>`): bids iterate
in descending price order. -/
def bidBefore (a b : Nat) : Bool := Nat.blt b a

/-- Key comparator of the ask map (`std::less<Price>`): asks iterate in
ascending price order. -/
def askBefore (a b : Nat) : Bool := Nat.blt a b

/-- Association-list lookup, modelling `std::map::find` /
`std::map::at` by key. -/
def mapFind (m : SideMap) (k : Nat) : Option PriceLevel :=
  match m with
  | [] => none
  | (k0, v) :: rest => if k = k0 then some v else mapFind rest k

/-- `std::map::emplace(k, PriceLevel{})`: insert a value-initialized
level at the comparator's position if the key is absent, keep the
existing entry otherwise. -/
def mapEmplace (before : Nat → Nat → Bool) (m : SideMap) (k : Nat) : SideMap :=
  match m with
  | [] => [(k, {})]
  | (k0, v) :: rest =>
    if k = k0 then (k0, v) :: rest
    else if before k k0 then (k, {}) :: (k0, v) :: rest
    else (k0, v) :: mapEmplace before rest k

/-- In-place mutation of the level stored under a key (a write through a
`std::map` iterator or reference). -/
def mapUpdate (m : SideMap) (k : Nat) (f : PriceLevel → PriceLevel) : SideMap :=
  match m with
  | [] => []
  | (k0, v) :: rest => if k = k0 then (k0, f v) :: rest else (k0, v) :: mapUpdate rest k f

/-- `std::map::erase` by key (keys are unique, so erasing the first
occurrence models it). -/
def mapErase (m : SideMap) (k : Nat) : SideMap :=
  match m with
  | [] => []
  | (k0, v) :: rest => if k = k0 then rest else (k0, v) :: mapErase rest k

/-- `std::unordered_map::find`. -/
def indexFind (m : IndexMap) (k : Nat) : Option OrderHandle :=
  match m with
  | [] => none
  | (k0, v) :: rest => if k = k0 then some v else indexFind rest k

/-- `index_[id] = handle`: overwrite the entry if the key is present,
insert it otherwise. -/
def indexInsert (m : IndexMap) (k : Nat) (h : OrderHandle) : IndexMap :=
  match m with
  | [] => [(k, h)]
  | (k0, v) :: rest => if k = k0 then (k0, h) :: rest else (k0, v) :: indexInsert rest k h

/-- `std::unordered_map::erase` by key. -/
def indexErase (m : IndexMap) (k : Nat) : IndexMap :=
  match m with
  | [] => []
  | (k0, v) :: rest => if k = k0 then rest else (k0, v) :: indexErase rest k

/-- The strict ranking comparison of `Orderbook::handle_add`:
`order.ranking_time < it->ranking_time ||
 (order.ranking_time == it->ranking_time &&
  order.ranking_seq_num < it->ranking_seq_num)`. -/
def ltOrderKey (a b : Order) : Bool :=
  Nat.blt a.ranking_time b.ranking_time ||
    (a.ranking_time == b.ranking_time && Nat.blt a.ranking_seq_num b.ranking_seq_num)

/-- The FIFO insertion scan of `Orderbook::handle_add`: walk the list and
insert the new node immediately before the first node whose ranking key
strictly exceeds the new order's, or at the end if none does. -/
def fifoInsert (nd : FifoNode) : List FifoNode → List FifoNode
  | [] => [nd]
  | x :: rest =>
    if ltOrderKey nd.ord x.ord then nd :: x :: rest else x :: fifoInsert nd rest

/-- Dereference the stored list iterator: find the node with the given
tag. -/
def fifoFindTag (l : List FifoNode) (t : Nat) : Option FifoNode :=
  match l with
  | [] => none
  | x :: rest => if x.tag = t then some x else fifoFindTag rest t

/-- `level.fifo.erase(handle.it)`: remove the node with the given tag. -/
def fifoEraseTag (l : List FifoNode) (t : Nat) : List FifoNode :=
  match l with
  | [] => []
  | x :: rest => if x.tag = t then rest else x :: fifoEraseTag rest t

/-- `handle.it->quantity = q`: overwrite the quantity of the node with
the given tag. -/
def fifoSetQty (l : List FifoNode) (t : Nat) (q : Nat) : List FifoNode :=
  match l with
  | [] => []
  | x :: rest =>
    if x.tag = t then { x with ord := { x.ord with quantity := q } } :: rest
    else x :: fifoSetQty rest t q

/-- The order book state, from `orderbook.h` (`class Orderbook`);
`next_tag` is the node-identity allocator described on `FifoNode`. -/
structure Orderbook where
  bids : SideMap := []
  asks : SideMap := []
  index : IndexMap := []
  trading_open : Bool := false
  last_exec_price : Nat := 0
  next_tag : Nat := 0
deriving DecidableEq, Repr

/-- A default-constructed `Orderbook`. -/
def emptyBook : Orderbook := {}

/-- Level lookup on the side selected the way `handle_exec` and
`handle_delete` select it: `handle.side == Side::Buy ? bids_ : asks_`. -/
def Orderbook.sideFind (b : Orderbook) (side : Side) (k : Nat) : Option PriceLevel :=
  if side = Side.Buy then mapFind b.bids k else mapFind b.asks k

/-- Mutate the level stored under a key on the selected side. -/
def Orderbook.updateLevel (b : Orderbook) (side : Side) (k : Nat)
    (f : PriceLevel → PriceLevel) : Orderbook :=
  if side = Side.Buy then { b with bids := mapUpdate b.bids k f }
  else { b with asks := mapUpdate b.asks k f }

/-- Erase the level stored under a key on the selected side. -/
def Orderbook.eraseLevel (b : Orderbook) (side : Side) (k : Nat) : Orderbook :=
  if side = Side.Buy then { b with bids := mapErase b.bids k }
  else { b with asks := mapErase b.asks k }

/-- `Orderbook::level_for`: emplace a value-initialized level for
(side, price), then set its `price` field if it is still zero.  The C++
function returns a reference; here the function returns the book with the
level guaranteed present, and callers read it back with `sideFind`. -/
def Orderbook.level_for (b : Orderbook) (side : Side) (price : Nat) : Orderbook :=
  let b1 :=
    if side = Side.Buy then { b with bids := mapEmplace bidBefore b.bids price }
    else { b with asks := mapEmplace askBefore b.asks price }
  b1.updateLevel side price (fun lvl => if lvl.price = 0 then { lvl with price := price } else lvl)

/-- `Orderbook::handle_state`: trading is open iff the state string is
the continuous-trading sentinel. -/
def Orderbook.handle_state (b : Orderbook) (e : Event) : Orderbook :=
  { b with trading_open := e.orderbook_state = "P_SUREKLI_ISLEM" }

/-- `Orderbook::handle_add`: build the order, obtain the level, insert
the order into the FIFO at its ranking position, bump the level
aggregates, and record the handle in the index (overwriting any entry
already stored under the same id).  The zero-quantity / zero-price case
only logs a warning in C++ and is applied all the same. -/
def Orderbook.handle_add (b : Orderbook) (e : Event) : Orderbook :=
  let ord : Order :=
    { id := e.order_id, side := e.side, price := e.price, quantity := e.quantity,
      ranking_time := e.ranking_time, ranking_seq_num := e.ranking_seq_num }
  let b1 := b.level_for e.side e.price
  let nd : FifoNode := { tag := b.next_tag, ord := ord }
  let b2 := b1.updateLevel e.side e.price (fun lvl =>
    { lvl with fifo := fifoInsert nd lvl.fifo,
               aggregate := lvl.aggregate + ord.quantity,
               num_orders := lvl.num_orders + 1 })
  { b2 with index := indexInsert b2.index ord.id
              { side := ord.side, price := ord.price, tag := b.next_tag },
            next_tag := b.next_tag + 1 }

/-- `MAX_SUSPICIOUS_QUANTITY` from `orderbook.cpp`. -/
def MAX_SUSPICIOUS_QUANTITY : Nat := 1000000000

/-- `Orderbook::erase_level_if_empty`: coerce a stale aggregate to zero
once the level's order count reaches zero, then erase the level if both
the count and the aggregate are zero. -/
def Orderbook.erase_level_if_empty (b : Orderbook) (side : Side) (price : Nat) : Orderbook :=
  match b.sideFind side price with
  | none => b
  | some lvl =>
    let lvl1 := if lvl.num_orders = 0 then { lvl with aggregate := 0 } else lvl
    let b1 := b.updateLevel side price (fun _ => lvl1)
    if lvl1.num_orders = 0 ∧ lvl1.aggregate = 0 then b1.eraseLevel side price else b1

/-- `Orderbook::handle_exec`: unknown ids and suspicious quantities
(zero, or above `MAX_SUSPICIOUS_QUANTITY`) are warned about and the event
is dropped; otherwise `last_exec_price` is set to the event price, or to
the handle's price when the event price is zero, and the order is removed
entirely (event quantity at least the remaining quantity) or partially
reduced.  The two `Option` fall-through branches correspond to states the
C++ code reaches only through undefined behaviour (a dangling handle). -/
def Orderbook.handle_exec (b : Orderbook) (e : Event) : Orderbook :=
  match indexFind b.index e.order_id with
  | none => b
  | some hdl =>
    if e.quantity = 0 ∨ e.quantity > MAX_SUSPICIOUS_QUANTITY then b
    else
      match b.sideFind hdl.side hdl.price with
      | none => b
      | some lvl =>
        match fifoFindTag lvl.fifo hdl.tag with
        | none => b
        | some nd =>
          let current_price := if e.price = 0 then hdl.price else e.price
          if nd.ord.quantity ≤ e.quantity then
            let b1 := b.updateLevel hdl.side hdl.price (fun l =>
              { l with aggregate := l.aggregate - nd.ord.quantity,
                       num_orders := l.num_orders - 1,
                       fifo := fifoEraseTag l.fifo hdl.tag })
            let b2 := { b1 with index := indexErase b1.index e.order_id,
                                last_exec_price := current_price }
            b2.erase_level_if_empty hdl.side hdl.price
          else
            let b1 := b.updateLevel hdl.side hdl.price (fun l =>
              { l with aggregate := l.aggregate - e.quantity,
                       fifo := fifoSetQty l.fifo hdl.tag (nd.ord.quantity - e.quantity) })
            { b1 with last_exec_price := current_price }

/-- `Orderbook::handle_delete`: look the order up by id (unknown ids are
warned about and dropped) and remove it completely regardless of its
remaining quantity, then clean up the level if it emptied. -/
def Orderbook.handle_delete (b : Orderbook) (e : Event) : Orderbook :=
  match indexFind b.index e.order_id with
  | none => b
  | some hdl =>
    match b.sideFind hdl.side hdl.price with
    | none => b
    | some lvl =>
      match fifoFindTag lvl.fifo hdl.tag with
      | none => b
      | some nd =>
        let b1 := b.updateLevel hdl.side hdl.price (fun l =>
          { l with aggregate := l.aggregate - nd.ord.quantity,
                   num_orders := l.num_orders - 1,
                   fifo := fifoEraseTag l.fifo hdl.tag })
        let b2 := { b1 with index := indexErase b1.index e.order_id }
        b2.erase_level_if_empty hdl.side hdl.price

/-- `Orderbook::apply`: dispatch on the message kind. -/
def Orderbook.apply (b : Orderbook) (e : Event) : Orderbook :=
  match e.type with
  | MessageType.OrderbookState => b.handle_state e
  | MessageType.AddOrder => b.handle_add e
  | MessageType.ExecuteOrder => b.handle_exec e
  | MessageType.DeleteOrder => b.handle_delete e
  | MessageType.Other => b

/-- Apply a sequence of events in arrival order. -/
def applyEvents (b : Orderbook) (evs : List Event) : Orderbook :=
  evs.foldl Orderbook.apply b

/-- `Orderbook::first_nonzero_price_bid` / `_ask`: the key of the first
level in iteration order whose aggregate is positive, else 0. -/
def first_nonzero_price (m : SideMap) : Nat :=
  match m with
  | [] => 0
  | (k, lvl) :: rest => if 0 < lvl.aggregate then k else first_nonzero_price rest

/-- `Orderbook::first_nonzero_qty_bid` / `_ask`: the aggregate of the
first level in iteration order whose aggregate is positive, else 0. -/
def first_nonzero_qty (m : SideMap) : Nat :=
  match m with
  | [] => 0
  | (_, lvl) :: rest => if 0 < lvl.aggregate then lvl.aggregate else first_nonzero_qty rest

/-- `Orderbook::best_bid_price`. -/
def Orderbook.best_bid_price (b : Orderbook) : Nat := first_nonzero_price b.bids

/-- `Orderbook::best_ask_price`. -/
def Orderbook.best_ask_price (b : Orderbook) : Nat := first_nonzero_price b.asks

/-- `Orderbook::best_bid_quantity`. -/
def Orderbook.best_bid_quantity (b : Orderbook) : Nat := first_nonzero_qty b.bids

/-- `Orderbook::best_ask_quantity`. -/
def Orderbook.best_ask_quantity (b : Orderbook) : Nat := first_nonzero_qty b.asks

/-- `Orderbook::has_top`: both side maps are non-empty (aggregates are
not consulted). -/
def Orderbook.has_top (b : Orderbook) : Bool := !b.bids.isEmpty && !b.asks.isEmpty

/-- `Orderbook::order_count`: the size of the order index. -/
def Orderbook.order_count (b : Orderbook) : Nat := b.index.length

/-- One side of `Orderbook::snapshot_n`: walk the side in iteration
order, emitting (price, aggregate) for levels with positive aggregate,
until `n` entries have been taken. -/
def snapList : SideMap → Nat → List (Nat × Nat)
  | [], _ => []
  | (k, lvl) :: rest, n =>
    if n = 0 then []
    else if 0 < lvl.aggregate then (k, lvl.aggregate) :: snapList rest (n - 1)
    else snapList rest n

/-- `Orderbook::snapshot_n`: up to `n` (price, aggregate) pairs per
side. -/
def Orderbook.snapshot_n (b : Orderbook) (n : Nat) : List (Nat × Nat) × List (Nat × Nat) :=
  (snapList b.bids n, snapList b.asks n)

/-- `PRICE_TICK` from `strategy.cpp` (one tick, in minor-currency
units). -/
def PRICE_TICK : Nat := 10

/-- `TIGHT_SPREAD = PRICE_TICK` from `strategy.cpp`. -/
def TIGHT_SPREAD : Nat := PRICE_TICK

/-- `GAP_SPREAD = 2 * PRICE_TICK` from `strategy.cpp`. -/
def GAP_SPREAD : Nat := 2 * PRICE_TICK

/-- `MARKET_CLOSE_STATE` from `strategy.cpp`. -/
def MARKET_CLOSE_STATE : String := "P_MARJ_YAYIN_KAPANIS"

/-- Strategy state, from `strategy.h`; the configuration fields are the
constructor parameters, the remaining fields carry the in-class default
values. -/
structure Strategy where
  target_book : Nat
  order_quantity : Nat
  max_position : Nat
  min_position : Nat
  position : Nat := 0
  prev_bid : Nat := 0
  prev_ask : Nat := 0
  realized_pnl : Int := 0
  day_closed : Bool := false
  have_prev : Bool := false
deriving DecidableEq, Repr

/-- `Strategy::try_buy`: headroom up to `max_position`; a zero headroom
blocks the trade, otherwise fill `min(order_quantity, headroom)`, pay
`fill * price` out of the realized P&L and go longer.  Returns the new
state and the C++ return value. -/
def Strategy.try_buy (s : Strategy) (price : Nat) : Strategy × Bool :=
  let max_buy := if s.position < s.max_position then s.max_position - s.position else 0
  if max_buy = 0 then (s, false)
  else
    let fill_quantity := min s.order_quantity max_buy
    ({ s with realized_pnl := s.realized_pnl - (fill_quantity : Int) * (price : Int),
              position := s.position + fill_quantity }, true)

/-- `Strategy::try_sell`: headroom down to `min_position`; a zero
headroom blocks the trade, otherwise fill `min(order_quantity,
headroom)`, collect `fill * price` into the realized P&L and go
shorter. -/
def Strategy.try_sell (s : Strategy) (price : Nat) : Strategy × Bool :=
  let max_sell := if s.min_position < s.position then s.position - s.min_position else 0
  if max_sell = 0 then (s, false)
  else
    let fill_quantity := min s.order_quantity max_sell
    ({ s with realized_pnl := s.realized_pnl + (fill_quantity : Int) * (price : Int),
              position := s.position - fill_quantity }, true)

/-- `Strategy::settle_eod`: if the last executed price and the position
are both non-zero, mark the remaining inventory at the last executed
price, then close the day.  Note there is no `day_closed` guard inside
this function. -/
def Strategy.settle_eod (s : Strategy) (ob : Orderbook) : Strategy :=
  let last_price := ob.last_exec_price
  let s1 :=
    if last_price ≠ 0 ∧ s.position ≠ 0 then
      { s with realized_pnl := s.realized_pnl + (s.position : Int) * (last_price : Int) }
    else s
  { s1 with day_closed := true }

/-- `Strategy::end_of_day`: public wrapper around `settle_eod`. -/
def Strategy.end_of_day (s : Strategy) (ob : Orderbook) : Strategy := s.settle_eod ob

/-- The market-close scan at the top of `Strategy::on_batch`: is any
event of the batch a state change equal to the close sentinel? -/
def batchHasClose (batch : List Event) : Bool :=
  batch.any (fun e =>
    e.type == MessageType.OrderbookState && e.orderbook_state == MARKET_CLOSE_STATE)

/-- Unsigned 32-bit subtraction `a - b` as performed on `Price` values
in `Strategy::on_batch` (both operands are `uint32_t`, so the inputs are
reduced and the difference wraps modulo `2^32`). -/
def sub32 (a b : Nat) : Nat := (a % 2 ^ 32 + 2 ^ 32 - b % 2 ^ 32) % 2 ^ 32

/-- The trade the `proceed` chain of `Strategy::on_batch` decides on
once the early exits have been passed. -/
inductive TradeAction where
  | buy (price : Nat)
  | sell (price : Nat)
  | hold
deriving DecidableEq, Repr

/-- The decision logic of `Strategy::on_batch` (the `proceed` flag
chain): require a previous snapshot, require the previous spread tight
and the current spread gapped (computed in `long` arithmetic, i.e. exact
signed arithmetic), then pick the side whose top moved by exactly one
tick (computed in `uint32_t` arithmetic). -/
def tradeDecision (s : Strategy) (curr_bid curr_ask : Nat) : TradeAction :=
  if ¬ s.have_prev then TradeAction.hold
  else if ¬ ((s.prev_ask : Int) - (s.prev_bid : Int) = (TIGHT_SPREAD : Int) ∧
             (curr_ask : Int) - (curr_bid : Int) = (GAP_SPREAD : Int)) then TradeAction.hold
  else if curr_bid % 2 ^ 32 = s.prev_bid % 2 ^ 32 ∧ sub32 curr_ask s.prev_ask = PRICE_TICK then
    TradeAction.buy s.prev_ask
  else if curr_ask % 2 ^ 32 = s.prev_ask % 2 ^ 32 ∧ sub32 s.prev_bid curr_bid = PRICE_TICK then
    TradeAction.sell s.prev_bid
  else TradeAction.hold

/-- Run the decided trade attempt through `try_buy` / `try_sell`. -/
def Strategy.applyAction (s : Strategy) : TradeAction → Strategy
  | TradeAction.buy price => (s.try_buy price).1
  | TradeAction.sell price => (s.try_sell price).1
  | TradeAction.hold => s

/-- `Strategy::on_batch`: early exits for a closed day and an empty
batch; settlement (without a snapshot update) when the batch carries the
close sentinel; early exits when trading is not open or the book has no
top; otherwise run the gap-detection decision and always record the
current top as the new previous snapshot. -/
def Strategy.on_batch (s : Strategy) (ob : Orderbook) (batch : List Event) : Strategy :=
  if s.day_closed then s
  else if batch.isEmpty then s
  else if batchHasClose batch then s.settle_eod ob
  else if ¬ ob.trading_open then s
  else if ¬ ob.has_top then s
  else
    let curr_best_bid := ob.best_bid_price
    let curr_best_ask := ob.best_ask_price
    let s1 := s.applyAction (tradeDecision s curr_best_bid curr_best_ask)
    { s1 with prev_bid := curr_best_bid, prev_ask := curr_best_ask, have_prev := true }

/-- Big-endian value of a byte slice, modelling the shift-and-or
readers `endian::read_u16_be` / `read_u32_be` / `read_u64_be` applied to
a slice of the given width (each byte is taken through the `uint8_t`
cast, hence the `% 256`). -/
def beVal (l : List Nat) : Nat := l.foldl (fun acc b => acc * 256 + b % 256) 0

/-- `ParseSide` from `parse_utils.h` (byte 66 = `'B'`, 83 = `'S'`). -/
def ParseSideByte (c : Nat) : Side :=
  if c = 66 then Side.Buy else if c = 83 then Side.Sell else Side.Unknown

/-- `ParseMessageType` from `parse_utils.h` (byte 79 = `'O'`, 65 = `'A'`,
69 = `'E'`, 68 = `'D'`). -/
def ParseMessageTypeByte (c : Nat) : MessageType :=
  if c = 79 then MessageType.OrderbookState
  else if c = 65 then MessageType.AddOrder
  else if c = 69 then MessageType.ExecuteOrder
  else if c = 68 then MessageType.DeleteOrder
  else MessageType.Other

/-- The state-string trim loop of `parse_message`: drop trailing space
bytes (32). -/
def dropTrailingSpaces (l : List Nat) : List Nat :=
  (l.reverse.dropWhile (fun b => b == 32)).reverse

/-- Byte list to the `std::string` it is assigned to. -/
def stringOfBytes (l : List Nat) : String := String.mk (l.map Char.ofNat)

/-- `MOLDUDP64_HEADER_SIZE` from `itch_parser.cpp`. -/
def MOLDUDP64_HEADER_SIZE : Nat := 20

/-- `MAX_MESSAGE_COUNT` from `itch_parser.cpp`. -/
def MAX_MESSAGE_COUNT : Nat := 10000

/-- `MAX_MESSAGE_LENGTH` from `itch_parser.cpp`. -/
def MAX_MESSAGE_LENGTH : Nat := 65535

/-- `ItchParser::parse_message`: discriminate on the first payload byte,
bounds-check the fixed layout of the kind, and populate the event; a
payload too short for its kind degrades the event to `Other` with all
other fields still default, and an unrecognized kind byte yields a
default (`Other`) event.  The execute layout carries no price field, so
`event.price` keeps its zero default there. -/
def ItchParser.parse_message (msg : List Nat) : Event :=
  if msg.length < 1 then {}
  else
    let type := ParseMessageTypeByte (msg.getD 0 0)
    let body := msg.drop 1
    match type with
    | MessageType.OrderbookState =>
      if body.length < 4 + 4 + 20 then { type := MessageType.Other }
      else
        { type := MessageType.OrderbookState,
          nanosec := beVal (body.take 4),
          orderbook_id := beVal ((body.drop 4).take 4),
          orderbook_state := stringOfBytes (dropTrailingSpaces ((body.drop 8).take 20)) }
    | MessageType.AddOrder =>
      if body.length < 4 + 8 + 4 + 1 + 4 + 8 + 4 + 2 + 1 + 8 then { type := MessageType.Other }
      else
        { type := MessageType.AddOrder,
          nanosec := beVal (body.take 4),
          order_id := beVal ((body.drop 4).take 8),
          orderbook_id := beVal ((body.drop 12).take 4),
          side := ParseSideByte (body.getD 16 0),
          ranking_seq_num := beVal ((body.drop 17).take 4),
          quantity := beVal ((body.drop 21).take 8),
          price := beVal ((body.drop 29).take 4),
          ranking_time := beVal ((body.drop 36).take 8) }
    | MessageType.ExecuteOrder =>
      if body.length < 4 + 8 + 4 + 1 + 8 then { type := MessageType.Other }
      else
        { type := MessageType.ExecuteOrder,
          nanosec := beVal (body.take 4),
          order_id := beVal ((body.drop 4).take 8),
          orderbook_id := beVal ((body.drop 12).take 4),
          side := ParseSideByte (body.getD 16 0),
          quantity := beVal ((body.drop 17).take 8) }
    | MessageType.DeleteOrder =>
      if body.length < 4 + 8 + 4 + 1 then { type := MessageType.Other }
      else
        { type := MessageType.DeleteOrder,
          nanosec := beVal (body.take 4),
          order_id := beVal ((body.drop 4).take 8),
          orderbook_id := beVal ((body.drop 12).take 4),
          side := ParseSideByte (body.getD 16 0) }
    | MessageType.Other => { type := MessageType.Other }

/-- The message loop of `ItchParser::next_packet`, with the remaining
message count as fuel: a short read of the length prefix or of the
payload, or an out-of-range message length, stops the packet, emitting
what was decoded before; a message whose `parse_message` result is
`Other` (unknown kind byte or too-short payload) is not pushed into the
result, and decoding continues with the next message.  (The C++ check
`buffer_.empty() || msg_len == 0` is unreachable because `msg_len >= 1`
was already enforced.) -/
def nextPacketLoop : Nat → List Nat → List Event
  | 0, _ => []
  | count + 1, s =>
    if s.length < 2 then []
    else
      let msg_len := beVal (s.take 2)
      let s1 := s.drop 2
      if msg_len < 1 ∨ msg_len > MAX_MESSAGE_LENGTH then []
      else if s1.length < msg_len then []
      else
        let ev := ItchParser.parse_message (s1.take msg_len)
        if ev.type ≠ MessageType.Other then ev :: nextPacketLoop count (s1.drop msg_len)
        else nextPacketLoop count (s1.drop msg_len)

/-- `ItchParser::next_packet` applied to the byte stream, returning the
events yielded for the packet at the head of the stream: read the 20-byte
MoldUDP64 header (an end-of-source / short read yields no events), reject
a zero or oversized message count, then run the per-message loop. -/
def ItchParser.next_packet (s : List Nat) : List Event :=
  if s.length < MOLDUDP64_HEADER_SIZE then []
  else
    let header := s.take MOLDUDP64_HEADER_SIZE
    let count := beVal ((header.drop 18).take 2)
    if count = 0 ∨ count > MAX_MESSAGE_COUNT then []
    else nextPacketLoop count (s.drop MOLDUDP64_HEADER_SIZE)

/-- The trade attempt a full `on_batch` call decides on: `hold` on every
early-exit path (closed day, empty batch, close sentinel, trading not
open, no top), otherwise the decision of the `proceed` chain.  This is
the control-flow observer used to state "a trade is attempted". -/
def onBatchTrade (s : Strategy) (ob : Orderbook) (batch : List Event) : TradeAction :=
  if s.day_closed then TradeAction.hold
  else if batch.isEmpty then TradeAction.hold
  else if batchHasClose batch then TradeAction.hold
  else if ¬ ob.trading_open then TradeAction.hold
  else if ¬ ob.has_top then TradeAction.hold
  else tradeDecision s ob.best_bid_price ob.best_ask_price

/-- Sum of `order_count` (`num_orders`) over all levels of both sides,
the right-hand side of spec property P1. -/
def sumCounts (b : Orderbook) : Nat :=
  (b.bids.map (fun p => p.2.num_orders)).sum + (b.asks.map (fun p => p.2.num_orders)).sum

/-- Event literal for an add (the fields `Orderbook::handle_add`
reads). -/
def make_add (id : Nat) (side : Side) (px qty rt rsn : Nat) : Event :=
  { type := MessageType.AddOrder, order_id := id, side := side, price := px,
    quantity := qty, ranking_time := rt, ranking_seq_num := rsn }

/-- Event literal for an execute (the fields `Orderbook::handle_exec`
reads; the decoder always leaves `price` zero, but the field is kept
settable to probe `handle_exec`). -/
def make_exec (id : Nat) (side : Side) (qty px : Nat) : Event :=
  { type := MessageType.ExecuteOrder, order_id := id, side := side, quantity := qty, price := px }

/-- Event literal for a delete. -/
def make_del (id : Nat) (side : Side) : Event :=
  { type := MessageType.DeleteOrder, order_id := id, side := side }

/-- Event literal for a state change. -/
def make_state (st : String) : Event :=
  { type := MessageType.OrderbookState, orderbook_state := st }

/-- A small book used for concrete instances: continuous trading open,
best bid 100 and asks 110 / 120 (the seed of spec scenario 1, thinned). -/
def seedBook : Orderbook :=
  applyEvents emptyBook
    [make_state "P_SUREKLI_ISLEM",
     make_add 1000 Side.Buy 100 1000 1 1,
     make_add 2000 Side.Sell 110 1000 1 1,
     make_add 2001 Side.Sell 120 1000 1 2]

/-- `seedBook` after the best ask is executed away in full: top becomes
100 / 120 and `last_exec_price` 110 (spec scenario 2). -/
def gapBook : Orderbook := seedBook.apply (make_exec 2000 Side.Sell 1000 0)

/-- The strategy of the simulation test: order quantity 100, position
limits [0, 500]. -/
def simStrategy : Strategy :=
  { target_book := 123, order_quantity := 100, max_position := 500, min_position := 0 }

/-- `simStrategy` holding the recorded tight snapshot 100 / 110. -/
def tightStrategy : Strategy := { simStrategy with prev_bid := 100, prev_ask := 110, have_prev := true }

/-- A book whose sides are populated while trading is not open. -/
def closedSeedBook : Orderbook :=
  applyEvents emptyBook
    [make_add 1000 Side.Buy 100 1000 1 1,
     make_add 2000 Side.Sell 110 1000 1 1]

/-- Strategy state holding an open long position of 100, used to probe
settlement. -/
def posStrategy : Strategy := { simStrategy with position := 100 }

/-- Packet bytes: a MoldUDP64 header announcing one message, followed by
a single one-byte message whose kind byte `88` (`'X'`) is unknown. -/
def pktUnknown : List Nat :=
  List.replicate 10 0 ++ List.replicate 8 0 ++ [0, 1] ++ [0, 1] ++ [88]

/-- All FIFO nodes of the book, across both sides. -/
def allNodes (b : Orderbook) : List FifoNode :=
  (b.bids.map (fun p => p.2.fifo)).flatten ++ (b.asks.map (fun p => p.2.fifo)).flatten

/-- Reachable-state invariant: every live node's tag was allocated below
the tag counter (list nodes live in the book only after an insertion that
bumped `next_tag` past their tag). -/
def TagsBelow (b : Orderbook) : Prop :=
  ∀ nd ∈ allNodes b, nd.tag < b.next_tag

/-- Reachable-state invariant: stored levels are never empty (spec:
"empty levels are unreachable"). -/
def LevelsNonempty (b : Orderbook) : Prop :=
  (∀ p ∈ b.bids, 1 ≤ p.2.num_orders) ∧ (∀ p ∈ b.asks, 1 ≤ p.2.num_orders)

/-- Reachable-state invariant: each side map is sorted by its
comparator, as `std::map` guarantees. -/
def SortedSides (b : Orderbook) : Prop :=
  List.Pairwise (fun x y => bidBefore x.1 y.1 = true) b.bids ∧
  List.Pairwise (fun x y => askBefore x.1 y.1 = true) b.asks

/-- The (price, aggregate) projection of a side map — everything a
snapshot can observe of it. -/
def levelsView (m : SideMap) : List (Nat × Nat) :=
  m.map (fun p => (p.1, p.2.aggregate))

/-- Non-decreasing ranking order within a FIFO: no later node's
(ranking_time, ranking_seq) key is strictly below an earlier node's. -/
def FifoOrdered (l : List FifoNode) : Prop :=
  List.Pairwise (fun x y => ltOrderKey y.ord x.ord = false) l

/-- Every level of a side map has an ordered FIFO. -/
def FifosOrderedIn (m : SideMap) : Prop := ∀ p ∈ m, FifoOrdered p.2.fifo

/-- Every FIFO of the book is ordered (spec invariant P3). -/
def AllFifosOrdered (b : Orderbook) : Prop :=
  FifosOrderedIn b.bids ∧ FifosOrderedIn b.asks

def levelAggregate (b : Orderbook) (side : Side) (price : Nat) : Nat :=
  match b.sideFind side price with
  | some lvl => lvl.aggregate
  | none => 0

def levelCount (b : Orderbook) (side : Side) (price : Nat) : Nat :=
  match b.sideFind side price with
  | some lvl => lvl.num_orders
  | none => 0

def levelHas (b : Orderbook) (side : Side) (price : Nat) : Bool :=
  (b.sideFind side price).isSome

def lookupOrder (b : Orderbook) (id : Nat) : Option Order :=
  match indexFind b.index id with
  | none => none
  | some hdl =>
    match b.sideFind hdl.side hdl.price with
    | none => none
    | some lvl => (fifoFindTag lvl.fifo hdl.tag).map (fun nd => nd.ord)

def KeysNodup (b : Orderbook) : Prop :=
  (b.bids.map (fun p => p.1)).Nodup ∧ (b.asks.map (fun p => p.1)).Nodup

def IndexKeysNodup (b : Orderbook) : Prop :=
  (b.index.map (fun p => p.1)).Nodup


/-- The two-byte big-endian encoding of a 16-bit value, the spec's wire
format for the message-count and message-length fields. -/
def u16be (n : Nat) : List Nat := [n / 256 % 256, n % 256]

/-- Spec wire format: each message is a two-byte big-endian length prefix
followed by its payload bytes. -/
def encodeMessages (msgs : List (List Nat)) : List Nat :=
  (msgs.map (fun m => u16be m.length ++ m)).flatten

/-- Spec wire format of one MoldUDP64 packet: a 10-byte session, an
8-byte sequence number, a two-byte big-endian message count, then the
length-prefixed messages.  Stated from the spec's framing description, to
be compared with the decoder `ItchParser.next_packet` from the source. -/
def encodePacket (session seq : List Nat) (msgs : List (List Nat)) : List Nat :=
  session ++ seq ++ u16be msgs.length ++ encodeMessages msgs


def sideMapOf (b : Orderbook) (s : Side) : SideMap :=
  if s = Side.Buy then b.bids else b.asks

def selBid (s : Side) : Bool := s == Side.Buy

def cmpFor (s : Side) : Nat → Nat → Bool :=
  if s = Side.Buy then bidBefore else askBefore

def resolveHandle (b : Orderbook) (hdl : OrderHandle) : Option FifoNode :=
  match b.sideFind hdl.side hdl.price with
  | none => none
  | some lvl => fifoFindTag lvl.fifo hdl.tag

def noDupAdds : Orderbook → List Event → Bool
  | _, [] => true
  | b, e :: es =>
    (if e.type = MessageType.AddOrder then (indexFind b.index e.order_id).isNone else true)
      && noDupAdds (b.apply e) es

structure BookInv (b : Orderbook) : Prop where
  count : b.index.length = sumCounts b
  lens : ∀ s : Side, ∀ p ∈ sideMapOf b s, p.2.num_orders = p.2.fifo.length
  ftags : ∀ s : Side, ∀ p ∈ sideMapOf b s, (p.2.fifo.map (fun nd => nd.tag)).Nodup
  keys : ∀ s : Side, ((sideMapOf b s).map (fun p => p.1)).Nodup
  sorted : ∀ s : Side, List.Pairwise (fun x y => cmpFor s x.1 y.1 = true) (sideMapOf b s)
  ikeys : (b.index.map (fun p => p.1)).Nodup
  tags : ∀ s : Side, ∀ p ∈ sideMapOf b s, ∀ nd ∈ p.2.fifo, nd.tag < b.next_tag
  resolve : ∀ p ∈ b.index, ∃ nd, resolveHandle b p.2 = some nd ∧ nd.ord.id = p.1
  indexed : ∀ s : Side, ∀ p ∈ sideMapOf b s, ∀ nd ∈ p.2.fifo,
    ∃ hdl, indexFind b.index nd.ord.id = some hdl ∧
      selBid hdl.side = selBid s ∧ hdl.price = p.1 ∧ hdl.tag = nd.tag

def mapNumSum (m : SideMap) : Nat := (m.map (fun p => p.2.num_orders)).sum

def addFix (price : Nat) (lvl : PriceLevel) : PriceLevel :=
  if lvl.price = 0 then { lvl with price := price } else lvl

def addIns (nd0 : FifoNode) (lvl : PriceLevel) : PriceLevel :=
  let lvl1 := addFix nd0.ord.price lvl
  { lvl1 with fifo := fifoInsert nd0 lvl1.fifo,
              aggregate := lvl1.aggregate + nd0.ord.quantity,
              num_orders := lvl1.num_orders + 1 }

def removeNode (b : Orderbook) (id : Nat) (hdl : OrderHandle) (q px : Nat) : Orderbook :=
  let b1 := b.updateLevel hdl.side hdl.price (fun l =>
    { l with aggregate := l.aggregate - q,
             num_orders := l.num_orders - 1,
             fifo := fifoEraseTag l.fifo hdl.tag })
  let b2 := { b1 with index := indexErase b1.index id, last_exec_price := px }
  b2.erase_level_if_empty hdl.side hdl.price

/-- Claim C10 (confirmed): there is an event sequence, accepted with at
most warnings, after which `has_top` is true while `best_bid_price` is 0:
an add with quantity 0 on the bid side leaves a level with zero aggregate
(so `has_top`, which only tests map non-emptiness, is true), while the
best-price query skips zero-aggregate levels and falls through to 0. -/
theorem C10_has_top_zero_best :
    ∃ evs : List Event,
      (applyEvents emptyBook evs).has_top = true ∧
      (applyEvents emptyBook evs).best_bid_price = 0 :=
  ⟨[make_add 10 Side.Buy 100 0 1 1, make_add 11 Side.Sell 110 5 1 1], by decide⟩

/-- Claim C2, counterexample: after an add for order id 1 followed by a
second add with the same id, the index holds one entry (the second add
overwrote the first) while the levels hold two orders, so
`order_index.size()` differs from the sum of `order_count` — the claim's
"including sequences containing an AddOrder whose order id is already
present" is false on the code. -/
theorem C2_counterexample :
    (applyEvents emptyBook [make_add 1 Side.Buy 100 5 1 1, make_add 1 Side.Buy 100 7 1 2]).order_count
        = 1 ∧
    sumCounts (applyEvents emptyBook [make_add 1 Side.Buy 100 5 1 1, make_add 1 Side.Buy 100 7 1 2])
        = 2 := by
  decide

/-- Claim C4, counterexample: on `seedBook`, an execute for the resting
order 2000 with quantity `10^9 + 1` (greater than the order's remaining
1000) does not remove the order — the book is returned unchanged — and an
execute with quantity 0 and price 7 neither reduces the order nor sets
`last_exec_price` to 7: both are rejected by the suspicious-quantity
guard, contradicting the claim's "In particular this holds for event
quantity 0 and for event quantities greater than 10^9". -/
theorem C4_counterexample :
    seedBook.apply (make_exec 2000 Side.Sell (10 ^ 9 + 1) 0) = seedBook ∧
    seedBook.apply (make_exec 2000 Side.Sell 0 7) = seedBook ∧
    seedBook.order_count = 3 ∧
    seedBook.last_exec_price = 0 := by
  decide

/-- Claim C5, counterexample: with an open position of 100 and
`last_exec_price` 110, one settlement yields realized P&L 11000 but a
second settlement adds the mark again, yielding 22000 — settlement run
twice is not the same as settlement run once. -/
theorem C5_counterexample :
    (posStrategy.settle_eod gapBook).realized_pnl = 11000 ∧
    ((posStrategy.settle_eod gapBook).settle_eod gapBook).realized_pnl = 22000 := by
  decide

/-- Settlement never touches the position. -/
theorem settle_position (s : Strategy) (ob : Orderbook) :
    (s.settle_eod ob).position = s.position := by
  simp only [Strategy.settle_eod]
  split_ifs <;> rfl

/-- Settlement always sets `day_closed`. -/
theorem settle_day_closed (s : Strategy) (ob : Orderbook) :
    (s.settle_eod ob).day_closed = true := by
  simp [Strategy.settle_eod]

/-- The realized P&L change of one settlement run. -/
theorem settle_pnl (s : Strategy) (ob : Orderbook) :
    (s.settle_eod ob).realized_pnl
      = s.realized_pnl
        + (if ob.last_exec_price ≠ 0 ∧ s.position ≠ 0
           then (s.position : Int) * (ob.last_exec_price : Int) else 0) := by
  simp only [Strategy.settle_eod]
  split_ifs <;> simp

/-- A closed day makes `on_batch` the identity. -/
theorem on_batch_closed (s : Strategy) (ob : Orderbook) (batch : List Event)
    (h : s.day_closed = true) : s.on_batch ob batch = s := by
  unfold Strategy.on_batch
  rw [if_pos h]

/-- Claim C5 (corrected): settlement preserves the position and sets
`day_closed`, but `settle_eod` has no `day_closed` guard, so running it
twice adds `position * last_exec_price` to the realized P&L a second time
whenever both are non-zero (hence double settlement equals single
settlement only when the position or the last executed price is zero);
once `day_closed` is set, every subsequent `on_batch` call returns the
strategy unchanged. -/
theorem C5_settlement (s : Strategy) (ob ob2 : Orderbook) (batch : List Event) :
    (s.settle_eod ob).position = s.position ∧
    (s.settle_eod ob).day_closed = true ∧
    ((s.settle_eod ob).settle_eod ob).realized_pnl
      = (s.settle_eod ob).realized_pnl
        + (if ob.last_exec_price ≠ 0 ∧ s.position ≠ 0
           then (s.position : Int) * (ob.last_exec_price : Int) else 0) ∧
    Strategy.on_batch (s.settle_eod ob) ob2 batch = s.settle_eod ob := by
  refine ⟨settle_position s ob, settle_day_closed s ob, ?_, ?_⟩
  · rw [settle_pnl (s.settle_eod ob) ob, settle_position s ob]
  · exact on_batch_closed _ ob2 batch (settle_day_closed s ob)

/-- Claim C6, counterexample: a packet announcing one message whose
single payload byte is the unknown kind `'X'` yields an empty event
sequence — `parse_message` marks the message `Other`, but `next_packet`
filters `Other` events out instead of including them in the yielded
sequence, contradicting "one event per message ... contributes an event
of kind Other to the yielded sequence". -/
theorem C6_counterexample :
    (ItchParser.parse_message [88]).type = MessageType.Other ∧
    ItchParser.next_packet pktUnknown = [] := by
  decide

/-- Claim C3, counterexample: with the day open, a non-empty batch free
of the close sentinel, and a book whose sides are populated but whose
trading state is closed, `on_batch` returns the strategy unchanged — it
does not record the current top nor set `have_prev`, contradicting the
claim for the "book is not trading-open" case. -/
theorem C3_counterexample :
    Strategy.on_batch simStrategy closedSeedBook [make_add 5 Side.Buy 90 5 2 1] = simStrategy ∧
    simStrategy.have_prev = false ∧
    closedSeedBook.trading_open = false ∧
    closedSeedBook.has_top = true := by
  decide

/-- Claim C3 (corrected): for an `on_batch` call with the day open and
a non-empty batch free of the end-of-day sentinel, the current top is
recorded (and `have_prev` set, with no trade attempted) only in the
no-previous-snapshot case with the book trading-open and topped; when the
book is not trading-open or has no top, the call returns the strategy
state completely unchanged. -/
theorem on_batch_act (s : Strategy) (ob : Orderbook) (batch : List Event)
    (hclosed : s.day_closed = false) (hne : batch ≠ [])
    (hsent : batchHasClose batch = false) (hopen : ob.trading_open = true)
    (htop : ob.has_top = true) :
    s.on_batch ob batch
      = { s.applyAction (tradeDecision s ob.best_bid_price ob.best_ask_price) with
          prev_bid := ob.best_bid_price, prev_ask := ob.best_ask_price,
          have_prev := true } := by
  unfold Strategy.on_batch
  rw [if_neg (by simp [hclosed]), if_neg (by simp [hne]), if_neg (by simp [hsent]),
    if_neg (by simp [hopen]), if_neg (by simp [htop])]

/-- Without a top or outside continuous trading, `on_batch` with an open
day, a non-empty batch, and no close sentinel is the identity. -/
theorem on_batch_skip (s : Strategy) (ob : Orderbook) (batch : List Event)
    (hclosed : s.day_closed = false) (hne : batch ≠ [])
    (hsent : batchHasClose batch = false)
    (hcase : ob.trading_open = false ∨ ob.has_top = false) :
    s.on_batch ob batch = s := by
  unfold Strategy.on_batch
  rw [if_neg (by simp [hclosed]), if_neg (by simp [hne]), if_neg (by simp [hsent])]
  rcases hcase with hcase | hcase
  · rw [if_pos (by simp [hcase])]
  · by_cases hopen : ob.trading_open = true
    · rw [if_neg (by simp [hopen]), if_pos (by simp [hcase])]
    · rw [if_pos hopen]

/-- With no previous snapshot, the decision chain holds. -/
theorem tradeDecision_no_prev (s : Strategy) (cb ca : Nat) (hprev : s.have_prev = false) :
    tradeDecision s cb ca = TradeAction.hold := by
  unfold tradeDecision
  rw [if_pos (by simp [hprev])]

/-- Claim C3 (corrected): for an `on_batch` call with the day open and
a non-empty batch free of the end-of-day sentinel, the current top is
recorded (and `have_prev` set, with no trade attempted) only in the
no-previous-snapshot case with the book trading-open and topped; when the
book is not trading-open or has no top, the call returns the strategy
state completely unchanged. -/
theorem C3_records_top (s : Strategy) (ob : Orderbook) (batch : List Event)
    (hclosed : s.day_closed = false) (hne : batch ≠ [])
    (hsent : batchHasClose batch = false) :
    (ob.trading_open = true → ob.has_top = true → s.have_prev = false →
      s.on_batch ob batch
        = { s with prev_bid := ob.best_bid_price, prev_ask := ob.best_ask_price,
                   have_prev := true }) ∧
    (ob.trading_open = false ∨ ob.has_top = false → s.on_batch ob batch = s) := by
  constructor
  · intro hopen htop hprev
    rw [on_batch_act s ob batch hclosed hne hsent hopen htop,
      tradeDecision_no_prev s _ _ hprev]
    rfl
  · intro hcase
    exact on_batch_skip s ob batch hclosed hne hsent hcase

/-- Witness for C3_records_top: on `seedBook` (trading open, top
100 / 110) with no previous snapshot, the call records 100 / 110 and sets
`have_prev`. -/
theorem C3_witness :
    Strategy.on_batch simStrategy seedBook [make_add 5 Side.Buy 90 5 2 1]
      = { simStrategy with prev_bid := 100, prev_ask := 110, have_prev := true } := by
  have h := (C3_records_top simStrategy seedBook [make_add 5 Side.Buy 90 5 2 1]
    rfl (by simp) rfl).1 (by decide) (by decide) rfl
  rw [h]; decide

/-- Claim C1, counterexample: with a recorded tight snapshot 100 / 110,
the gapped book 100 / 120 (trading open, topped, day open) and an empty
batch — which trivially contains no end-of-day sentinel — the claim's
vanished-ask shape holds and it demands a BUY attempt at 110, yet
`on_batch` returns at the empty-batch early exit: no trade is attempted
and the state is unchanged. -/
theorem C1_counterexample :
    tradeDecision tightStrategy gapBook.best_bid_price gapBook.best_ask_price
      = TradeAction.buy 110 ∧
    onBatchTrade tightStrategy gapBook [] = TradeAction.hold ∧
    Strategy.on_batch tightStrategy gapBook [] = tightStrategy ∧
    tightStrategy.day_closed = false ∧
    gapBook.trading_open = true ∧
    gapBook.has_top = true ∧
    tightStrategy.have_prev = true := by
  decide

/-- Unsigned 32-bit subtraction recovers an exact difference when no
wrap occurs. -/
theorem sub32_add (b d : Nat) (h : b + d < 2 ^ 32) (hb : b < 2 ^ 32) :
    sub32 (b + d) b = d := by
  unfold sub32
  rw [Nat.mod_eq_of_lt h, Nat.mod_eq_of_lt hb]
  have h1 : b + d + 2 ^ 32 - b = d + 2 ^ 32 := by omega
  rw [h1, Nat.add_mod_right]
  exact Nat.mod_eq_of_lt (by omega)

/-- Reduction of `onBatchTrade` to the decision chain once every early
exit of `on_batch` has been ruled out. -/
theorem onBatchTrade_eq_decision (s : Strategy) (ob : Orderbook) (batch : List Event)
    (hclosed : s.day_closed = false) (hne : batch ≠ [])
    (hsent : batchHasClose batch = false) (hopen : ob.trading_open = true)
    (htop : ob.has_top = true) :
    onBatchTrade s ob batch = tradeDecision s ob.best_bid_price ob.best_ask_price := by
  unfold onBatchTrade
  rw [if_neg (by simp [hclosed]), if_neg (by simp [hne]), if_neg (by simp [hsent]),
    if_neg (by simp [hopen]), if_neg (by simp [htop])]

/-- Characterization of the decision chain over in-range (`uint32_t`)
prices: the wrapped one-tick comparisons coincide with the exact
arithmetic shapes of the specification. -/
theorem tradeDecision_spec (s : Strategy) (cb ca : Nat) (hprev : s.have_prev = true)
    (hpb : s.prev_bid < 2 ^ 32) (hpa : s.prev_ask < 2 ^ 32)
    (hcb : cb < 2 ^ 32) (hca : ca < 2 ^ 32) :
    tradeDecision s cb ca
      = if (s.prev_ask : Int) - (s.prev_bid : Int) = 10 ∧ (ca : Int) - (cb : Int) = 20 ∧
           cb = s.prev_bid ∧ (ca : Int) - (s.prev_ask : Int) = 10 then
          TradeAction.buy s.prev_ask
        else if (s.prev_ask : Int) - (s.prev_bid : Int) = 10 ∧ (ca : Int) - (cb : Int) = 20 ∧
           ca = s.prev_ask ∧ (s.prev_bid : Int) - (cb : Int) = 10 then
          TradeAction.sell s.prev_bid
        else TradeAction.hold := by
  have e1 : ((TIGHT_SPREAD : Nat) : Int) = 10 := by norm_num [TIGHT_SPREAD, PRICE_TICK]
  have e2 : ((GAP_SPREAD : Nat) : Int) = 20 := by norm_num [GAP_SPREAD, PRICE_TICK]
  unfold tradeDecision
  rw [if_neg (by simp [hprev]), e1, e2]
  by_cases htg : (s.prev_ask : Int) - (s.prev_bid : Int) = 10 ∧ (ca : Int) - (cb : Int) = 20
  · obtain ⟨ht, hg⟩ := htg
    rw [if_neg (not_not_intro ⟨ht, hg⟩)]
    by_cases hcbpb : cb = s.prev_bid
    · have hca_pa : ca = s.prev_ask + 10 := by omega
      have hsub : sub32 ca s.prev_ask = PRICE_TICK := by
        rw [hca_pa]; exact sub32_add s.prev_ask 10 (hca_pa ▸ hca) hpa
      rw [if_pos ⟨by rw [hcbpb], hsub⟩, if_pos ⟨ht, hg, hcbpb, by omega⟩]
    · have hnotbuy : ¬ (cb % 2 ^ 32 = s.prev_bid % 2 ^ 32 ∧ sub32 ca s.prev_ask = PRICE_TICK) := by
        intro hc
        exact hcbpb (by rw [← Nat.mod_eq_of_lt hcb, ← Nat.mod_eq_of_lt hpb]; exact hc.1)
      rw [if_neg hnotbuy]
      by_cases hcapa : ca = s.prev_ask
      · have hpb_cb : s.prev_bid = cb + 10 := by omega
        have hsub : sub32 s.prev_bid cb = PRICE_TICK := by
          rw [hpb_cb]; exact sub32_add cb 10 (hpb_cb ▸ hpb) hcb
        rw [if_pos ⟨by rw [hcapa], hsub⟩, if_neg (fun hc => hcbpb hc.2.2.1),
          if_pos ⟨ht, hg, hcapa, by omega⟩]
      · have hnotsell : ¬ (ca % 2 ^ 32 = s.prev_ask % 2 ^ 32 ∧ sub32 s.prev_bid cb = PRICE_TICK) := by
          intro hc
          exact hcapa (by rw [← Nat.mod_eq_of_lt hca, ← Nat.mod_eq_of_lt hpa]; exact hc.1)
        rw [if_neg hnotsell, if_neg (fun hc => hcbpb hc.2.2.1), if_neg (fun hc => hcapa hc.2.2.1)]
  · rw [if_pos htg, if_neg (fun hc => htg ⟨hc.1, hc.2.1⟩), if_neg (fun hc => htg ⟨hc.1, hc.2.1⟩)]

/-- Claim C1 (corrected: the batch must additionally be non-empty, the
empty batch being an early exit that attempts nothing even when the gap
shape holds): for an `on_batch` call with the day open, a non-empty batch
free of the end-of-day sentinel, the book trading-open with a top, a
previous snapshot recorded, and all prices in `uint32_t` range, a BUY at
`prev_ask` is attempted iff `prev_ask - prev_bid = 10` and
`curr_ask - curr_bid = 20` and `curr_bid = prev_bid` and
`curr_ask - prev_ask = 10`; a SELL at `prev_bid` is attempted iff the
spreads hold with `curr_ask = prev_ask` and `prev_bid - curr_bid = 10`;
in any other shape no trade is attempted; and the call performs exactly
the attempted trade and records the current top. -/
theorem C1_trade_fires_iff (s : Strategy) (ob : Orderbook) (batch : List Event)
    (hclosed : s.day_closed = false) (hne : batch ≠ [])
    (hsent : batchHasClose batch = false) (hopen : ob.trading_open = true)
    (htop : ob.has_top = true) (hprev : s.have_prev = true)
    (hpb : s.prev_bid < 2 ^ 32) (hpa : s.prev_ask < 2 ^ 32)
    (hcb : ob.best_bid_price < 2 ^ 32) (hca : ob.best_ask_price < 2 ^ 32) :
    (onBatchTrade s ob batch = TradeAction.buy s.prev_ask ↔
      ((s.prev_ask : Int) - (s.prev_bid : Int) = 10 ∧
       (ob.best_ask_price : Int) - (ob.best_bid_price : Int) = 20 ∧
       ob.best_bid_price = s.prev_bid ∧
       (ob.best_ask_price : Int) - (s.prev_ask : Int) = 10)) ∧
    (onBatchTrade s ob batch = TradeAction.sell s.prev_bid ↔
      ((s.prev_ask : Int) - (s.prev_bid : Int) = 10 ∧
       (ob.best_ask_price : Int) - (ob.best_bid_price : Int) = 20 ∧
       ob.best_ask_price = s.prev_ask ∧
       (s.prev_bid : Int) - (ob.best_bid_price : Int) = 10)) ∧
    (onBatchTrade s ob batch = TradeAction.hold ↔
      (¬ ((s.prev_ask : Int) - (s.prev_bid : Int) = 10 ∧
          (ob.best_ask_price : Int) - (ob.best_bid_price : Int) = 20 ∧
          ob.best_bid_price = s.prev_bid ∧
          (ob.best_ask_price : Int) - (s.prev_ask : Int) = 10) ∧
       ¬ ((s.prev_ask : Int) - (s.prev_bid : Int) = 10 ∧
          (ob.best_ask_price : Int) - (ob.best_bid_price : Int) = 20 ∧
          ob.best_ask_price = s.prev_ask ∧
          (s.prev_bid : Int) - (ob.best_bid_price : Int) = 10))) ∧
    s.on_batch ob batch
      = { s.applyAction (onBatchTrade s ob batch) with
          prev_bid := ob.best_bid_price, prev_ask := ob.best_ask_price,
          have_prev := true } := by
  have hact := onBatchTrade_eq_decision s ob batch hclosed hne hsent hopen htop
  have hspec := tradeDecision_spec s ob.best_bid_price ob.best_ask_price hprev hpb hpa hcb hca
  rw [hact, hspec]
  refine ⟨?_, ?_, ?_, ?_⟩
  · split_ifs with h1 h2
    · exact iff_of_true rfl h1
    · exact iff_of_false (by simp) h1
    · exact iff_of_false (by simp) h1
  · split_ifs with h1 h2
    · refine iff_of_false (by simp) (fun hB => ?_)
      have h3 := h1.2.2.1
      have h4 := hB.2.2.2
      omega
    · exact iff_of_true rfl h2
    · exact iff_of_false (by simp) h2
  · split_ifs with h1 h2
    · exact iff_of_false (by simp) (fun hc => hc.1 h1)
    · exact iff_of_false (by simp) (fun hc => hc.2 h2)
    · exact iff_of_true rfl ⟨h1, h2⟩
  · rw [← hspec, ← hact, hact]
    exact on_batch_act s ob batch hclosed hne hsent hopen htop

/-- Witness for C1_trade_fires_iff: on the gapped book 100 / 120 with
recorded tight snapshot 100 / 110, a non-empty sentinel-free batch leads
to a BUY attempt at 110, which fills 100 and records the top 100 / 120. -/
theorem C1_witness :
    Strategy.on_batch tightStrategy gapBook [make_exec 2000 Side.Sell 1000 0]
      = { tightStrategy with position := 100, realized_pnl := -11000,
                             prev_bid := 100, prev_ask := 120, have_prev := true } := by
  have h := C1_trade_fires_iff tightStrategy gapBook [make_exec 2000 Side.Sell 1000 0]
    rfl (by simp) rfl (by decide) (by decide) rfl (by decide) (by decide) (by decide) (by decide)
  rw [h.2.2.2]
  decide

/-- A found key belongs to the list. -/
theorem mapFind_mem (m : SideMap) (k : Nat) (v : PriceLevel)
    (h : mapFind m k = some v) : (k, v) ∈ m := by
  induction m with
  | nil => simp [mapFind] at h
  | cons p rest ih =>
    unfold mapFind at h
    by_cases hk : k = p.1
    · rw [if_pos hk] at h
      injection h with h2
      subst h2
      subst hk
      exact List.mem_cons_self p rest
    · rw [if_neg hk] at h
      exact List.mem_cons_of_mem p (ih h)

/-- Emplace keeps a sorted map that already holds the key unchanged
(the comparator is asymmetric, as `std::greater` / `std::less` are). -/
theorem mapEmplace_of_found (bf : Nat → Nat → Bool) (m : SideMap) (k : Nat) (v : PriceLevel)
    (hsorted : List.Pairwise (fun x y => bf x.1 y.1 = true) m)
    (hasym : ∀ a c : Nat, bf a c = true → bf c a = false)
    (h : mapFind m k = some v) : mapEmplace bf m k = m := by
  induction m with
  | nil => simp [mapFind] at h
  | cons p rest ih =>
    simp only [mapFind] at h
    by_cases hk : k = p.1
    · simp [mapEmplace, hk]
    · rw [if_neg hk] at h
      have hmem := mapFind_mem rest k v h
      have hrel : bf p.1 k = true := (List.pairwise_cons.mp hsorted).1 (k, v) hmem
      simp [mapEmplace, hk, hasym p.1 k hrel, ih (List.pairwise_cons.mp hsorted).2 h]

/-- Lookup after emplacing an absent key yields the value-initialized
level. -/
theorem mapFind_emplace_absent (bf : Nat → Nat → Bool) (m : SideMap) (k : Nat)
    (h : mapFind m k = none) : mapFind (mapEmplace bf m k) k = some {} := by
  induction m with
  | nil => simp [mapEmplace, mapFind]
  | cons p rest ih =>
    simp only [mapFind] at h
    by_cases hk : k = p.1
    · simp [hk] at h
    · rw [if_neg hk] at h
      by_cases hbf : bf k p.1
      · simp [mapEmplace, hk, hbf, mapFind]
      · simp [mapEmplace, hk, hbf, mapFind, ih h]

/-- Lookup after an in-place update maps through the update. -/
theorem mapFind_update (m : SideMap) (k : Nat) (f : PriceLevel → PriceLevel) :
    mapFind (mapUpdate m k f) k = (mapFind m k).map f := by
  induction m with
  | nil => simp [mapUpdate, mapFind]
  | cons p rest ih =>
    by_cases hk : k = p.1
    · simp [mapUpdate, mapFind, hk]
    · simp [mapUpdate, mapFind, hk, ih]

/-- Two consecutive updates at the same key compose. -/
theorem mapUpdate_update (m : SideMap) (k : Nat) (f g : PriceLevel → PriceLevel) :
    mapUpdate (mapUpdate m k f) k g = mapUpdate m k (fun v => g (f v)) := by
  induction m with
  | nil => simp [mapUpdate]
  | cons p rest ih =>
    by_cases hk : k = p.1
    · simp [mapUpdate, hk]
    · simp [mapUpdate, hk, ih]

/-- Erasing a key discards any update at that key. -/
theorem mapErase_update (m : SideMap) (k : Nat) (f : PriceLevel → PriceLevel) :
    mapErase (mapUpdate m k f) k = mapErase m k := by
  induction m with
  | nil => simp [mapUpdate, mapErase]
  | cons p rest ih =>
    by_cases hk : k = p.1
    · simp [mapUpdate, mapErase, hk]
    · simp [mapUpdate, mapErase, hk, ih]

/-- Erasing the key just emplaced into a map that lacked it restores the
map. -/
theorem mapErase_emplace_absent (bf : Nat → Nat → Bool) (m : SideMap) (k : Nat)
    (h : mapFind m k = none) : mapErase (mapEmplace bf m k) k = m := by
  induction m with
  | nil => simp [mapEmplace, mapErase]
  | cons p rest ih =>
    simp only [mapFind] at h
    by_cases hk : k = p.1
    · simp [hk] at h
    · rw [if_neg hk] at h
      by_cases hbf : bf k p.1
      · simp [mapEmplace, hk, hbf, mapErase]
      · simp [mapEmplace, hk, hbf, mapErase, ih h]

/-- Updates agreeing on the stored value coincide. -/
theorem mapUpdate_congr_found (m : SideMap) (k : Nat) (f g : PriceLevel → PriceLevel)
    (v : PriceLevel) (h : mapFind m k = some v) (hfg : f v = g v) :
    mapUpdate m k f = mapUpdate m k g := by
  induction m with
  | nil => simp [mapFind] at h
  | cons p rest ih =>
    unfold mapFind at h
    unfold mapUpdate
    by_cases hk : k = p.1
    · rw [if_pos hk] at h
      cases h
      rw [if_pos hk, if_pos hk, hfg]
    · rw [if_neg hk] at h
      rw [if_neg hk, if_neg hk, ih h]

/-- An aggregate-preserving update leaves the snapshot view of the side
unchanged. -/
theorem levelsView_update_found (m : SideMap) (k : Nat) (f : PriceLevel → PriceLevel)
    (v : PriceLevel) (h : mapFind m k = some v) (hagg : (f v).aggregate = v.aggregate) :
    levelsView (mapUpdate m k f) = levelsView m := by
  induction m with
  | nil => simp [mapUpdate]
  | cons p rest ih =>
    unfold mapFind at h
    unfold mapUpdate
    by_cases hk : k = p.1
    · rw [if_pos hk] at h
      cases h
      rw [if_pos hk]
      simp [levelsView, hagg]
    · rw [if_neg hk] at h
      rw [if_neg hk]
      simp only [levelsView, List.map_cons] at *
      rw [ih h]

/-- The snapshot of a side depends only on its (price, aggregate)
view. -/
theorem snapList_eq_of_view (m m' : SideMap) (h : levelsView m = levelsView m') :
    ∀ n, snapList m n = snapList m' n := by
  induction m generalizing m' with
  | nil =>
    cases m' with
    | nil => intro n; rfl
    | cons q rest' => simp [levelsView] at h
  | cons p rest ih =>
    cases m' with
    | nil => simp [levelsView] at h
    | cons q rest' =>
      simp only [levelsView, List.map_cons, List.cons.injEq, Prod.mk.injEq] at h
      obtain ⟨⟨hkey, hagg⟩, hrest⟩ := h
      intro n
      unfold snapList
      rw [hkey, hagg]
      by_cases hn : n = 0
      · simp [hn]
      · rw [if_neg hn, if_neg hn]
        by_cases hpos : 0 < q.2.aggregate
        · rw [if_pos hpos, if_pos hpos, ih rest' hrest (n - 1)]
        · rw [if_neg hpos, if_neg hpos, ih rest' hrest n]

/-- Overwrite-then-find on the index returns the written handle. -/
theorem indexFind_insert (m : IndexMap) (k : Nat) (h : OrderHandle) :
    indexFind (indexInsert m k h) k = some h := by
  induction m with
  | nil => simp [indexInsert, indexFind]
  | cons p rest ih =>
    unfold indexInsert
    by_cases hk : k = p.1
    · simp [indexFind, hk]
    · rw [if_neg hk]
      unfold indexFind
      rw [if_neg hk, ih]

/-- Finding a freshly inserted tag returns the inserted node. -/
theorem fifoFindTag_insert (l : List FifoNode) (t : Nat) (o : Order)
    (h : ∀ x ∈ l, x.tag ≠ t) :
    fifoFindTag (fifoInsert { tag := t, ord := o } l) t = some { tag := t, ord := o } := by
  induction l with
  | nil => simp [fifoInsert, fifoFindTag]
  | cons x rest ih =>
    by_cases hlt : ltOrderKey o x.ord
    · simp [fifoInsert, hlt, fifoFindTag]
    · simp [fifoInsert, hlt, fifoFindTag, h x (List.mem_cons_self x rest),
        ih (fun y hy => h y (List.mem_cons_of_mem x hy))]

/-- Erasing a freshly inserted tag restores the FIFO. -/
theorem fifoEraseTag_insert (l : List FifoNode) (t : Nat) (o : Order)
    (h : ∀ x ∈ l, x.tag ≠ t) :
    fifoEraseTag (fifoInsert { tag := t, ord := o } l) t = l := by
  induction l with
  | nil => simp [fifoInsert, fifoEraseTag]
  | cons x rest ih =>
    by_cases hlt : ltOrderKey o x.ord
    · simp [fifoInsert, hlt, fifoEraseTag]
    · simp [fifoInsert, hlt, fifoEraseTag, h x (List.mem_cons_self x rest),
        ih (fun y hy => h y (List.mem_cons_of_mem x hy))]

/-- The bid comparator is asymmetric. -/
theorem bidBefore_asymm : ∀ a c : Nat, bidBefore a c = true → bidBefore c a = false := by
  intro a c h
  simp only [bidBefore] at h ⊢
  rw [Bool.eq_false_iff, ne_eq, Nat.blt_eq]
  rw [Nat.blt_eq] at h
  omega
/-- The ask comparator is asymmetric. -/
theorem askBefore_asymm : ∀ a c : Nat, askBefore a c = true → askBefore c a = false := by
  intro a c h
  simp only [askBefore] at h ⊢
  rw [Bool.eq_false_iff, ne_eq, Nat.blt_eq]
  rw [Nat.blt_eq] at h
  omega

/-- The price-field initialization of `level_for` does not touch the FIFO. -/
theorem initLevel_fifo (lvl : PriceLevel) (k : Nat) :
    (if lvl.price = 0 then ({ price := k, aggregate := lvl.aggregate, num_orders := lvl.num_orders, fifo := lvl.fifo } : PriceLevel) else lvl).fifo = lvl.fifo := by
  split <;> rfl

/-- The price-field initialization of `level_for` does not touch the aggregate. -/
theorem initLevel_aggregate (lvl : PriceLevel) (k : Nat) :
    (if lvl.price = 0 then ({ price := k, aggregate := lvl.aggregate, num_orders := lvl.num_orders, fifo := lvl.fifo } : PriceLevel) else lvl).aggregate = lvl.aggregate := by
  split <;> rfl

/-- The price-field initialization of `level_for` does not touch the order count. -/
theorem initLevel_num (lvl : PriceLevel) (k : Nat) :
    (if lvl.price = 0 then ({ price := k, aggregate := lvl.aggregate, num_orders := lvl.num_orders, fifo := lvl.fifo } : PriceLevel) else lvl).num_orders = lvl.num_orders := by
  split <;> rfl

/-- Nodes of a bid level are nodes of the book. -/
theorem mem_allNodes_bids (b : Orderbook) (p : Nat × PriceLevel) (hp : p ∈ b.bids)
    (x : FifoNode) (hx : x ∈ p.2.fifo) : x ∈ allNodes b := by
  unfold allNodes
  refine List.mem_append_left _ ?_
  rw [List.mem_flatten]
  exact ⟨p.2.fifo, List.mem_map_of_mem _ hp, hx⟩

/-- Nodes of an ask level are nodes of the book. -/
theorem mem_allNodes_asks (b : Orderbook) (p : Nat × PriceLevel) (hp : p ∈ b.asks)
    (x : FifoNode) (hx : x ∈ p.2.fifo) : x ∈ allNodes b := by
  unfold allNodes
  refine List.mem_append_right _ ?_
  rw [List.mem_flatten]
  exact ⟨p.2.fifo, List.mem_map_of_mem _ hp, hx⟩

set_option maxHeartbeats 1000000 in
/-- Claim C7 (confirmed): on any book state satisfying the reachable-state
invariants (live tags below the tag counter, stored levels non-empty,
sides sorted by their comparators), applying an AddOrder for an id
immediately followed by a DeleteOrder of the same id leaves the book
identical, as observed by a top-N snapshot for every N, to its state
before the add: the delete resolves to exactly the freshly inserted node,
reverses the aggregates, and erases the level iff the add created it. -/
theorem C7_add_delete_restores (b : Orderbook) (addE delE : Event) (n : Nat)
    (htags : TagsBelow b) (hne : LevelsNonempty b) (hsorted : SortedSides b)
    (ha : addE.type = MessageType.AddOrder)
    (hd : delE.type = MessageType.DeleteOrder)
    (hid : delE.order_id = addE.order_id) :
    ((b.apply addE).apply delE).snapshot_n n = b.snapshot_n n := by
  by_cases hside : addE.side = Side.Buy
  · cases hv : mapFind b.bids addE.price with
    | some v =>
      simp only [Orderbook.apply, ha, hd]
      simp only [Orderbook.handle_add, Orderbook.level_for, Orderbook.updateLevel,
        Orderbook.sideFind, hside, if_pos]
      rw [mapEmplace_of_found bidBefore b.bids addE.price v hsorted.1 bidBefore_asymm hv]
      simp only [Orderbook.handle_delete, hid, indexFind_insert]
      simp only [Orderbook.sideFind]
      rw [mapFind_update, mapFind_update, hv]
      simp only [eq_self_iff_true, ite_true, Option.map_some']
      rw [initLevel_fifo v addE.price]
      have hmem : (addE.price, v) ∈ b.bids := mapFind_mem _ _ _ hv
      have hfresh : ∀ x ∈ v.fifo, x.tag ≠ b.next_tag := by
        intro x hx
        exact Nat.ne_of_lt (htags x (mem_allNodes_bids b (addE.price, v) hmem x hx))
      rw [fifoFindTag_insert v.fifo b.next_tag _ hfresh]
      simp only [Orderbook.updateLevel, Orderbook.eraseLevel, Orderbook.erase_level_if_empty,
        Orderbook.sideFind, eq_self_iff_true, ite_true]
      rw [mapUpdate_update, mapUpdate_update, mapFind_update, hv]
      simp only [Option.map_some']
      simp only [initLevel_fifo, initLevel_aggregate, initLevel_num, Nat.add_sub_cancel]
      rw [fifoEraseTag_insert v.fifo b.next_tag { id := addE.order_id, side := Side.Buy, price := addE.price, quantity := addE.quantity, ranking_time := addE.ranking_time, ranking_seq_num := addE.ranking_seq_num } hfresh]
      have hv1 : ¬ v.num_orders = 0 := by
        have h1 : 1 ≤ v.num_orders := hne.1 (addE.price, v) hmem
        omega
      simp only [hv1, if_false, false_and, and_false, ite_false]
      rw [mapUpdate_update]
      unfold Orderbook.snapshot_n
      rw [snapList_eq_of_view (mapUpdate b.bids addE.price _) b.bids
        (levelsView_update_found b.bids addE.price _ v hv rfl) n]
    | none =>
      simp only [Orderbook.apply, ha, hd]
      simp only [Orderbook.handle_add, Orderbook.level_for, Orderbook.updateLevel,
        Orderbook.sideFind, hside, if_pos]
      simp only [Orderbook.handle_delete, hid, indexFind_insert]
      simp only [Orderbook.sideFind]
      rw [mapFind_update, mapFind_update, mapFind_emplace_absent bidBefore b.bids addE.price hv]
      simp only [eq_self_iff_true, ite_true, Option.map_some']
      simp only [fifoInsert, fifoFindTag, eq_self_iff_true, ite_true]
      simp only [Orderbook.updateLevel, Orderbook.erase_level_if_empty, Orderbook.sideFind,
        Orderbook.eraseLevel, eq_self_iff_true, ite_true]
      rw [mapUpdate_update, mapUpdate_update]
      rw [mapFind_update, mapFind_emplace_absent bidBefore b.bids addE.price hv]
      simp only [Option.map_some']
      simp only [fifoEraseTag, eq_self_iff_true, ite_true, Nat.add_sub_cancel, and_self]
      rw [mapErase_update, mapErase_update, mapErase_emplace_absent bidBefore b.bids addE.price hv]
      rfl
  · cases hv : mapFind b.asks addE.price with
    | some v =>
      simp only [Orderbook.apply, ha, hd]
      simp only [Orderbook.handle_add, Orderbook.level_for, Orderbook.updateLevel,
        Orderbook.sideFind, hside, if_false]
      rw [mapEmplace_of_found askBefore b.asks addE.price v hsorted.2 askBefore_asymm hv]
      simp only [Orderbook.handle_delete, hid, indexFind_insert]
      simp only [Orderbook.sideFind, hside, if_false]
      rw [mapFind_update, mapFind_update, hv]
      simp only [eq_self_iff_true, ite_true, Option.map_some']
      rw [initLevel_fifo v addE.price]
      have hmem : (addE.price, v) ∈ b.asks := mapFind_mem _ _ _ hv
      have hfresh : ∀ x ∈ v.fifo, x.tag ≠ b.next_tag := by
        intro x hx
        exact Nat.ne_of_lt (htags x (mem_allNodes_asks b (addE.price, v) hmem x hx))
      rw [fifoFindTag_insert v.fifo b.next_tag _ hfresh]
      simp only [Orderbook.updateLevel, Orderbook.eraseLevel, Orderbook.erase_level_if_empty,
        Orderbook.sideFind, hside, if_false, eq_self_iff_true, ite_true]
      rw [mapUpdate_update, mapUpdate_update, mapFind_update, hv]
      simp only [Option.map_some']
      simp only [initLevel_fifo, initLevel_aggregate, initLevel_num, Nat.add_sub_cancel]
      rw [fifoEraseTag_insert v.fifo b.next_tag { id := addE.order_id, side := addE.side, price := addE.price, quantity := addE.quantity, ranking_time := addE.ranking_time, ranking_seq_num := addE.ranking_seq_num } hfresh]
      have hv1 : ¬ v.num_orders = 0 := by
        have h1 : 1 ≤ v.num_orders := hne.2 (addE.price, v) hmem
        omega
      simp only [hv1, if_false, false_and, and_false, ite_false]
      rw [mapUpdate_update]
      unfold Orderbook.snapshot_n
      rw [snapList_eq_of_view (mapUpdate b.asks addE.price _) b.asks
        (levelsView_update_found b.asks addE.price _ v hv rfl) n]
    | none =>
      simp only [Orderbook.apply, ha, hd]
      simp only [Orderbook.handle_add, Orderbook.level_for, Orderbook.updateLevel,
        Orderbook.sideFind, hside, if_false]
      simp only [Orderbook.handle_delete, hid, indexFind_insert]
      simp only [Orderbook.sideFind, hside, if_false]
      rw [mapFind_update, mapFind_update, mapFind_emplace_absent askBefore b.asks addE.price hv]
      simp only [eq_self_iff_true, ite_true, Option.map_some']
      simp only [fifoInsert, fifoFindTag, eq_self_iff_true, ite_true]
      simp only [Orderbook.updateLevel, Orderbook.erase_level_if_empty, Orderbook.sideFind,
        Orderbook.eraseLevel, hside, if_false, eq_self_iff_true, ite_true]
      rw [mapUpdate_update, mapUpdate_update]
      rw [mapFind_update, mapFind_emplace_absent askBefore b.asks addE.price hv]
      simp only [Option.map_some']
      simp only [fifoEraseTag, eq_self_iff_true, ite_true, Nat.add_sub_cancel, and_self]
      rw [mapErase_update, mapErase_update, mapErase_emplace_absent askBefore b.asks addE.price hv]
      rfl
/-- Witness for C7_add_delete_restores: adding order 42 to `seedBook`
and deleting it restores the top-5 snapshot. -/
theorem C7_witness :
    ((seedBook.apply (make_add 42 Side.Buy 95 7 3 1)).apply (make_del 42 Side.Buy)).snapshot_n 5
      = seedBook.snapshot_n 5 :=
  C7_add_delete_restores seedBook (make_add 42 Side.Buy 95 7 3 1) (make_del 42 Side.Buy) 5
    (by unfold TagsBelow allNodes; decide) (by unfold LevelsNonempty; decide)
    (by unfold SortedSides; decide) rfl rfl rfl

theorem ltOrderKey_iff (a b : Order) :
    ltOrderKey a b = true ↔
      (a.ranking_time < b.ranking_time ∨
       (a.ranking_time = b.ranking_time ∧ a.ranking_seq_num < b.ranking_seq_num)) := by
  simp [ltOrderKey, Nat.blt_eq]

theorem ltOrderKey_asymm (a b : Order) (h : ltOrderKey a b = true) :
    ltOrderKey b a = false := by
  rw [Bool.eq_false_iff, ne_eq, ltOrderKey_iff]
  rw [ltOrderKey_iff] at h
  omega

theorem ltOrderKey_shift (y x nd : Order) (h1 : ltOrderKey y x = false)
    (h2 : ltOrderKey nd x = true) : ltOrderKey y nd = false := by
  rw [Bool.eq_false_iff, ne_eq, ltOrderKey_iff]
  rw [Bool.eq_false_iff, ne_eq, ltOrderKey_iff] at h1
  rw [ltOrderKey_iff] at h2
  omega

theorem mem_fifoInsert (y nd : FifoNode) (l : List FifoNode) (hy : y ∈ fifoInsert nd l) :
    y = nd ∨ y ∈ l := by
  induction l with
  | nil => simp [fifoInsert] at hy; exact Or.inl hy
  | cons x rest ih =>
    unfold fifoInsert at hy
    by_cases hlt : ltOrderKey nd.ord x.ord
    · rw [if_pos hlt] at hy
      rcases List.mem_cons.mp hy with rfl | hy2
      · exact Or.inl rfl
      · exact Or.inr hy2
    · rw [if_neg hlt] at hy
      rcases List.mem_cons.mp hy with rfl | hy2
      · exact Or.inr (List.mem_cons_self _ _)
      · rcases ih hy2 with h | h
        · exact Or.inl h
        · exact Or.inr (List.mem_cons_of_mem x h)

theorem fifoInsert_ordered (nd : FifoNode) (l : List FifoNode) (h : FifoOrdered l) :
    FifoOrdered (fifoInsert nd l) := by
  induction l with
  | nil => simp [fifoInsert, FifoOrdered]
  | cons x rest ih =>
    unfold fifoInsert
    unfold FifoOrdered at *
    rw [List.pairwise_cons] at h
    by_cases hlt : ltOrderKey nd.ord x.ord
    · rw [if_pos hlt]
      rw [List.pairwise_cons]
      refine ⟨?_, List.pairwise_cons.mpr h⟩
      intro y hy
      rcases List.mem_cons.mp hy with rfl | hy2
      · exact ltOrderKey_asymm _ _ hlt
      · exact ltOrderKey_shift y.ord x.ord nd.ord (h.1 y hy2) hlt
    · rw [if_neg hlt]
      rw [List.pairwise_cons]
      refine ⟨?_, ih h.2⟩
      intro y hy
      rcases mem_fifoInsert y nd rest hy with rfl | hy2
      · exact Bool.not_eq_true _ |>.mp hlt
      · exact h.1 y hy2

theorem ltOrderKey_setQty_left (z : Order) (q : Nat) (w : Order) :
    ltOrderKey { z with quantity := q } w = ltOrderKey z w := rfl

theorem ltOrderKey_setQty_right (a z : Order) (q : Nat) :
    ltOrderKey a { z with quantity := q } = ltOrderKey a z := rfl

theorem fifoSetQty_mem (y : FifoNode) (l : List FifoNode) (t q : Nat)
    (hy : y ∈ fifoSetQty l t q) :
    y ∈ l ∨ ∃ z ∈ l, y = { z with ord := { z.ord with quantity := q } } := by
  induction l with
  | nil => simp [fifoSetQty] at hy
  | cons x rest ih =>
    by_cases ht : x.tag = t
    · simp only [fifoSetQty, ht, if_pos] at hy
      rcases List.mem_cons.mp hy with rfl | hy2
      · exact Or.inr ⟨x, List.mem_cons_self _ _, by simp [ht]⟩
      · exact Or.inl (List.mem_cons_of_mem x hy2)
    · simp only [fifoSetQty, ht, if_false] at hy
      rcases List.mem_cons.mp hy with rfl | hy2
      · exact Or.inl (List.mem_cons_self _ _)
      · rcases ih hy2 with h | ⟨z, hz, hzy⟩
        · exact Or.inl (List.mem_cons_of_mem x h)
        · exact Or.inr ⟨z, List.mem_cons_of_mem x hz, hzy⟩

theorem fifoSetQty_ordered (l : List FifoNode) (t q : Nat) (h : FifoOrdered l) :
    FifoOrdered (fifoSetQty l t q) := by
  induction l with
  | nil => simpa [fifoSetQty] using h
  | cons x rest ih =>
    unfold FifoOrdered at *
    rw [List.pairwise_cons] at h
    by_cases ht : x.tag = t
    · simp only [fifoSetQty, ht, if_pos]
      rw [List.pairwise_cons]
      refine ⟨?_, h.2⟩
      intro y hy
      rw [ltOrderKey_setQty_right]
      exact h.1 y hy
    · simp only [fifoSetQty, ht, if_false]
      rw [List.pairwise_cons]
      refine ⟨?_, ih h.2⟩
      intro y hy
      rcases fifoSetQty_mem y rest t q hy with hmem | ⟨z, hz, hzy⟩
      · exact h.1 y hmem
      · subst hzy
        rw [ltOrderKey_setQty_left]
        exact h.1 z hz

theorem fifoEraseTag_sublist (l : List FifoNode) (t : Nat) :
    (fifoEraseTag l t).Sublist l := by
  induction l with
  | nil => simp [fifoEraseTag]
  | cons x rest ih =>
    by_cases ht : x.tag = t
    · simp only [fifoEraseTag, ht, if_pos]
      exact List.sublist_cons_self x rest
    · simp only [fifoEraseTag, ht, if_false]
      exact List.Sublist.cons₂ x ih

theorem fifoEraseTag_ordered (l : List FifoNode) (t : Nat) (h : FifoOrdered l) :
    FifoOrdered (fifoEraseTag l t) :=
  List.Pairwise.sublist (fifoEraseTag_sublist l t) h


theorem mapUpdate_forall (m : SideMap) (k : Nat) (f : PriceLevel → PriceLevel)
    (P : PriceLevel → Prop) (h : ∀ p ∈ m, P p.2) (hf : ∀ v, P v → P (f v)) :
    ∀ p ∈ mapUpdate m k f, P p.2 := by
  induction m with
  | nil => simp [mapUpdate]
  | cons x rest ih =>
    intro p hp
    by_cases hk : k = x.1
    · simp only [mapUpdate, hk, if_pos] at hp
      rcases List.mem_cons.mp hp with rfl | hp2
      · exact hf _ (h x (List.mem_cons_self _ _))
      · exact h p (List.mem_cons_of_mem x hp2)
    · simp only [mapUpdate, hk, if_false] at hp
      rcases List.mem_cons.mp hp with rfl | hp2
      · exact h x (List.mem_cons_self _ _)
      · exact ih (fun q hq => h q (List.mem_cons_of_mem x hq)) p hp2

theorem mapEmplace_forall (bf : Nat → Nat → Bool) (m : SideMap) (k : Nat)
    (P : PriceLevel → Prop) (h : ∀ p ∈ m, P p.2) (h0 : P {}) :
    ∀ p ∈ mapEmplace bf m k, P p.2 := by
  induction m with
  | nil =>
    intro p hp
    simp only [mapEmplace, List.mem_singleton] at hp
    subst hp
    exact h0
  | cons x rest ih =>
    intro p hp
    by_cases hk : k = x.1
    · simp only [mapEmplace, hk, if_pos] at hp
      exact h p (by simpa using hp)
    · simp only [mapEmplace, hk, if_false] at hp
      by_cases hbf : bf k x.1
      · rw [if_pos hbf] at hp
        rcases List.mem_cons.mp hp with rfl | hp2
        · exact h0
        · exact h p (by simpa using hp2)
      · rw [if_neg hbf] at hp
        rcases List.mem_cons.mp hp with rfl | hp2
        · exact h x (List.mem_cons_self _ _)
        · exact ih (fun q hq => h q (List.mem_cons_of_mem x hq)) p hp2

theorem mapErase_forall (m : SideMap) (k : Nat) (P : PriceLevel → Prop)
    (h : ∀ p ∈ m, P p.2) : ∀ p ∈ mapErase m k, P p.2 := by
  induction m with
  | nil => simp [mapErase]
  | cons x rest ih =>
    intro p hp
    by_cases hk : k = x.1
    · simp only [mapErase, hk, if_pos] at hp
      exact h p (List.mem_cons_of_mem x hp)
    · simp only [mapErase, hk, if_false] at hp
      rcases List.mem_cons.mp hp with rfl | hp2
      · exact h x (List.mem_cons_self _ _)
      · exact ih (fun q hq => h q (List.mem_cons_of_mem x hq)) p hp2

theorem sideFind_ordered (m : SideMap) (k : Nat) (lvl : PriceLevel)
    (h : FifosOrderedIn m) (hf : mapFind m k = some lvl) : FifoOrdered lvl.fifo :=
  h (k, lvl) (mapFind_mem m k lvl hf)

theorem updateLevel_ordered (b : Orderbook) (side : Side) (price : Nat)
    (f : PriceLevel → PriceLevel) (h : AllFifosOrdered b)
    (hf : ∀ v, FifoOrdered v.fifo → FifoOrdered (f v).fifo) :
    AllFifosOrdered (b.updateLevel side price f) := by
  unfold Orderbook.updateLevel
  by_cases hside : side = Side.Buy
  · rw [if_pos hside]
    exact ⟨mapUpdate_forall b.bids price f (fun v => FifoOrdered v.fifo) h.1 hf, h.2⟩
  · rw [if_neg hside]
    exact ⟨h.1, mapUpdate_forall b.asks price f (fun v => FifoOrdered v.fifo) h.2 hf⟩

theorem eraseLevel_ordered (b : Orderbook) (side : Side) (price : Nat)
    (h : AllFifosOrdered b) : AllFifosOrdered (b.eraseLevel side price) := by
  unfold Orderbook.eraseLevel
  by_cases hside : side = Side.Buy
  · rw [if_pos hside]
    exact ⟨mapErase_forall b.bids price (fun v => FifoOrdered v.fifo) h.1, h.2⟩
  · rw [if_neg hside]
    exact ⟨h.1, mapErase_forall b.asks price (fun v => FifoOrdered v.fifo) h.2⟩

theorem erase_level_ordered (b : Orderbook) (side : Side) (price : Nat)
    (h : AllFifosOrdered b) : AllFifosOrdered (b.erase_level_if_empty side price) := by
  unfold Orderbook.erase_level_if_empty
  cases hf : b.sideFind side price with
  | none => exact h
  | some lvl =>
    dsimp only
    have hlvl : FifoOrdered lvl.fifo := by
      unfold Orderbook.sideFind at hf
      by_cases hside : side = Side.Buy
      · rw [if_pos hside] at hf
        exact sideFind_ordered b.bids price lvl h.1 hf
      · rw [if_neg hside] at hf
        exact sideFind_ordered b.asks price lvl h.2 hf
    by_cases hn0 : lvl.num_orders = 0
    · rw [if_pos hn0, if_pos ⟨hn0, rfl⟩]
      exact eraseLevel_ordered _ side price (updateLevel_ordered b side price _ h (fun v _ => hlvl))
    · rw [if_neg hn0, if_neg (fun hc => hn0 hc.1)]
      exact updateLevel_ordered b side price _ h (fun v _ => hlvl)


theorem handle_state_ordered (b : Orderbook) (e : Event) (h : AllFifosOrdered b) :
    AllFifosOrdered (b.handle_state e) := h

theorem handle_add_ordered (b : Orderbook) (e : Event) (h : AllFifosOrdered b) :
    AllFifosOrdered (b.handle_add e) := by
  unfold Orderbook.handle_add Orderbook.level_for Orderbook.updateLevel
  dsimp only
  by_cases hside : e.side = Side.Buy
  · simp only [hside, eq_self_iff_true, ite_true]
    refine ⟨?_, h.2⟩
    refine mapUpdate_forall _ _ _ (fun v => FifoOrdered v.fifo) ?_ ?_
    · refine mapUpdate_forall _ _ _ (fun v => FifoOrdered v.fifo) ?_ ?_
      · exact mapEmplace_forall bidBefore b.bids e.price (fun v => FifoOrdered v.fifo) h.1
          List.Pairwise.nil
      · intro v hv
        rw [initLevel_fifo]
        exact hv
    · intro v hv
      exact fifoInsert_ordered _ _ hv
  · simp only [hside, ite_false]
    refine ⟨h.1, ?_⟩
    refine mapUpdate_forall _ _ _ (fun v => FifoOrdered v.fifo) ?_ ?_
    · refine mapUpdate_forall _ _ _ (fun v => FifoOrdered v.fifo) ?_ ?_
      · exact mapEmplace_forall askBefore b.asks e.price (fun v => FifoOrdered v.fifo) h.2
          List.Pairwise.nil
      · intro v hv
        rw [initLevel_fifo]
        exact hv
    · intro v hv
      exact fifoInsert_ordered _ _ hv

theorem handle_exec_ordered (b : Orderbook) (e : Event) (h : AllFifosOrdered b) :
    AllFifosOrdered (b.handle_exec e) := by
  unfold Orderbook.handle_exec
  cases h1 : indexFind b.index e.order_id with
  | none => exact h
  | some hdl =>
    dsimp only
    split
    · exact h
    · cases h2 : b.sideFind hdl.side hdl.price with
      | none => exact h
      | some lvl =>
        dsimp only
        cases h3 : fifoFindTag lvl.fifo hdl.tag with
        | none => exact h
        | some nd =>
          dsimp only
          split
          · apply erase_level_ordered
            exact updateLevel_ordered b hdl.side hdl.price _ h
              (fun v hv => fifoEraseTag_ordered _ _ hv)
          · exact updateLevel_ordered b hdl.side hdl.price _ h
              (fun v hv => fifoSetQty_ordered _ _ _ hv)

theorem handle_delete_ordered (b : Orderbook) (e : Event) (h : AllFifosOrdered b) :
    AllFifosOrdered (b.handle_delete e) := by
  unfold Orderbook.handle_delete
  cases h1 : indexFind b.index e.order_id with
  | none => exact h
  | some hdl =>
    dsimp only
    cases h2 : b.sideFind hdl.side hdl.price with
    | none => exact h
    | some lvl =>
      dsimp only
      cases h3 : fifoFindTag lvl.fifo hdl.tag with
      | none => exact h
      | some nd =>
        dsimp only
        apply erase_level_ordered
        exact updateLevel_ordered b hdl.side hdl.price _ h
          (fun v hv => fifoEraseTag_ordered _ _ hv)

theorem apply_ordered (b : Orderbook) (e : Event) (h : AllFifosOrdered b) :
    AllFifosOrdered (b.apply e) := by
  unfold Orderbook.apply
  cases he : e.type
  case OrderbookState => exact handle_state_ordered b e h
  case AddOrder => exact handle_add_ordered b e h
  case ExecuteOrder => exact handle_exec_ordered b e h
  case DeleteOrder => exact handle_delete_ordered b e h
  case Other => exact h

theorem applyEvents_ordered (evs : List Event) :
    ∀ b : Orderbook, AllFifosOrdered b → AllFifosOrdered (applyEvents b evs) := by
  induction evs with
  | nil => exact fun b h => h
  | cons e rest ih => exact fun b h => ih _ (apply_ordered b e h)

theorem emptyBook_ordered : AllFifosOrdered emptyBook :=
  ⟨fun p hp => absurd hp (List.not_mem_nil p), fun p hp => absurd hp (List.not_mem_nil p)⟩

theorem fifoInsert_eq_takeWhile (nd : FifoNode) (l : List FifoNode) :
    fifoInsert nd l
      = l.takeWhile (fun x => ! ltOrderKey nd.ord x.ord)
        ++ nd :: l.dropWhile (fun x => ! ltOrderKey nd.ord x.ord) := by
  induction l with
  | nil => simp [fifoInsert]
  | cons x rest ih =>
    by_cases hlt : ltOrderKey nd.ord x.ord
    · simp [fifoInsert, hlt, List.takeWhile_cons, List.dropWhile_cons]
    · simp only [fifoInsert, hlt, if_false]
      simp [List.takeWhile_cons, List.dropWhile_cons,
        Bool.not_eq_true _ |>.mp hlt, ih]

theorem fifoInsert_tied (nd : FifoNode) (l : List FifoNode)
    (h : ∀ x ∈ l, ltOrderKey nd.ord x.ord = false ∧ ltOrderKey x.ord nd.ord = false) :
    fifoInsert nd l = l ++ [nd] := by
  induction l with
  | nil => simp [fifoInsert]
  | cons x rest ih =>
    have hx := (h x (List.mem_cons_self _ _)).1
    simp only [fifoInsert, hx, if_false]
    rw [ih (fun y hy => h y (List.mem_cons_of_mem x hy))]
    simp


/-- Claim C8 (confirmed): every AddOrder inserts the new order
immediately before the first existing order whose (ranking_time,
ranking_seq) key strictly exceeds the new order's — equivalently, after
the prefix of orders not strictly greater — or at the end if none
exists; consequently after any sequence of events from the empty book
every level's FIFO is non-decreasing in the ranking key, and an order
tying a run of equal keys is inserted at the end of the tied run. -/
theorem C8_fifo_order :
    (∀ (nd : FifoNode) (l : List FifoNode),
      fifoInsert nd l
        = l.takeWhile (fun x => ! ltOrderKey nd.ord x.ord)
          ++ nd :: l.dropWhile (fun x => ! ltOrderKey nd.ord x.ord)) ∧
    (∀ evs : List Event, AllFifosOrdered (applyEvents emptyBook evs)) ∧
    (∀ (nd : FifoNode) (l : List FifoNode),
      (∀ x ∈ l, ltOrderKey nd.ord x.ord = false ∧ ltOrderKey x.ord nd.ord = false) →
      fifoInsert nd l = l ++ [nd]) :=
  ⟨fifoInsert_eq_takeWhile,
   fun evs => applyEvents_ordered evs emptyBook emptyBook_ordered,
   fifoInsert_tied⟩

/-- Witness for C8_fifo_order: a node tying the single existing key is
inserted at the end. -/
theorem C8_witness :
    fifoInsert { tag := 9, ord := { id := 2, side := Side.Sell, price := 50, quantity := 1, ranking_time := 5, ranking_seq_num := 5 } }
        [{ tag := 1, ord := { id := 1, side := Side.Sell, price := 50, quantity := 2, ranking_time := 5, ranking_seq_num := 5 } }]
      = [{ tag := 1, ord := { id := 1, side := Side.Sell, price := 50, quantity := 2, ranking_time := 5, ranking_seq_num := 5 } },
         { tag := 9, ord := { id := 2, side := Side.Sell, price := 50, quantity := 1, ranking_time := 5, ranking_seq_num := 5 } }] :=
  C8_fifo_order.2.2 _ _ (by decide)


theorem mapFind_erase_self (m : SideMap) (k : Nat)
    (h : (m.map (fun p => p.1)).Nodup) : mapFind (mapErase m k) k = none := by
  induction m with
  | nil => simp [mapErase, mapFind]
  | cons x rest ih =>
    simp only [List.map_cons, List.nodup_cons] at h
    by_cases hk : k = x.1
    · simp only [mapErase, hk, if_pos]
      subst hk
      cases hf : mapFind rest x.1 with
      | none => rfl
      | some v =>
        exact absurd (List.mem_map_of_mem (fun p => p.1) (mapFind_mem rest x.1 v hf)) h.1
    · simp only [mapErase, hk, if_false, mapFind]
      exact ih h.2

theorem indexFind_mem (m : IndexMap) (k : Nat) (v : OrderHandle)
    (h : indexFind m k = some v) : (k, v) ∈ m := by
  induction m with
  | nil => simp [indexFind] at h
  | cons p rest ih =>
    unfold indexFind at h
    by_cases hk : k = p.1
    · rw [if_pos hk] at h
      injection h with h2
      subst h2
      subst hk
      exact List.mem_cons_self p rest
    · rw [if_neg hk] at h
      exact List.mem_cons_of_mem p (ih h)

theorem indexFind_erase_self (m : IndexMap) (k : Nat)
    (h : (m.map (fun p => p.1)).Nodup) : indexFind (indexErase m k) k = none := by
  induction m with
  | nil => simp [indexErase, indexFind]
  | cons x rest ih =>
    simp only [List.map_cons, List.nodup_cons] at h
    by_cases hk : k = x.1
    · simp only [indexErase, hk, if_pos]
      subst hk
      cases hf : indexFind rest x.1 with
      | none => rfl
      | some v =>
        exact absurd (List.mem_map_of_mem (fun p => p.1) (indexFind_mem rest x.1 v hf)) h.1
    · simp only [indexErase, hk, if_false, indexFind]
      exact ih h.2

theorem fifoFindTag_setQty (l : List FifoNode) (t q : Nat) (nd : FifoNode)
    (h : fifoFindTag l t = some nd) :
    fifoFindTag (fifoSetQty l t q) t = some { nd with ord := { nd.ord with quantity := q } } := by
  induction l with
  | nil => simp [fifoFindTag] at h
  | cons x rest ih =>
    unfold fifoFindTag at h
    by_cases ht : x.tag = t
    · rw [if_pos ht] at h
      injection h with h2
      subst h2
      simp [fifoSetQty, ht, fifoFindTag]
    · rw [if_neg ht] at h
      simp only [fifoSetQty, ht, if_false, fifoFindTag]
      exact ih h

theorem fifoFindTag_mem (l : List FifoNode) (t : Nat) (nd : FifoNode)
    (h : fifoFindTag l t = some nd) : nd ∈ l := by
  induction l with
  | nil => simp [fifoFindTag] at h
  | cons x rest ih =>
    unfold fifoFindTag at h
    by_cases ht : x.tag = t
    · rw [if_pos ht] at h
      injection h with h2
      subst h2
      exact List.mem_cons_self _ _
    · rw [if_neg ht] at h
      exact List.mem_cons_of_mem x (ih h)


theorem fifoEraseTag_sum (l : List FifoNode) (t : Nat) (nd : FifoNode)
    (h : fifoFindTag l t = some nd) :
    ((fifoEraseTag l t).map (fun x => x.ord.quantity)).sum
      = (l.map (fun x => x.ord.quantity)).sum - nd.ord.quantity ∧
    (fifoEraseTag l t).length = l.length - 1 := by
  induction l with
  | nil => simp [fifoFindTag] at h
  | cons x rest ih =>
    unfold fifoFindTag at h
    by_cases ht : x.tag = t
    · rw [if_pos ht] at h
      injection h with h2
      subst h2
      simp [fifoEraseTag, ht]
    · rw [if_neg ht] at h
      obtain ⟨ihs, ihl⟩ := ih h
      have hmem : nd ∈ rest := fifoFindTag_mem rest t nd h
      have hle : nd.ord.quantity ≤ (rest.map (fun x => x.ord.quantity)).sum :=
        List.single_le_sum (by intro y hy; omega) _ (List.mem_map_of_mem _ hmem)
      have hlen : 1 ≤ rest.length := List.length_pos.mpr (List.ne_nil_of_mem hmem)
      constructor
      · simp only [fifoEraseTag, ht, if_false, List.map_cons, List.sum_cons, ihs]
        omega
      · simp only [fifoEraseTag, ht, if_false, List.length_cons, ihl]
        omega



theorem mapUpdate_keys (m : SideMap) (k : Nat) (f : PriceLevel → PriceLevel) :
    (mapUpdate m k f).map (fun p => p.1) = m.map (fun p => p.1) := by
  induction m with
  | nil => simp [mapUpdate]
  | cons x rest ih =>
    by_cases hk : k = x.1
    · simp [mapUpdate, hk]
    · simp [mapUpdate, hk, ih]

theorem mapUpdate_self (m : SideMap) (k : Nat) (v : PriceLevel)
    (h : mapFind m k = some v) : mapUpdate m k (fun _ => v) = m := by
  induction m with
  | nil => simp [mapUpdate]
  | cons x rest ih =>
    simp only [mapFind] at h
    by_cases hk : k = x.1
    · rw [if_pos hk] at h
      injection h with h2
      subst h2
      simp [mapUpdate, hk]
    · rw [if_neg hk] at h
      simp [mapUpdate, hk, ih h]

theorem updateLevel_index (b : Orderbook) (side : Side) (price : Nat)
    (f : PriceLevel → PriceLevel) : (b.updateLevel side price f).index = b.index := by
  unfold Orderbook.updateLevel
  split <;> rfl

theorem updateLevel_last_exec (b : Orderbook) (side : Side) (price : Nat)
    (f : PriceLevel → PriceLevel) :
    (b.updateLevel side price f).last_exec_price = b.last_exec_price := by
  unfold Orderbook.updateLevel
  split <;> rfl

theorem updateLevel_sideFind_self (b : Orderbook) (side : Side) (price : Nat)
    (f : PriceLevel → PriceLevel) :
    (b.updateLevel side price f).sideFind side price = (b.sideFind side price).map f := by
  unfold Orderbook.updateLevel Orderbook.sideFind
  by_cases hside : side = Side.Buy
  · simp [hside, mapFind_update]
  · simp [hside, mapFind_update]

theorem updateLevel_keysNodup (b : Orderbook) (side : Side) (price : Nat)
    (f : PriceLevel → PriceLevel) (h : KeysNodup b) :
    KeysNodup (b.updateLevel side price f) := by
  unfold Orderbook.updateLevel KeysNodup
  by_cases hside : side = Side.Buy
  · simp only [hside, ite_true]
    exact ⟨by rw [mapUpdate_keys]; exact h.1, h.2⟩
  · simp only [hside, ite_false]
    exact ⟨h.1, by rw [mapUpdate_keys]; exact h.2⟩

theorem eraseLevel_sideFind_self (b : Orderbook) (side : Side) (price : Nat)
    (h : KeysNodup b) : (b.eraseLevel side price).sideFind side price = none := by
  unfold Orderbook.eraseLevel Orderbook.sideFind
  by_cases hside : side = Side.Buy
  · simp only [hside, ite_true]
    exact mapFind_erase_self b.bids price h.1
  · simp only [hside, ite_false]
    exact mapFind_erase_self b.asks price h.2

theorem eraseLevel_index (b : Orderbook) (side : Side) (price : Nat) :
    (b.eraseLevel side price).index = b.index := by
  unfold Orderbook.eraseLevel
  split <;> rfl

theorem eraseLevel_last_exec (b : Orderbook) (side : Side) (price : Nat) :
    (b.eraseLevel side price).last_exec_price = b.last_exec_price := by
  unfold Orderbook.eraseLevel
  split <;> rfl

theorem erase_level_of_pos (b : Orderbook) (side : Side) (price : Nat) (lvl : PriceLevel)
    (hf : b.sideFind side price = some lvl) (hn : lvl.num_orders ≠ 0) :
    b.erase_level_if_empty side price = b := by
  unfold Orderbook.erase_level_if_empty
  rw [hf]
  dsimp only
  rw [if_neg hn, if_neg (fun hc => hn hc.1)]
  unfold Orderbook.updateLevel Orderbook.sideFind at *
  by_cases hside : side = Side.Buy
  · rw [if_pos hside] at hf
    simp only [hside, ite_true]
    rw [mapUpdate_self b.bids price lvl hf]
  · rw [if_neg hside] at hf
    simp only [hside, ite_false]
    rw [mapUpdate_self b.asks price lvl hf]

theorem erase_level_of_zero (b : Orderbook) (side : Side) (price : Nat) (lvl : PriceLevel)
    (hf : b.sideFind side price = some lvl) (hn : lvl.num_orders = 0) :
    b.erase_level_if_empty side price
      = (b.updateLevel side price (fun _ => { lvl with aggregate := 0 })).eraseLevel side price := by
  unfold Orderbook.erase_level_if_empty
  rw [hf]
  dsimp only
  rw [if_pos hn, if_pos ⟨hn, rfl⟩]

theorem erase_level_index (b : Orderbook) (side : Side) (price : Nat) :
    (b.erase_level_if_empty side price).index = b.index := by
  unfold Orderbook.erase_level_if_empty
  cases hf : b.sideFind side price with
  | none => rfl
  | some lvl =>
    dsimp only
    by_cases hn0 : lvl.num_orders = 0
    · rw [if_pos hn0, if_pos ⟨hn0, rfl⟩, eraseLevel_index, updateLevel_index]
    · rw [if_neg hn0, if_neg (fun hc => hn0 hc.1), updateLevel_index]

theorem erase_level_last_exec (b : Orderbook) (side : Side) (price : Nat) :
    (b.erase_level_if_empty side price).last_exec_price = b.last_exec_price := by
  unfold Orderbook.erase_level_if_empty
  cases hf : b.sideFind side price with
  | none => rfl
  | some lvl =>
    dsimp only
    by_cases hn0 : lvl.num_orders = 0
    · rw [if_pos hn0, if_pos ⟨hn0, rfl⟩, eraseLevel_last_exec, updateLevel_last_exec]
    · rw [if_neg hn0, if_neg (fun hc => hn0 hc.1), updateLevel_last_exec]


theorem exec_full_obs (B1 : Orderbook) (id px : Nat) (side : Side) (price : Nat)
    (lvl1 : PriceLevel)
    (hfind : B1.sideFind side price = some lvl1)
    (hkeys1 : KeysNodup B1)
    (hidx1 : (B1.index.map (fun p => p.1)).Nodup) :
    (({ B1 with index := indexErase B1.index id, last_exec_price := px } : Orderbook).erase_level_if_empty side price).last_exec_price = px ∧
    lookupOrder (({ B1 with index := indexErase B1.index id, last_exec_price := px } : Orderbook).erase_level_if_empty side price) id = none ∧
    levelAggregate (({ B1 with index := indexErase B1.index id, last_exec_price := px } : Orderbook).erase_level_if_empty side price) side price
      = (if lvl1.num_orders = 0 then 0 else lvl1.aggregate) ∧
    levelCount (({ B1 with index := indexErase B1.index id, last_exec_price := px } : Orderbook).erase_level_if_empty side price) side price
      = (if lvl1.num_orders = 0 then 0 else lvl1.num_orders) ∧
    (levelHas (({ B1 with index := indexErase B1.index id, last_exec_price := px } : Orderbook).erase_level_if_empty side price) side price = true
      ↔ lvl1.num_orders ≠ 0) := by
  have hRfind : Orderbook.sideFind { B1 with index := indexErase B1.index id, last_exec_price := px } side price = some lvl1 := hfind
  have hRkeys : KeysNodup { B1 with index := indexErase B1.index id, last_exec_price := px } := hkeys1
  have hRidx : indexFind (indexErase B1.index id) id = none := indexFind_erase_self B1.index id hidx1
  by_cases hn0 : lvl1.num_orders = 0
  · rw [erase_level_of_zero _ side price lvl1 hRfind hn0]
    refine ⟨?_, ?_, ?_, ?_, ?_⟩
    · rw [eraseLevel_last_exec, updateLevel_last_exec]
    · unfold lookupOrder
      rw [eraseLevel_index, updateLevel_index]
      dsimp only
      rw [hRidx]
    · unfold levelAggregate
      rw [eraseLevel_sideFind_self _ side price (updateLevel_keysNodup _ side price _ hRkeys)]
      rw [if_pos hn0]
    · unfold levelCount
      rw [eraseLevel_sideFind_self _ side price (updateLevel_keysNodup _ side price _ hRkeys)]
      rw [if_pos hn0]
    · unfold levelHas
      rw [eraseLevel_sideFind_self _ side price (updateLevel_keysNodup _ side price _ hRkeys)]
      simp [hn0]
  · rw [erase_level_of_pos _ side price lvl1 hRfind hn0]
    refine ⟨rfl, ?_, ?_, ?_, ?_⟩
    · unfold lookupOrder
      dsimp only
      rw [hRidx]
    · unfold levelAggregate
      rw [hRfind, if_neg hn0]
    · unfold levelCount
      rw [hRfind, if_neg hn0]
    · unfold levelHas
      rw [hRfind]
      simp [hn0]

theorem exec_partial_obs (B1 : Orderbook) (px id : Nat) (hdl : OrderHandle)
    (lvl1 : PriceLevel) (ndr : FifoNode)
    (hfindIdx : indexFind B1.index id = some hdl)
    (hfind : B1.sideFind hdl.side hdl.price = some lvl1)
    (hnd : fifoFindTag lvl1.fifo hdl.tag = some ndr) :
    (({ B1 with last_exec_price := px } : Orderbook).last_exec_price = px) ∧
    lookupOrder ({ B1 with last_exec_price := px } : Orderbook) id = some ndr.ord ∧
    levelAggregate ({ B1 with last_exec_price := px } : Orderbook) hdl.side hdl.price = lvl1.aggregate ∧
    levelCount ({ B1 with last_exec_price := px } : Orderbook) hdl.side hdl.price = lvl1.num_orders := by
  refine ⟨rfl, ?_, ?_, ?_⟩
  · unfold lookupOrder
    dsimp only
    rw [hfindIdx]
    dsimp only
    have h2 : Orderbook.sideFind { B1 with last_exec_price := px } hdl.side hdl.price = some lvl1 := hfind
    rw [h2]
    dsimp only
    rw [hnd]
    rfl
  · unfold levelAggregate
    have h2 : Orderbook.sideFind { B1 with last_exec_price := px } hdl.side hdl.price = some lvl1 := hfind
    rw [h2]
  · unfold levelCount
    have h2 : Orderbook.sideFind { B1 with last_exec_price := px } hdl.side hdl.price = some lvl1 := hfind
    rw [h2]

/-- Claim C4 (corrected): for every ExecuteOrder whose order id is in the
index and whose quantity is between 1 and 10^9, apply sets last_exec_price
to the event price if non-zero else the resting order's price, removes the
order and decrements the aggregate and count when the event quantity covers
the remainder, and otherwise reduces the order and aggregate by the event
quantity; a quantity of 0 or above 10^9 leaves the book unchanged. -/
theorem C4_exec_semantics (b : Orderbook) (e : Event) (hdl : OrderHandle)
    (lvl : PriceLevel) (nd : FifoNode)
    (he : e.type = MessageType.ExecuteOrder)
    (h1 : indexFind b.index e.order_id = some hdl)
    (h2 : b.sideFind hdl.side hdl.price = some lvl)
    (h3 : fifoFindTag lvl.fifo hdl.tag = some nd)
    (hsum : lvl.aggregate = (lvl.fifo.map (fun x => x.ord.quantity)).sum)
    (hlen : lvl.num_orders = lvl.fifo.length)
    (hidx : IndexKeysNodup b)
    (hkeys : KeysNodup b)
    (hprice : hdl.price = nd.ord.price) :
    (e.quantity = 0 ∨ e.quantity > 10 ^ 9 → b.apply e = b) ∧
    (1 ≤ e.quantity → e.quantity ≤ 10 ^ 9 →
      (b.apply e).last_exec_price = (if e.price = 0 then nd.ord.price else e.price) ∧
      (nd.ord.quantity ≤ e.quantity →
        lookupOrder (b.apply e) e.order_id = none ∧
        levelAggregate (b.apply e) hdl.side hdl.price
          = levelAggregate b hdl.side hdl.price - nd.ord.quantity ∧
        levelCount (b.apply e) hdl.side hdl.price
          = levelCount b hdl.side hdl.price - 1 ∧
        (levelHas (b.apply e) hdl.side hdl.price = true ↔ lvl.num_orders - 1 ≠ 0)) ∧
      (e.quantity < nd.ord.quantity →
        lookupOrder (b.apply e) e.order_id
          = some { nd.ord with quantity := nd.ord.quantity - e.quantity } ∧
        levelAggregate (b.apply e) hdl.side hdl.price
          = levelAggregate b hdl.side hdl.price - e.quantity ∧
        levelCount (b.apply e) hdl.side hdl.price = levelCount b hdl.side hdl.price)) := by
  have hmax : MAX_SUSPICIOUS_QUANTITY = 10 ^ 9 := by norm_num [MAX_SUSPICIOUS_QUANTITY]
  constructor
  · intro hq
    simp only [Orderbook.apply, he]
    unfold Orderbook.handle_exec
    rw [h1]
    dsimp only
    rw [if_pos (by rw [hmax]; exact hq)]
  · intro hq1 hq2
    have hguard : ¬ (e.quantity = 0 ∨ e.quantity > MAX_SUSPICIOUS_QUANTITY) := by
      rw [hmax]
      push_neg
      exact ⟨by omega, by omega⟩
    simp only [Orderbook.apply, he]
    unfold Orderbook.handle_exec
    rw [h1]
    dsimp only
    rw [if_neg hguard, h2]
    dsimp only
    rw [h3]
    dsimp only
    by_cases hfull : nd.ord.quantity ≤ e.quantity
    · rw [if_pos hfull]
      obtain ⟨o1, o2, o3, o4, o5⟩ := exec_full_obs
        (b.updateLevel hdl.side hdl.price (fun l =>
          { l with aggregate := l.aggregate - nd.ord.quantity, num_orders := l.num_orders - 1,
                   fifo := fifoEraseTag l.fifo hdl.tag }))
        e.order_id (if e.price = 0 then hdl.price else e.price) hdl.side hdl.price
        { lvl with aggregate := lvl.aggregate - nd.ord.quantity, num_orders := lvl.num_orders - 1,
                   fifo := fifoEraseTag lvl.fifo hdl.tag }
        (by rw [updateLevel_sideFind_self, h2]; rfl)
        (updateLevel_keysNodup b hdl.side hdl.price _ hkeys)
        (by rw [updateLevel_index]; exact hidx)
      refine ⟨?_, fun _ => ⟨o2, ?_, ?_, ?_⟩, ?_⟩
      · rw [o1, hprice]
      · rw [o3]
        unfold levelAggregate
        rw [h2]
        dsimp only
        by_cases hn : lvl.num_orders - 1 = 0
        · rw [if_pos hn]
          have hmem := fifoFindTag_mem lvl.fifo hdl.tag nd h3
          have hlen1 : lvl.fifo.length = 1 := by
            have hpos := List.length_pos.mpr (List.ne_nil_of_mem hmem)
            omega
          obtain ⟨a, ha⟩ := List.length_eq_one.mp hlen1
          rw [ha] at hmem
          rw [List.mem_singleton] at hmem
          subst hmem
          rw [ha] at hsum
          simp only [List.map_cons, List.map_nil, List.sum_cons, List.sum_nil] at hsum
          omega
        · rw [if_neg hn]
      · rw [o4]
        unfold levelCount
        rw [h2]
        dsimp only
        by_cases hn : lvl.num_orders - 1 = 0
        · rw [if_pos hn]
          omega
        · rw [if_neg hn]
      · rw [o5]
      · intro hlt
        exact absurd hfull (by omega)
    · rw [if_neg hfull]
      obtain ⟨p1, p2, p3, p4⟩ := exec_partial_obs
        (b.updateLevel hdl.side hdl.price (fun l =>
          { l with aggregate := l.aggregate - e.quantity,
                   fifo := fifoSetQty l.fifo hdl.tag (nd.ord.quantity - e.quantity) }))
        (if e.price = 0 then hdl.price else e.price) e.order_id hdl
        { lvl with aggregate := lvl.aggregate - e.quantity,
                   fifo := fifoSetQty lvl.fifo hdl.tag (nd.ord.quantity - e.quantity) }
        { nd with ord := { nd.ord with quantity := nd.ord.quantity - e.quantity } }
        (by rw [updateLevel_index]; exact h1)
        (by rw [updateLevel_sideFind_self, h2]; rfl)
        (fifoFindTag_setQty lvl.fifo hdl.tag (nd.ord.quantity - e.quantity) nd h3)
      refine ⟨?_, ?_, fun _ => ⟨?_, ?_, ?_⟩⟩
      · rw [p1, hprice]
      case _ =>
        intro hle
        exact absurd hle hfull
      · rw [p2]
      · rw [p3]
        unfold levelAggregate
        rw [h2]
      · rw [p4]
        unfold levelCount
        rw [h2]


theorem C4_witness :
    (1 : Nat) ≤ 400 ∧
    (seedBook.apply (make_exec 2000 Side.Sell 400 0)).last_exec_price = 110 ∧
    lookupOrder (seedBook.apply (make_exec 2000 Side.Sell 400 0)) 2000 =
      some { id := 2000, side := Side.Sell, price := 110, quantity := 600,
             ranking_time := 1, ranking_seq_num := 1 } ∧
    levelAggregate (seedBook.apply (make_exec 2000 Side.Sell 400 0)) Side.Sell 110 = 600 := by
  refine ⟨by decide, ?_⟩
  have h := (C4_exec_semantics seedBook (make_exec 2000 Side.Sell 400 0)
      { side := Side.Sell, price := 110, tag := 1 }
      { price := 110, aggregate := 1000, num_orders := 1,
        fifo := [{ tag := 1,
                   ord := { id := 2000, side := Side.Sell, price := 110, quantity := 1000,
                            ranking_time := 1, ranking_seq_num := 1 } }] }
      { tag := 1,
        ord := { id := 2000, side := Side.Sell, price := 110, quantity := 1000,
                 ranking_time := 1, ranking_seq_num := 1 } }
      rfl (by decide) (by decide) (by decide) (by decide) (by decide)
      (by unfold IndexKeysNodup; decide) (by unfold KeysNodup; decide) rfl).2
      (by decide) (by decide)
  obtain ⟨hle, -, hpart⟩ := h
  obtain ⟨hlook, hagg, -⟩ := hpart (by decide)
  exact ⟨hle.trans (by decide), hlook.trans (by decide), hagg.trans (by decide)⟩



theorem parse_exec_price (msg : List Nat)
    (he : (ItchParser.parse_message msg).type = MessageType.ExecuteOrder) :
    (ItchParser.parse_message msg).price = 0 := by
  unfold ItchParser.parse_message at he ⊢
  by_cases h0 : msg.length < 1
  · rw [if_pos h0] at he
    exact absurd he (by decide)
  · rw [if_neg h0] at he ⊢
    dsimp only at he ⊢
    revert he
    cases ht : ParseMessageTypeByte (msg.getD 0 0) <;> intro he <;> dsimp only at he ⊢
    · split at he <;> simp at he
    · split at he <;> simp at he
    · by_cases hl : (msg.drop 1).length < 4 + 8 + 4 + 1 + 8
      · rw [if_pos hl] at he
        simp at he
      · rw [if_neg hl]
    · split at he <;> simp at he

theorem exec_last_exec (b : Orderbook) (e : Event) (hdl : OrderHandle)
    (lvl : PriceLevel) (nd : FifoNode)
    (he : e.type = MessageType.ExecuteOrder)
    (h1 : indexFind b.index e.order_id = some hdl)
    (h2 : b.sideFind hdl.side hdl.price = some lvl)
    (h3 : fifoFindTag lvl.fifo hdl.tag = some nd)
    (hq1 : 1 ≤ e.quantity) (hq2 : e.quantity ≤ 10 ^ 9) :
    (b.apply e).last_exec_price = if e.price = 0 then hdl.price else e.price := by
  have hmax : MAX_SUSPICIOUS_QUANTITY = 10 ^ 9 := by norm_num [MAX_SUSPICIOUS_QUANTITY]
  have hguard : ¬ (e.quantity = 0 ∨ e.quantity > MAX_SUSPICIOUS_QUANTITY) := by
    rw [hmax]
    push_neg
    exact ⟨by omega, by omega⟩
  simp only [Orderbook.apply, he]
  unfold Orderbook.handle_exec
  rw [h1]
  dsimp only
  rw [if_neg hguard, h2]
  dsimp only
  rw [h3]
  dsimp only
  by_cases hfull : nd.ord.quantity ≤ e.quantity
  · rw [if_pos hfull, erase_level_last_exec]
  · rw [if_neg hfull]

/-- Claim C9 (confirmed): every ExecuteOrder event the decoder produces has
price 0 (the execute wire layout carries no price field and the parser
never assigns one), and applying an execute with price 0 (in-range
quantity, resolvable id) sets last_exec_price to the resting order's book
price. -/
theorem C9_exec_price :
    (∀ msg : List Nat, (ItchParser.parse_message msg).type = MessageType.ExecuteOrder →
      (ItchParser.parse_message msg).price = 0) ∧
    (∀ (b : Orderbook) (e : Event) (hdl : OrderHandle) (lvl : PriceLevel) (nd : FifoNode),
      e.type = MessageType.ExecuteOrder → e.price = 0 →
      indexFind b.index e.order_id = some hdl →
      b.sideFind hdl.side hdl.price = some lvl →
      fifoFindTag lvl.fifo hdl.tag = some nd →
      hdl.price = nd.ord.price →
      1 ≤ e.quantity → e.quantity ≤ 10 ^ 9 →
      (b.apply e).last_exec_price = nd.ord.price) := by
  constructor
  · exact parse_exec_price
  · intro b e hdl lvl nd he hpz h1 h2 h3 hprice hq1 hq2
    rw [exec_last_exec b e hdl lvl nd he h1 h2 h3 hq1 hq2, hpz, hprice]
    simp

theorem C9_witness :
    (ItchParser.parse_message (69 :: List.replicate 25 1)).type = MessageType.ExecuteOrder ∧
    (ItchParser.parse_message (69 :: List.replicate 25 1)).price = 0 ∧
    (seedBook.apply (make_exec 1000 Side.Buy 5 0)).last_exec_price = 100 := by
  refine ⟨by decide, C9_exec_price.1 _ (by decide), ?_⟩
  exact C9_exec_price.2 seedBook (make_exec 1000 Side.Buy 5 0)
      { side := Side.Buy, price := 100, tag := 0 }
      { price := 100, aggregate := 1000, num_orders := 1,
        fifo := [{ tag := 0,
                   ord := { id := 1000, side := Side.Buy, price := 100, quantity := 1000,
                            ranking_time := 1, ranking_seq_num := 1 } }] }
      { tag := 0,
        ord := { id := 1000, side := Side.Buy, price := 100, quantity := 1000,
                 ranking_time := 1, ranking_seq_num := 1 } }
      rfl rfl (by decide) (by decide) (by decide) rfl (by decide) (by decide)

theorem u16be_length (n : Nat) : (u16be n).length = 2 := rfl

theorem beVal_u16be (n : Nat) (h : n < 65536) : beVal (u16be n) = n := by
  simp only [u16be, beVal, List.foldl]
  omega

theorem nextPacketLoop_encode (msgs : List (List Nat))
    (hm : ∀ m ∈ msgs, 1 ≤ m.length ∧ m.length ≤ MAX_MESSAGE_LENGTH) :
    nextPacketLoop msgs.length (encodeMessages msgs)
      = (msgs.map ItchParser.parse_message).filter
          (fun e => decide (e.type ≠ MessageType.Other)) := by
  induction msgs with
  | nil => rfl
  | cons m ms ih =>
    obtain ⟨hm1, hm2⟩ := hm m (List.mem_cons_self m ms)
    have hm2n : m.length ≤ 65535 := by
      simpa [MAX_MESSAGE_LENGTH] using hm2
    have hms : ∀ x ∈ ms, 1 ≤ x.length ∧ x.length ≤ MAX_MESSAGE_LENGTH :=
      fun x hx => hm x (List.mem_cons_of_mem m hx)
    have henc : encodeMessages (m :: ms) = u16be m.length ++ (m ++ encodeMessages ms) := by
      simp [encodeMessages, List.append_assoc]
    rw [List.length_cons, henc]
    simp only [nextPacketLoop]
    rw [if_neg (by simp [u16be])]
    rw [List.take_left' (u16be_length m.length), beVal_u16be m.length (by omega)]
    rw [if_neg (by push_neg; exact ⟨hm1, by simpa [MAX_MESSAGE_LENGTH] using hm2n⟩)]
    rw [List.drop_left' (u16be_length m.length)]
    rw [if_neg (by simp)]
    rw [List.take_left, List.drop_left]
    rw [List.map_cons, List.filter_cons, ih hms]
    by_cases ht : (ItchParser.parse_message m).type = MessageType.Other
    · rw [if_neg (by simpa using ht), if_neg (by simpa using ht)]
    · rw [if_pos (by simpa using ht), if_pos (by simpa using ht)]

/-- Claim C6 (corrected): for a well-framed packet the decoder yields one
event per message of recognized kind, in order; messages that parse to
kind Other (unknown kind byte or too-short payload) are dropped from the
yielded sequence, and decoding continues with the next message of the
same packet. -/
theorem C6_decode (session seq : List Nat) (msgs : List (List Nat))
    (hs : session.length = 10) (hq : seq.length = 8)
    (hc1 : msgs ≠ []) (hc2 : msgs.length ≤ MAX_MESSAGE_COUNT)
    (hm : ∀ m ∈ msgs, 1 ≤ m.length ∧ m.length ≤ MAX_MESSAGE_LENGTH) :
    ItchParser.next_packet (encodePacket session seq msgs)
      = (msgs.map ItchParser.parse_message).filter
          (fun e => decide (e.type ≠ MessageType.Other)) := by
  have hhdr : (session ++ seq ++ u16be msgs.length).length = 20 := by
    simp [hs, hq, u16be]
  have hlen18 : (session ++ seq).length = 18 := by simp [hs, hq]
  have htake2 : (u16be msgs.length).take 2 = u16be msgs.length := rfl
  have hcnt : msgs.length ≤ 10000 := by
    simpa [MAX_MESSAGE_COUNT] using hc2
  unfold ItchParser.next_packet encodePacket
  rw [show MOLDUDP64_HEADER_SIZE = 20 from rfl]
  rw [if_neg (by
    simp only [List.length_append, hs, hq, u16be_length, not_lt]
    omega)]
  rw [List.take_left' hhdr, List.drop_left' hhdr]
  dsimp only
  rw [List.drop_left' hlen18, htake2, beVal_u16be msgs.length (by omega)]
  rw [if_neg (by
    push_neg
    refine ⟨by simpa using hc1, ?_⟩
    simpa [MAX_MESSAGE_COUNT] using hcnt)]
  exact nextPacketLoop_encode msgs hm

theorem C6_witness :
    ([[88], 69 :: List.replicate 25 1] : List (List Nat)) ≠ [] ∧
    ItchParser.next_packet (encodePacket (List.replicate 10 0) (List.replicate 8 0)
        [[88], 69 :: List.replicate 25 1])
      = (([[88], 69 :: List.replicate 25 1] : List (List Nat)).map
            ItchParser.parse_message).filter
          (fun e => decide (e.type ≠ MessageType.Other)) :=
  ⟨by decide, C6_decode (List.replicate 10 0) (List.replicate 8 0) _
    (by decide) (by decide) (by decide) (by decide) (by decide)⟩


theorem mapFind_update_ne (m : SideMap) (k k' : Nat) (f : PriceLevel → PriceLevel)
    (h : k' ≠ k) : mapFind (mapUpdate m k f) k' = mapFind m k' := by
  induction m with
  | nil => rfl
  | cons x rest ih =>
    by_cases hk : k = x.1
    · have hne : ¬ k' = x.1 := fun hc => h (hc.trans hk.symm)
      simp [mapUpdate, mapFind, hk, hne]
    · by_cases hk' : k' = x.1
      · simp [mapUpdate, mapFind, hk, hk']
      · simp [mapUpdate, mapFind, hk, hk', ih]

theorem mapFind_erase_ne (m : SideMap) (k k' : Nat) (h : k' ≠ k) :
    mapFind (mapErase m k) k' = mapFind m k' := by
  induction m with
  | nil => rfl
  | cons x rest ih =>
    by_cases hk : k = x.1
    · have hne : ¬ k' = x.1 := fun hc => h (hc.trans hk.symm)
      simp [mapErase, mapFind, hk, hne]
    · by_cases hk' : k' = x.1
      · simp [mapErase, mapFind, hk, hk']
      · simp [mapErase, mapFind, hk, hk', ih]

theorem mapFind_emplace_ne (bf : Nat → Nat → Bool) (m : SideMap) (k k' : Nat) (h : k' ≠ k) :
    mapFind (mapEmplace bf m k) k' = mapFind m k' := by
  induction m with
  | nil => simp [mapEmplace, mapFind, h]
  | cons x rest ih =>
    by_cases hk : k = x.1
    · simp [mapEmplace, hk]
    · by_cases hb : bf k x.1
      · simp [mapEmplace, mapFind, hk, hb, h]
      · simp [mapEmplace, mapFind, hk, hb, ih]

theorem mapFind_none_not_mem (m : SideMap) (k : Nat) (h : mapFind m k = none) :
    k ∉ m.map (fun p => p.1) := by
  induction m with
  | nil => simp
  | cons x rest ih =>
    by_cases hk : k = x.1
    · simp [mapFind, hk] at h
    · simp only [mapFind, hk, if_false] at h
      simp [hk, ih h]

theorem mapFind_eq_of_mem_nodup (m : SideMap) (p : Nat × PriceLevel)
    (hnd : (m.map (fun q => q.1)).Nodup) (hp : p ∈ m) : mapFind m p.1 = some p.2 := by
  induction m with
  | nil => simp at hp
  | cons x rest ih =>
    rcases List.mem_cons.mp hp with h | h
    · subst h
      simp [mapFind]
    · simp only [List.map_cons, List.nodup_cons] at hnd
      have hne : ¬ p.1 = x.1 := by
        intro hc
        exact hnd.1 (hc ▸ List.mem_map_of_mem (fun q => q.1) h)
      simp [mapFind, hne, ih hnd.2 h]

theorem mem_mapUpdate (m : SideMap) (k : Nat) (f : PriceLevel → PriceLevel)
    (p : Nat × PriceLevel) (hp : p ∈ mapUpdate m k f) :
    p ∈ m ∨ ∃ q ∈ m, q.1 = k ∧ p = (k, f q.2) := by
  induction m with
  | nil => simp [mapUpdate] at hp
  | cons x rest ih =>
    by_cases hk : k = x.1
    · simp only [mapUpdate, hk, if_pos rfl] at hp
      rcases List.mem_cons.mp hp with h | h
      · exact Or.inr ⟨x, List.mem_cons_self x rest, hk.symm, by rw [h, hk]⟩
      · exact Or.inl (List.mem_cons_of_mem x h)
    · simp only [mapUpdate, hk, if_false] at hp
      rcases List.mem_cons.mp hp with h | h
      · exact Or.inl (h ▸ List.mem_cons_self x rest)
      · rcases ih h with h' | ⟨q, hq, hq1, hq2⟩
        · exact Or.inl (List.mem_cons_of_mem x h')
        · exact Or.inr ⟨q, List.mem_cons_of_mem x hq, hq1, hq2⟩

theorem mem_mapEmplace (bf : Nat → Nat → Bool) (m : SideMap) (k : Nat)
    (p : Nat × PriceLevel) (hp : p ∈ mapEmplace bf m k) :
    p ∈ m ∨ p = (k, ({} : PriceLevel)) := by
  induction m with
  | nil =>
    simp [mapEmplace] at hp
    exact Or.inr hp
  | cons x rest ih =>
    by_cases hk : k = x.1
    · simp only [mapEmplace, hk, if_pos rfl] at hp
      exact Or.inl hp
    · by_cases hb : bf k x.1
      · simp only [mapEmplace, hk, if_false, hb, if_true] at hp
        rcases List.mem_cons.mp hp with h | h
        · exact Or.inr h
        · exact Or.inl h
      · simp only [mapEmplace, hk, if_false, hb] at hp
        rcases List.mem_cons.mp hp with h | h
        · exact Or.inl (h ▸ List.mem_cons_self x rest)
        · rcases ih h with h' | h'
          · exact Or.inl (List.mem_cons_of_mem x h')
          · exact Or.inr h'

theorem mapErase_sublist (m : SideMap) (k : Nat) : (mapErase m k).Sublist m := by
  induction m with
  | nil => simp [mapErase]
  | cons x rest ih =>
    by_cases hk : k = x.1
    · simp only [mapErase, hk, if_pos rfl]
      exact List.sublist_cons_self x rest
    · simp only [mapErase, hk, if_false]
      exact List.Sublist.cons₂ x ih

theorem mem_mapErase_ne (m : SideMap) (k : Nat) (p : Nat × PriceLevel)
    (hnd : (m.map (fun q => q.1)).Nodup) (hp : p ∈ mapErase m k) :
    p ∈ m ∧ p.1 ≠ k := by
  induction m with
  | nil => simp [mapErase] at hp
  | cons x rest ih =>
    simp only [List.map_cons, List.nodup_cons] at hnd
    by_cases hk : k = x.1
    · simp only [mapErase, hk, if_pos rfl] at hp
      refine ⟨List.mem_cons_of_mem x hp, ?_⟩
      intro hc
      exact hnd.1 (hk ▸ hc ▸ List.mem_map_of_mem (fun q => q.1) hp)
    · simp only [mapErase, hk, if_false] at hp
      rcases List.mem_cons.mp hp with h | h
      · subst h
        exact ⟨List.mem_cons_self x rest, fun hc => hk hc.symm⟩
      · obtain ⟨h1, h2⟩ := ih hnd.2 h
        exact ⟨List.mem_cons_of_mem x h1, h2⟩

theorem mapEmplace_keys_mem (bf : Nat → Nat → Bool) (m : SideMap) (k k' : Nat)
    (h : k' ∈ (mapEmplace bf m k).map (fun p => p.1)) :
    k' = k ∨ k' ∈ m.map (fun p => p.1) := by
  rcases List.mem_map.mp h with ⟨p, hp, hpk⟩
  rcases mem_mapEmplace bf m k p hp with h' | h'
  · exact Or.inr (hpk ▸ List.mem_map_of_mem (fun p => p.1) h')
  · subst h'
    exact Or.inl hpk.symm

theorem mapEmplace_keysNodup (bf : Nat → Nat → Bool) (m : SideMap) (k : Nat)
    (habs : mapFind m k = none) (hnd : (m.map (fun p => p.1)).Nodup) :
    ((mapEmplace bf m k).map (fun p => p.1)).Nodup := by
  induction m with
  | nil => simp [mapEmplace]
  | cons x rest ih =>
    simp only [List.map_cons, List.nodup_cons] at hnd
    by_cases hk : k = x.1
    · simp [mapFind, hk] at habs
    · simp only [mapFind, hk, if_false] at habs
      by_cases hb : bf k x.1
      · simp only [mapEmplace, hk, if_false, hb, if_true, List.map_cons, List.nodup_cons]
        refine ⟨?_, hnd.1, hnd.2⟩
        intro hc
        rcases List.mem_cons.mp hc with h' | h'
        · exact hk h'
        · exact mapFind_none_not_mem rest k habs h'
      · rw [show mapEmplace bf (x :: rest) k = x :: mapEmplace bf rest k from by
          simp [mapEmplace, hk, hb]]
        simp only [List.map_cons, List.nodup_cons]
        refine ⟨?_, ih habs hnd.2⟩
        intro hc
        rcases mapEmplace_keys_mem bf rest k x.1 hc with h' | h'
        · exact hk h'.symm
        · exact hnd.1 h'

theorem mapUpdate_pairwise (m : SideMap) (k : Nat) (f : PriceLevel → PriceLevel)
    (bf : Nat → Nat → Bool)
    (h : List.Pairwise (fun x y => bf x.1 y.1 = true) m) :
    List.Pairwise (fun x y => bf x.1 y.1 = true) (mapUpdate m k f) := by
  induction m with
  | nil => simp [mapUpdate]
  | cons x rest ih =>
    rcases List.pairwise_cons.mp h with ⟨hhead, htail⟩
    by_cases hk : k = x.1
    · simp only [mapUpdate, hk, if_pos rfl]
      exact List.pairwise_cons.mpr ⟨hhead, htail⟩
    · simp only [mapUpdate, hk, if_false]
      refine List.pairwise_cons.mpr ⟨?_, ih htail⟩
      intro y hy
      rcases mem_mapUpdate rest k f y hy with h' | ⟨q, hq, hq1, hq2⟩
      · exact hhead y h'
      · rw [hq2]
        exact hq1 ▸ hhead q hq

theorem mapEmplace_pairwise (m : SideMap) (k : Nat) (bf : Nat → Nat → Bool)
    (htot : ∀ a c : Nat, a ≠ c → bf a c = false → bf c a = true)
    (htr : ∀ a c d : Nat, bf a c = true → bf c d = true → bf a d = true)
    (h : List.Pairwise (fun x y => bf x.1 y.1 = true) m) :
    List.Pairwise (fun x y => bf x.1 y.1 = true) (mapEmplace bf m k) := by
  induction m with
  | nil => simp [mapEmplace]
  | cons x rest ih =>
    rcases List.pairwise_cons.mp h with ⟨hhead, htail⟩
    by_cases hk : k = x.1
    · simp only [mapEmplace, hk, if_pos rfl]
      exact List.pairwise_cons.mpr ⟨hhead, htail⟩
    · by_cases hb : bf k x.1
      · simp only [mapEmplace, hk, if_false, hb, if_true]
        refine List.pairwise_cons.mpr ⟨?_, List.pairwise_cons.mpr ⟨hhead, htail⟩⟩
        intro y hy
        rcases List.mem_cons.mp hy with h' | h'
        · rw [h']
          exact hb
        · exact htr k x.1 y.1 hb (hhead y h')
      · rw [show mapEmplace bf (x :: rest) k = x :: mapEmplace bf rest k from by
          simp [mapEmplace, hk, hb]]
        refine List.pairwise_cons.mpr ⟨?_, ih htail⟩
        intro y hy
        rcases mem_mapEmplace bf rest k y hy with h' | h'
        · exact hhead y h'
        · rw [h']
          exact htot k x.1 hk ((Bool.not_eq_true _).mp hb)

theorem cmpFor_asymm (s : Side) (a c : Nat) (h : cmpFor s a c = true) : cmpFor s c a = false := by
  unfold cmpFor at h ⊢
  by_cases hs : s = Side.Buy
  · rw [if_pos hs] at h ⊢
    unfold bidBefore at h ⊢
    rw [Nat.blt_eq] at h
    rw [Bool.eq_false_iff, ne_eq, Nat.blt_eq]
    omega
  · rw [if_neg hs] at h ⊢
    unfold askBefore at h ⊢
    rw [Nat.blt_eq] at h
    rw [Bool.eq_false_iff, ne_eq, Nat.blt_eq]
    omega

theorem cmpFor_total (s : Side) (a c : Nat) (hne : a ≠ c) (h : cmpFor s a c = false) :
    cmpFor s c a = true := by
  unfold cmpFor at h ⊢
  by_cases hs : s = Side.Buy
  · rw [if_pos hs] at h ⊢
    unfold bidBefore at h ⊢
    rw [Bool.eq_false_iff, ne_eq, Nat.blt_eq] at h
    rw [Nat.blt_eq]
    omega
  · rw [if_neg hs] at h ⊢
    unfold askBefore at h ⊢
    rw [Bool.eq_false_iff, ne_eq, Nat.blt_eq] at h
    rw [Nat.blt_eq]
    omega

theorem cmpFor_trans (s : Side) (a c d : Nat) (h1 : cmpFor s a c = true)
    (h2 : cmpFor s c d = true) : cmpFor s a d = true := by
  unfold cmpFor at h1 h2 ⊢
  by_cases hs : s = Side.Buy
  · rw [if_pos hs] at h1 h2 ⊢
    unfold bidBefore at h1 h2 ⊢
    rw [Nat.blt_eq] at h1 h2 ⊢
    omega
  · rw [if_neg hs] at h1 h2 ⊢
    unfold askBefore at h1 h2 ⊢
    rw [Nat.blt_eq] at h1 h2 ⊢
    omega

theorem indexFind_none_not_mem (m : IndexMap) (k : Nat) (h : indexFind m k = none) :
    k ∉ m.map (fun p => p.1) := by
  induction m with
  | nil => simp
  | cons x rest ih =>
    by_cases hk : k = x.1
    · simp [indexFind, hk] at h
    · simp only [indexFind, hk, if_false] at h
      simp [hk, ih h]

theorem indexInsert_length_absent (m : IndexMap) (k : Nat) (h : OrderHandle)
    (habs : indexFind m k = none) : (indexInsert m k h).length = m.length + 1 := by
  induction m with
  | nil => simp [indexInsert]
  | cons x rest ih =>
    by_cases hk : k = x.1
    · simp [indexFind, hk] at habs
    · simp only [indexFind, hk, if_false] at habs
      simp [indexInsert, hk, ih habs]

theorem indexErase_length_found (m : IndexMap) (k : Nat) (v : OrderHandle)
    (hf : indexFind m k = some v) : (indexErase m k).length + 1 = m.length := by
  induction m with
  | nil => simp [indexFind] at hf
  | cons x rest ih =>
    by_cases hk : k = x.1
    · simp [indexErase, hk]
    · simp only [indexFind, hk, if_false] at hf
      simp [indexErase, hk, ih hf]

theorem mem_indexInsert (m : IndexMap) (k : Nat) (h : OrderHandle)
    (p : Nat × OrderHandle) (hp : p ∈ indexInsert m k h) : p ∈ m ∨ p = (k, h) := by
  induction m with
  | nil =>
    simp [indexInsert] at hp
    exact Or.inr hp
  | cons x rest ih =>
    by_cases hk : k = x.1
    · simp only [indexInsert, hk, if_pos rfl] at hp
      rcases List.mem_cons.mp hp with h' | h'
      · exact Or.inr (by rw [h', hk])
      · exact Or.inl (List.mem_cons_of_mem x h')
    · simp only [indexInsert, hk, if_false] at hp
      rcases List.mem_cons.mp hp with h' | h'
      · exact Or.inl (h' ▸ List.mem_cons_self x rest)
      · rcases ih h' with h'' | h''
        · exact Or.inl (List.mem_cons_of_mem x h'')
        · exact Or.inr h''

theorem indexFind_insert_ne (m : IndexMap) (k k' : Nat) (h : OrderHandle) (hne : k' ≠ k) :
    indexFind (indexInsert m k h) k' = indexFind m k' := by
  induction m with
  | nil => simp [indexInsert, indexFind, hne]
  | cons x rest ih =>
    by_cases hk : k = x.1
    · have hne' : ¬ k' = x.1 := fun hc => hne (hc.trans hk.symm)
      simp [indexInsert, indexFind, hk, hne']
    · by_cases hk' : k' = x.1
      · simp [indexInsert, indexFind, hk, hk']
      · simp [indexInsert, indexFind, hk, hk', ih]

theorem indexFind_erase_ne (m : IndexMap) (k k' : Nat) (hne : k' ≠ k) :
    indexFind (indexErase m k) k' = indexFind m k' := by
  induction m with
  | nil => rfl
  | cons x rest ih =>
    by_cases hk : k = x.1
    · have hne' : ¬ k' = x.1 := fun hc => hne (hc.trans hk.symm)
      simp [indexErase, indexFind, hk, hne']
    · by_cases hk' : k' = x.1
      · simp [indexErase, indexFind, hk, hk']
      · simp [indexErase, indexFind, hk, hk', ih]

theorem indexErase_sublist (m : IndexMap) (k : Nat) : (indexErase m k).Sublist m := by
  induction m with
  | nil => simp [indexErase]
  | cons x rest ih =>
    by_cases hk : k = x.1
    · simp only [indexErase, hk, if_pos rfl]
      exact List.sublist_cons_self x rest
    · simp only [indexErase, hk, if_false]
      exact List.Sublist.cons₂ x ih

theorem mem_indexErase_ne (m : IndexMap) (k : Nat) (p : Nat × OrderHandle)
    (hnd : (m.map (fun q => q.1)).Nodup) (hp : p ∈ indexErase m k) :
    p ∈ m ∧ p.1 ≠ k := by
  induction m with
  | nil => simp [indexErase] at hp
  | cons x rest ih =>
    simp only [List.map_cons, List.nodup_cons] at hnd
    by_cases hk : k = x.1
    · simp only [indexErase, hk, if_pos rfl] at hp
      refine ⟨List.mem_cons_of_mem x hp, ?_⟩
      intro hc
      exact hnd.1 (hk ▸ hc ▸ List.mem_map_of_mem (fun q => q.1) hp)
    · simp only [indexErase, hk, if_false] at hp
      rcases List.mem_cons.mp hp with h | h
      · subst h
        exact ⟨List.mem_cons_self x rest, fun hc => hk hc.symm⟩
      · obtain ⟨h1, h2⟩ := ih hnd.2 h
        exact ⟨List.mem_cons_of_mem x h1, h2⟩

theorem indexInsert_keysNodup (m : IndexMap) (k : Nat) (h : OrderHandle)
    (habs : indexFind m k = none) (hnd : (m.map (fun p => p.1)).Nodup) :
    ((indexInsert m k h).map (fun p => p.1)).Nodup := by
  induction m with
  | nil => simp [indexInsert]
  | cons x rest ih =>
    simp only [List.map_cons, List.nodup_cons] at hnd
    by_cases hk : k = x.1
    · simp [indexFind, hk] at habs
    · simp only [indexFind, hk, if_false] at habs
      simp only [indexInsert, hk, if_false, List.map_cons, List.nodup_cons]
      refine ⟨?_, ih habs hnd.2⟩
      intro hc
      rcases List.mem_map.mp hc with ⟨p, hp, hpk⟩
      rcases mem_indexInsert rest k h p hp with h' | h'
      · exact hnd.1 (hpk ▸ List.mem_map_of_mem (fun p => p.1) h')
      · rw [h'] at hpk
        exact hk hpk

theorem indexErase_keysNodup (m : IndexMap) (k : Nat)
    (hnd : (m.map (fun p => p.1)).Nodup) :
    ((indexErase m k).map (fun p => p.1)).Nodup :=
  List.Nodup.sublist (List.Sublist.map _ (indexErase_sublist m k)) hnd

theorem fifoFindTag_tag (l : List FifoNode) (t : Nat) (nd : FifoNode)
    (h : fifoFindTag l t = some nd) : nd.tag = t := by
  induction l with
  | nil => simp [fifoFindTag] at h
  | cons x rest ih =>
    by_cases hx : x.tag = t
    · simp only [fifoFindTag, hx, if_pos rfl] at h
      rw [← Option.some_inj.mp h]
      exact hx
    · simp only [fifoFindTag, hx, if_false] at h
      exact ih h

theorem fifoFindTag_insert_ne (nd : FifoNode) (l : List FifoNode) (t : Nat)
    (hne : nd.tag ≠ t) : fifoFindTag (fifoInsert nd l) t = fifoFindTag l t := by
  induction l with
  | nil => simp [fifoInsert, fifoFindTag, hne]
  | cons x rest ih =>
    by_cases hlt : ltOrderKey nd.ord x.ord
    · simp [fifoInsert, fifoFindTag, hlt, hne]
    · simp [fifoInsert, fifoFindTag, hlt, ih]

theorem fifoFindTag_erase_ne (l : List FifoNode) (t t' : Nat) (hne : t' ≠ t) :
    fifoFindTag (fifoEraseTag l t) t' = fifoFindTag l t' := by
  induction l with
  | nil => rfl
  | cons x rest ih =>
    have hnt : ¬ t = t' := fun hc => hne hc.symm
    by_cases hx : x.tag = t
    · have hx' : ¬ x.tag = t' := by
        rw [hx]
        exact fun hc => hne hc.symm
      simp [fifoEraseTag, fifoFindTag, hx, hx', hne, hnt]
    · by_cases hx' : x.tag = t'
      · simp [fifoEraseTag, fifoFindTag, hx, hx', hne, hnt]
      · simp [fifoEraseTag, fifoFindTag, hx, hx', hne, hnt, ih]

theorem fifoFindTag_setQty_ne (l : List FifoNode) (t t' q : Nat) (hne : t' ≠ t) :
    fifoFindTag (fifoSetQty l t q) t' = fifoFindTag l t' := by
  induction l with
  | nil => rfl
  | cons x rest ih =>
    have hnt : ¬ t = t' := fun hc => hne hc.symm
    by_cases hx : x.tag = t
    · have hx' : ¬ x.tag = t' := by
        rw [hx]
        exact fun hc => hne hc.symm
      simp [fifoSetQty, fifoFindTag, hx, hx', hne, hnt]
    · by_cases hx' : x.tag = t'
      · simp [fifoSetQty, fifoFindTag, hx, hx', hne, hnt]
      · simp [fifoSetQty, fifoFindTag, hx, hx', hne, hnt, ih]

theorem fifoInsert_length (nd : FifoNode) (l : List FifoNode) :
    (fifoInsert nd l).length = l.length + 1 := by
  induction l with
  | nil => rfl
  | cons x rest ih =>
    by_cases hlt : ltOrderKey nd.ord x.ord
    · simp [fifoInsert, hlt]
    · simp [fifoInsert, hlt, ih]

theorem fifoEraseTag_length_found (l : List FifoNode) (t : Nat) (nd : FifoNode)
    (h : fifoFindTag l t = some nd) : (fifoEraseTag l t).length + 1 = l.length := by
  induction l with
  | nil => simp [fifoFindTag] at h
  | cons x rest ih =>
    by_cases hx : x.tag = t
    · simp [fifoEraseTag, hx]
    · simp only [fifoFindTag, hx, if_false] at h
      simp [fifoEraseTag, hx, ih h]

theorem fifoSetQty_tags (l : List FifoNode) (t q : Nat) :
    (fifoSetQty l t q).map (fun nd => nd.tag) = l.map (fun nd => nd.tag) := by
  induction l with
  | nil => rfl
  | cons x rest ih =>
    by_cases hx : x.tag = t
    · simp [fifoSetQty, hx]
    · simp [fifoSetQty, hx, ih]

theorem fifoSetQty_length (l : List FifoNode) (t q : Nat) :
    (fifoSetQty l t q).length = l.length := by
  have h := congrArg List.length (fifoSetQty_tags l t q)
  simpa using h

theorem fifoInsert_perm (nd : FifoNode) (l : List FifoNode) :
    (fifoInsert nd l).Perm (nd :: l) := by
  induction l with
  | nil => simp [fifoInsert]
  | cons x rest ih =>
    by_cases hlt : ltOrderKey nd.ord x.ord
    · simp [fifoInsert, hlt]
    · simp only [fifoInsert, hlt, if_false]
      exact (List.Perm.cons x ih).trans (List.Perm.swap nd x rest)

theorem eq_of_mem_tag_nodup (l : List FifoNode)
    (hnd : (l.map (fun nd => nd.tag)).Nodup) (x y : FifoNode)
    (hx : x ∈ l) (hy : y ∈ l) (ht : x.tag = y.tag) : x = y :=
  List.inj_on_of_nodup_map hnd hx hy ht

theorem not_mem_fifoEraseTag_self (l : List FifoNode) (t : Nat) (nd : FifoNode)
    (hnd : (l.map (fun nd => nd.tag)).Nodup) (h : fifoFindTag l t = some nd) :
    nd ∉ fifoEraseTag l t := by
  induction l with
  | nil => simp [fifoEraseTag]
  | cons x rest ih =>
    simp only [List.map_cons, List.nodup_cons] at hnd
    by_cases hx : x.tag = t
    · have h' : nd = x := by
        rw [show fifoFindTag (x :: rest) t = some x from by simp [fifoFindTag, hx]] at h
        exact (Option.some_inj.mp h).symm
      rw [show fifoEraseTag (x :: rest) t = rest from by simp [fifoEraseTag, hx]]
      subst h'
      intro hc
      exact hnd.1 (List.mem_map_of_mem (fun nd => nd.tag) hc)
    · simp only [fifoFindTag, hx, if_false] at h
      rw [show fifoEraseTag (x :: rest) t = x :: fifoEraseTag rest t from by
        simp [fifoEraseTag, hx]]
      intro hc
      rcases List.mem_cons.mp hc with h' | h'
      · rw [← h'] at hx
        exact hx (fifoFindTag_tag rest t nd h)
      · exact ih hnd.2 h h'

theorem sideFind_eq_sideMapOf (b : Orderbook) (s : Side) (k : Nat) :
    b.sideFind s k = mapFind (sideMapOf b s) k := by
  unfold Orderbook.sideFind sideMapOf
  by_cases hs : s = Side.Buy <;> simp [hs]

theorem sideMapOf_updateLevel (b : Orderbook) (side : Side) (k : Nat)
    (f : PriceLevel → PriceLevel) (s' : Side) :
    sideMapOf (b.updateLevel side k f) s'
      = if selBid s' = selBid side then mapUpdate (sideMapOf b s') k f
        else sideMapOf b s' := by
  unfold Orderbook.updateLevel sideMapOf selBid
  by_cases h1 : side = Side.Buy <;> by_cases h2 : s' = Side.Buy <;> simp [h1, h2]

theorem sideMapOf_eraseLevel (b : Orderbook) (side : Side) (k : Nat) (s' : Side) :
    sideMapOf (b.eraseLevel side k) s'
      = if selBid s' = selBid side then mapErase (sideMapOf b s') k
        else sideMapOf b s' := by
  unfold Orderbook.eraseLevel sideMapOf selBid
  by_cases h1 : side = Side.Buy <;> by_cases h2 : s' = Side.Buy <;> simp [h1, h2]

theorem sideMapOf_level_for (b : Orderbook) (side : Side) (price : Nat) (s' : Side) :
    sideMapOf (b.level_for side price) s'
      = if selBid s' = selBid side
        then mapUpdate (mapEmplace (cmpFor side) (sideMapOf b s') price) price
          (fun lvl => if lvl.price = 0 then { lvl with price := price } else lvl)
        else sideMapOf b s' := by
  unfold Orderbook.level_for Orderbook.updateLevel sideMapOf selBid cmpFor
  by_cases h1 : side = Side.Buy <;> by_cases h2 : s' = Side.Buy <;> simp [h1, h2]

theorem updateLevel_next_tag (b : Orderbook) (side : Side) (k : Nat)
    (f : PriceLevel → PriceLevel) : (b.updateLevel side k f).next_tag = b.next_tag := by
  unfold Orderbook.updateLevel
  by_cases hs : side = Side.Buy <;> simp [hs]

theorem eraseLevel_next_tag (b : Orderbook) (side : Side) (k : Nat) :
    (b.eraseLevel side k).next_tag = b.next_tag := by
  unfold Orderbook.eraseLevel
  by_cases hs : side = Side.Buy <;> simp [hs]

theorem level_for_index (b : Orderbook) (side : Side) (price : Nat) :
    (b.level_for side price).index = b.index := by
  unfold Orderbook.level_for Orderbook.updateLevel
  by_cases hs : side = Side.Buy <;> simp [hs]

theorem level_for_next_tag (b : Orderbook) (side : Side) (price : Nat) :
    (b.level_for side price).next_tag = b.next_tag := by
  unfold Orderbook.level_for Orderbook.updateLevel
  by_cases hs : side = Side.Buy <;> simp [hs]

theorem erase_level_next_tag (b : Orderbook) (side : Side) (price : Nat) :
    (b.erase_level_if_empty side price).next_tag = b.next_tag := by
  unfold Orderbook.erase_level_if_empty
  cases hf : b.sideFind side price with
  | none => rfl
  | some lvl =>
    dsimp only
    by_cases hn : lvl.num_orders = 0
    · rw [if_pos hn, if_pos ⟨hn, rfl⟩, eraseLevel_next_tag, updateLevel_next_tag]
    · rw [if_neg hn, if_neg (fun hc => hn hc.1), updateLevel_next_tag]

theorem sumCounts_eq (b : Orderbook) :
    sumCounts b = mapNumSum (sideMapOf b Side.Buy) + mapNumSum (sideMapOf b Side.Sell) := by
  simp [sumCounts, mapNumSum, sideMapOf]

theorem mapNumSum_update_found (m : SideMap) (k : Nat) (f : PriceLevel → PriceLevel)
    (v : PriceLevel) (h : mapFind m k = some v) :
    mapNumSum (mapUpdate m k f) + v.num_orders = mapNumSum m + (f v).num_orders := by
  induction m with
  | nil => simp [mapFind] at h
  | cons x rest ih =>
    by_cases hk : k = x.1
    · rw [show mapFind (x :: rest) k = some x.2 from by simp [mapFind, hk]] at h
      have hv : v = x.2 := (Option.some_inj.mp h).symm
      subst hv
      rw [show mapUpdate (x :: rest) k f = (x.1, f x.2) :: rest from by simp [mapUpdate, hk]]
      simp only [mapNumSum, List.map_cons, List.sum_cons]
      omega
    · rw [show mapFind (x :: rest) k = mapFind rest k from by simp [mapFind, hk]] at h
      rw [show mapUpdate (x :: rest) k f = x :: mapUpdate rest k f from by simp [mapUpdate, hk]]
      have := ih h
      simp only [mapNumSum, List.map_cons, List.sum_cons] at this ⊢
      omega

theorem mapNumSum_emplace_absent (bf : Nat → Nat → Bool) (m : SideMap) (k : Nat)
    (h : mapFind m k = none) : mapNumSum (mapEmplace bf m k) = mapNumSum m := by
  induction m with
  | nil => simp [mapEmplace, mapNumSum]
  | cons x rest ih =>
    by_cases hk : k = x.1
    · simp [mapFind, hk] at h
    · rw [show mapFind (x :: rest) k = mapFind rest k from by simp [mapFind, hk]] at h
      by_cases hb : bf k x.1
      · rw [show mapEmplace bf (x :: rest) k = (k, {}) :: x :: rest from by
          simp [mapEmplace, hk, hb]]
        simp [mapNumSum]
      · rw [show mapEmplace bf (x :: rest) k = x :: mapEmplace bf rest k from by
          simp [mapEmplace, hk, hb]]
        have := ih h
        simp only [mapNumSum, List.map_cons, List.sum_cons] at this ⊢
        omega

theorem mapNumSum_erase_found (m : SideMap) (k : Nat) (v : PriceLevel)
    (h : mapFind m k = some v) :
    mapNumSum (mapErase m k) + v.num_orders = mapNumSum m := by
  induction m with
  | nil => simp [mapFind] at h
  | cons x rest ih =>
    by_cases hk : k = x.1
    · rw [show mapFind (x :: rest) k = some x.2 from by simp [mapFind, hk]] at h
      have hv : v = x.2 := (Option.some_inj.mp h).symm
      subst hv
      rw [show mapErase (x :: rest) k = rest from by simp [mapErase, hk]]
      simp only [mapNumSum, List.map_cons, List.sum_cons]
      omega
    · rw [show mapFind (x :: rest) k = mapFind rest k from by simp [mapFind, hk]] at h
      rw [show mapErase (x :: rest) k = x :: mapErase rest k from by simp [mapErase, hk]]
      have := ih h
      simp only [mapNumSum, List.map_cons, List.sum_cons] at this ⊢
      omega

theorem mapUpdate_forall_found (m : SideMap) (k : Nat) (f : PriceLevel → PriceLevel)
    (P : PriceLevel → Prop) (h : ∀ p ∈ m, P p.2)
    (hf : ∀ v, mapFind m k = some v → P v → P (f v)) :
    ∀ p ∈ mapUpdate m k f, P p.2 := by
  induction m with
  | nil => simp [mapUpdate]
  | cons x rest ih =>
    intro p hp
    by_cases hk : k = x.1
    · rw [show mapUpdate (x :: rest) k f = (x.1, f x.2) :: rest from by
        simp [mapUpdate, hk]] at hp
      rcases List.mem_cons.mp hp with h' | h'
      · rw [h']
        exact hf x.2 (by simp [mapFind, hk]) (h x (List.mem_cons_self x rest))
      · exact h p (List.mem_cons_of_mem x h')
    · rw [show mapUpdate (x :: rest) k f = x :: mapUpdate rest k f from by
        simp [mapUpdate, hk]] at hp
      rcases List.mem_cons.mp hp with h' | h'
      · rw [h']
        exact h x (List.mem_cons_self x rest)
      · exact ih (fun q hq => h q (List.mem_cons_of_mem x hq))
          (fun v hv hPv => hf v (by simp [mapFind, hk, hv]) hPv) p h'

theorem sideMapOf_congr (b b' : Orderbook) (hb : b'.bids = b.bids) (ha : b'.asks = b.asks)
    (s : Side) : sideMapOf b' s = sideMapOf b s := by
  unfold sideMapOf
  rw [hb, ha]

theorem resolveHandle_congr (b b' : Orderbook) (hb : b'.bids = b.bids) (ha : b'.asks = b.asks)
    (hdl : OrderHandle) : resolveHandle b' hdl = resolveHandle b hdl := by
  unfold resolveHandle Orderbook.sideFind
  rw [hb, ha]

theorem sumCounts_congr (b b' : Orderbook) (hb : b'.bids = b.bids) (ha : b'.asks = b.asks) :
    sumCounts b' = sumCounts b := by
  unfold sumCounts
  rw [hb, ha]

theorem bookInv_congr (b b' : Orderbook) (hb : b'.bids = b.bids) (ha : b'.asks = b.asks)
    (hi : b'.index = b.index) (ht : b'.next_tag = b.next_tag) (h : BookInv b) :
    BookInv b' := by
  refine ⟨?_, ?_, ?_, ?_, ?_, ?_, ?_, ?_, ?_⟩
  · rw [hi, sumCounts_congr b b' hb ha]
    exact h.count
  · intro s p hp
    rw [sideMapOf_congr b b' hb ha s] at hp
    exact h.lens s p hp
  · intro s p hp
    rw [sideMapOf_congr b b' hb ha s] at hp
    exact h.ftags s p hp
  · intro s
    rw [sideMapOf_congr b b' hb ha s]
    exact h.keys s
  · intro s
    rw [sideMapOf_congr b b' hb ha s]
    exact h.sorted s
  · rw [hi]
    exact h.ikeys
  · intro s p hp nd hnd
    rw [sideMapOf_congr b b' hb ha s] at hp
    rw [ht]
    exact h.tags s p hp nd hnd
  · intro p hp
    rw [hi] at hp
    rw [resolveHandle_congr b b' hb ha]
    exact h.resolve p hp
  · intro s p hp nd hnd
    rw [sideMapOf_congr b b' hb ha s] at hp
    rw [hi]
    exact h.indexed s p hp nd hnd

theorem bookInv_empty : BookInv emptyBook := by
  refine ⟨rfl, ?_, ?_, ?_, ?_, ?_, ?_, ?_, ?_⟩
  · intro s p hp
    by_cases hs : s = Side.Buy <;> simp [sideMapOf, emptyBook, hs] at hp
  · intro s p hp
    by_cases hs : s = Side.Buy <;> simp [sideMapOf, emptyBook, hs] at hp
  · intro s
    by_cases hs : s = Side.Buy <;> simp [sideMapOf, emptyBook, hs]
  · intro s
    by_cases hs : s = Side.Buy <;> simp [sideMapOf, emptyBook, hs]
  · simp [emptyBook]
  · intro s p hp
    by_cases hs : s = Side.Buy <;> simp [sideMapOf, emptyBook, hs] at hp
  · intro p hp
    simp [emptyBook] at hp
  · intro s p hp
    by_cases hs : s = Side.Buy <;> simp [sideMapOf, emptyBook, hs] at hp

theorem bookInv_state (b : Orderbook) (e : Event) (h : BookInv b) :
    BookInv (b.handle_state e) :=
  bookInv_congr b (b.handle_state e) rfl rfl rfl rfl h

theorem sideMapOf_eq_of_selBid (b : Orderbook) (s s' : Side)
    (h : selBid s' = selBid s) : sideMapOf b s' = sideMapOf b s := by
  unfold sideMapOf
  unfold selBid at h
  by_cases h1 : s = Side.Buy <;> by_cases h2 : s' = Side.Buy <;>
    simp [h1, h2] at h ⊢

theorem cmpFor_eq_of_selBid (s s' : Side) (h : selBid s' = selBid s) :
    cmpFor s' = cmpFor s := by
  unfold cmpFor
  unfold selBid at h
  by_cases h1 : s = Side.Buy <;> by_cases h2 : s' = Side.Buy <;>
    simp [h1, h2] at h ⊢

theorem resolveHandle_eq (b : Orderbook) (hdl : OrderHandle) :
    resolveHandle b hdl =
      match mapFind (sideMapOf b hdl.side) hdl.price with
      | none => none
      | some lvl => fifoFindTag lvl.fifo hdl.tag := by
  unfold resolveHandle
  rw [sideFind_eq_sideMapOf]

theorem addFix_fifo (price : Nat) (lvl : PriceLevel) : (addFix price lvl).fifo = lvl.fifo := by
  unfold addFix
  split <;> rfl

theorem addFix_num (price : Nat) (lvl : PriceLevel) :
    (addFix price lvl).num_orders = lvl.num_orders := by
  unfold addFix
  split <;> rfl

theorem addIns_fifo (nd0 : FifoNode) (lvl : PriceLevel) :
    (addIns nd0 lvl).fifo = fifoInsert nd0 lvl.fifo := by
  unfold addIns
  dsimp only
  rw [addFix_fifo]

theorem addIns_num (nd0 : FifoNode) (lvl : PriceLevel) :
    (addIns nd0 lvl).num_orders = lvl.num_orders + 1 := by
  unfold addIns
  dsimp only
  rw [addFix_num]

theorem bookInv_add (b : Orderbook) (e : Event) (hInv : BookInv b)
    (habs : indexFind b.index e.order_id = none) :
    BookInv (b.handle_add e) := by
  have hmap : ∀ s', sideMapOf (b.handle_add e) s'
      = if selBid s' = selBid e.side
        then mapUpdate
          (mapEmplace (cmpFor e.side) (sideMapOf b s') e.price) e.price
          (addIns
            { tag := b.next_tag,
              ord := { id := e.order_id, side := e.side, price := e.price,
                       quantity := e.quantity, ranking_time := e.ranking_time,
                       ranking_seq_num := e.ranking_seq_num } })
        else sideMapOf b s' := by
    intro s'
    have h0 : sideMapOf (b.handle_add e) s'
        = sideMapOf ((b.level_for e.side e.price).updateLevel e.side e.price
            (fun lvl =>
              { lvl with
                  fifo := fifoInsert
                    { tag := b.next_tag,
                      ord := { id := e.order_id, side := e.side, price := e.price,
                               quantity := e.quantity, ranking_time := e.ranking_time,
                               ranking_seq_num := e.ranking_seq_num } } lvl.fifo,
                  aggregate := lvl.aggregate + e.quantity,
                  num_orders := lvl.num_orders + 1 })) s' :=
      sideMapOf_congr _ _ rfl rfl s'
    rw [h0, sideMapOf_updateLevel, sideMapOf_level_for]
    by_cases hsel : selBid s' = selBid e.side
    · rw [if_pos hsel, if_pos hsel, mapUpdate_update, if_pos hsel]
      rfl
    · rw [if_neg hsel, if_neg hsel, if_neg hsel]
  have hidx : (b.handle_add e).index
      = indexInsert b.index e.order_id
          { side := e.side, price := e.price, tag := b.next_tag } := by
    show indexInsert ((b.level_for e.side e.price).updateLevel e.side e.price _).index
        e.order_id _ = _
    rw [updateLevel_index, level_for_index]
  have htag : (b.handle_add e).next_tag = b.next_tag + 1 := rfl
  obtain ⟨base, hEfind, hbtags, hblen, hbnodup, hbindexed, hbagree, hEsum, hEkeys, hEsorted⟩ :
      ∃ base : PriceLevel,
        mapFind (mapEmplace (cmpFor e.side) (sideMapOf b e.side) e.price) e.price
          = some base ∧
        (∀ x ∈ base.fifo, x.tag < b.next_tag) ∧
        base.num_orders = base.fifo.length ∧
        (base.fifo.map (fun nd => nd.tag)).Nodup ∧
        (∀ x ∈ base.fifo, ∃ hdl, indexFind b.index x.ord.id = some hdl ∧
            selBid hdl.side = selBid e.side ∧ hdl.price = e.price ∧ hdl.tag = x.tag) ∧
        (∀ lvl', mapFind (sideMapOf b e.side) e.price = some lvl' → base.fifo = lvl'.fifo) ∧
        mapNumSum (mapEmplace (cmpFor e.side) (sideMapOf b e.side) e.price)
          = mapNumSum (sideMapOf b e.side) ∧
        ((mapEmplace (cmpFor e.side) (sideMapOf b e.side) e.price).map
            (fun p => p.1)).Nodup ∧
        List.Pairwise (fun x y => cmpFor e.side x.1 y.1 = true)
          (mapEmplace (cmpFor e.side) (sideMapOf b e.side) e.price) := by
    cases hfind : mapFind (sideMapOf b e.side) e.price with
    | none =>
      refine ⟨{}, mapFind_emplace_absent _ _ _ hfind, ?_, rfl, ?_, ?_, ?_, ?_, ?_, ?_⟩
      · intro x hx
        exact absurd hx (List.not_mem_nil x)
      · simp
      · intro x hx
        exact absurd hx (List.not_mem_nil x)
      · intro lvl' hlvl'
        exact absurd hlvl' (by simp)
      · exact mapNumSum_emplace_absent _ _ _ hfind
      · exact mapEmplace_keysNodup _ _ _ hfind (hInv.keys e.side)
      · exact mapEmplace_pairwise _ _ _ (cmpFor_total e.side) (cmpFor_trans e.side)
          (hInv.sorted e.side)
    | some lvl =>
      have hEeq : mapEmplace (cmpFor e.side) (sideMapOf b e.side) e.price
          = sideMapOf b e.side :=
        mapEmplace_of_found _ _ _ lvl (hInv.sorted e.side) (cmpFor_asymm e.side) hfind
      have hmem : (e.price, lvl) ∈ sideMapOf b e.side := mapFind_mem _ _ _ hfind
      refine ⟨lvl, by rw [hEeq]; exact hfind, ?_, ?_, ?_, ?_, ?_, ?_, ?_, ?_⟩
      · intro x hx
        exact hInv.tags e.side (e.price, lvl) hmem x hx
      · exact hInv.lens e.side (e.price, lvl) hmem
      · exact hInv.ftags e.side (e.price, lvl) hmem
      · intro x hx
        exact hInv.indexed e.side (e.price, lvl) hmem x hx
      · intro lvl' hlvl'
        rw [Option.some_inj.mp hlvl']
      · rw [hEeq]
      · rw [hEeq]
        exact hInv.keys e.side
      · rw [hEeq]
        exact hInv.sorted e.side
  have hEmem : ∀ p ∈ mapEmplace (cmpFor e.side) (sideMapOf b e.side) e.price,
      p ∈ sideMapOf b e.side ∨ p = (e.price, ({} : PriceLevel)) :=
    fun p hp => mem_mapEmplace _ _ _ p hp
  refine ⟨?_, ?_, ?_, ?_, ?_, ?_, ?_, ?_, ?_⟩
  · -- count
    rw [hidx, indexInsert_length_absent b.index e.order_id _ habs, hInv.count,
      sumCounts_eq, sumCounts_eq, hmap Side.Buy, hmap Side.Sell]
    have hNsum : mapNumSum (mapUpdate
        (mapEmplace (cmpFor e.side) (sideMapOf b e.side) e.price) e.price
        (addIns
          { tag := b.next_tag,
            ord := { id := e.order_id, side := e.side, price := e.price,
                     quantity := e.quantity, ranking_time := e.ranking_time,
                     ranking_seq_num := e.ranking_seq_num } }))
        = mapNumSum (sideMapOf b e.side) + 1 := by
      have h1 := mapNumSum_update_found
        (mapEmplace (cmpFor e.side) (sideMapOf b e.side) e.price) e.price
        (addIns
          { tag := b.next_tag,
            ord := { id := e.order_id, side := e.side, price := e.price,
                     quantity := e.quantity, ranking_time := e.ranking_time,
                     ranking_seq_num := e.ranking_seq_num } }) base hEfind
      rw [addIns_num, hEsum] at h1
      omega
    by_cases hbs : e.side = Side.Buy
    · rw [if_pos (by rw [hbs]), if_neg (by rw [hbs]; simp [selBid])]
      rw [sideMapOf_eq_of_selBid b e.side Side.Buy (by rw [hbs])]
      rw [hNsum]
      omega
    · rw [if_neg (by simp [selBid, hbs]), if_pos (by simp [selBid, hbs])]
      rw [sideMapOf_eq_of_selBid b e.side Side.Sell (by simp [selBid, hbs])]
      rw [hNsum]
      omega
  · -- lens
    intro s' p hp
    rw [hmap s'] at hp
    by_cases hsel : selBid s' = selBid e.side
    · rw [if_pos hsel, sideMapOf_eq_of_selBid b e.side s' hsel] at hp
      refine mapUpdate_forall _ _ _ (fun v => v.num_orders = v.fifo.length) ?_ ?_ p hp
      · intro q hq
        rcases hEmem q hq with hqM | hqnew
        · exact hInv.lens e.side q hqM
        · rw [hqnew]
          rfl
      · intro v hv
        rw [addIns_num, addIns_fifo, fifoInsert_length, hv]
    · rw [if_neg hsel] at hp
      exact hInv.lens s' p hp
  · -- ftags
    intro s' p hp
    rw [hmap s'] at hp
    by_cases hsel : selBid s' = selBid e.side
    · rw [if_pos hsel, sideMapOf_eq_of_selBid b e.side s' hsel] at hp
      refine mapUpdate_forall_found _ _ _
        (fun v => (v.fifo.map (fun nd => nd.tag)).Nodup) ?_ ?_ p hp
      · intro q hq
        rcases hEmem q hq with hqM | hqnew
        · exact hInv.ftags e.side q hqM
        · rw [hqnew]
          simp
      · intro v hv hPv
        have hvb : v = base := Option.some_inj.mp (hv ▸ hEfind)
        subst hvb
        rw [addIns_fifo]
        have hperm := List.Perm.map (fun nd => nd.tag)
          (fifoInsert_perm
            { tag := b.next_tag,
              ord := { id := e.order_id, side := e.side, price := e.price,
                       quantity := e.quantity, ranking_time := e.ranking_time,
                       ranking_seq_num := e.ranking_seq_num } } v.fifo)
        rw [List.Perm.nodup_iff hperm]
        simp only [List.map_cons, List.nodup_cons]
        refine ⟨?_, hPv⟩
        intro hc
        rcases List.mem_map.mp hc with ⟨x, hx, hxt⟩
        have := hbtags x hx
        omega
    · rw [if_neg hsel] at hp
      exact hInv.ftags s' p hp
  · -- keys
    intro s'
    rw [hmap s']
    by_cases hsel : selBid s' = selBid e.side
    · rw [if_pos hsel, sideMapOf_eq_of_selBid b e.side s' hsel, mapUpdate_keys]
      exact hEkeys
    · rw [if_neg hsel]
      exact hInv.keys s'
  · -- sorted
    intro s'
    rw [hmap s']
    by_cases hsel : selBid s' = selBid e.side
    · rw [if_pos hsel, sideMapOf_eq_of_selBid b e.side s' hsel,
        cmpFor_eq_of_selBid e.side s' hsel]
      exact mapUpdate_pairwise _ _ _ _ hEsorted
    · rw [if_neg hsel]
      exact hInv.sorted s'
  · -- ikeys
    rw [hidx]
    exact indexInsert_keysNodup _ _ _ habs hInv.ikeys
  · -- tags
    intro s' p hp nd hnd
    rw [htag]
    rw [hmap s'] at hp
    by_cases hsel : selBid s' = selBid e.side
    · rw [if_pos hsel, sideMapOf_eq_of_selBid b e.side s' hsel] at hp
      refine mapUpdate_forall _ _ _ (fun v => ∀ x ∈ v.fifo, x.tag < b.next_tag + 1)
        ?_ ?_ p hp nd hnd
      · intro q hq x hx
        rcases hEmem q hq with hqM | hqnew
        · have := hInv.tags e.side q hqM x hx
          omega
        · rw [hqnew] at hx
          exact absurd hx (List.not_mem_nil x)
      · intro v hv x hx
        rw [addIns_fifo] at hx
        rcases mem_fifoInsert x _ _ hx with h' | h'
        · rw [h']
          show b.next_tag < b.next_tag + 1
          omega
        · have := hv x h'
          omega
    · rw [if_neg hsel] at hp
      have := hInv.tags s' p hp nd hnd
      omega
  · -- resolve
    intro p hp
    rw [hidx] at hp
    rcases mem_indexInsert b.index e.order_id _ p hp with hmem | hnew
    · obtain ⟨ndx, hres, hid⟩ := hInv.resolve p hmem
      refine ⟨ndx, ?_, hid⟩
      rw [resolveHandle_eq] at hres ⊢
      cases hL : mapFind (sideMapOf b p.2.side) p.2.price with
      | none =>
        rw [hL] at hres
        exact absurd hres (by simp)
      | some lvl' =>
        rw [hL] at hres
        dsimp only at hres
        rw [hmap p.2.side]
        by_cases hsel : selBid p.2.side = selBid e.side
        · rw [if_pos hsel, sideMapOf_eq_of_selBid b e.side p.2.side hsel]
          have hLM : mapFind (sideMapOf b e.side) p.2.price = some lvl' := by
            rw [← sideMapOf_eq_of_selBid b e.side p.2.side hsel]
            exact hL
          by_cases hpr : p.2.price = e.price
          · rw [hpr, mapFind_update, hEfind]
            dsimp only [Option.map]
            rw [addIns_fifo]
            have hbf : base.fifo = lvl'.fifo := hbagree lvl' (hpr ▸ hLM)
            rw [hbf]
            have hmemL : (p.2.price, lvl') ∈ sideMapOf b p.2.side := mapFind_mem _ _ _ hL
            have hlt := hInv.tags p.2.side (p.2.price, lvl') hmemL ndx
              (fifoFindTag_mem _ _ _ hres)
            have htg := fifoFindTag_tag _ _ _ hres
            have hne2 : b.next_tag ≠ p.2.tag := by omega
            rw [fifoFindTag_insert_ne _ _ _ hne2]
            exact hres
          · rw [mapFind_update_ne _ _ _ _ hpr, mapFind_emplace_ne _ _ _ _ hpr, hLM]
            exact hres
        · rw [if_neg hsel, hL]
          exact hres
    · refine ⟨{ tag := b.next_tag,
                ord := { id := e.order_id, side := e.side, price := e.price,
                         quantity := e.quantity, ranking_time := e.ranking_time,
                         ranking_seq_num := e.ranking_seq_num } }, ?_, by rw [hnew]⟩
      rw [hnew, resolveHandle_eq]
      dsimp only
      rw [hmap, if_pos rfl, sideMapOf_eq_of_selBid b e.side e.side rfl,
        mapFind_update, hEfind]
      dsimp only [Option.map]
      rw [addIns_fifo]
      exact fifoFindTag_insert base.fifo b.next_tag _
        (fun x hx => by have := hbtags x hx; omega)
  · -- indexed
    intro s' p hp nd hnd
    rw [hidx]
    rw [hmap s'] at hp
    by_cases hsel : selBid s' = selBid e.side
    · rw [if_pos hsel, sideMapOf_eq_of_selBid b e.side s' hsel] at hp
      rcases mem_mapUpdate _ _ _ p hp with hpE | ⟨q, hqE, hqk, hpeq⟩
      · rcases hEmem p hpE with hpM | hpnew
        · have hpM' : p ∈ sideMapOf b s' := by
            rw [sideMapOf_eq_of_selBid b e.side s' hsel]
            exact hpM
          obtain ⟨hdl, hfind, hselh, hprice, htg⟩ := hInv.indexed s' p hpM' nd hnd
          have hne : nd.ord.id ≠ e.order_id := by
            intro hc
            rw [hc, habs] at hfind
            exact Option.noConfusion hfind
          exact ⟨hdl, by rw [indexFind_insert_ne _ _ _ _ hne]; exact hfind,
            hselh, hprice, htg⟩
        · rw [hpnew] at hnd
          exact absurd hnd (List.not_mem_nil nd)
      · rw [hpeq] at hnd ⊢
        dsimp only at hnd
        rw [addIns_fifo] at hnd
        rcases mem_fifoInsert nd _ _ hnd with hnew | hold
        · refine ⟨{ side := e.side, price := e.price, tag := b.next_tag }, ?_, ?_, rfl, ?_⟩
          · rw [hnew]
            exact indexFind_insert b.index e.order_id _
          · exact hsel.symm
          · rw [hnew]
        · rcases hEmem q hqE with hqM | hqnew
          · have hqM' : q ∈ sideMapOf b s' := by
              rw [sideMapOf_eq_of_selBid b e.side s' hsel]
              exact hqM
            obtain ⟨hdl, hfind, hselh, hprice, htg⟩ := hInv.indexed s' q hqM' nd hold
            have hne : nd.ord.id ≠ e.order_id := by
              intro hc
              rw [hc, habs] at hfind
              exact Option.noConfusion hfind
            refine ⟨hdl, by rw [indexFind_insert_ne _ _ _ _ hne]; exact hfind,
              hselh, ?_, htg⟩
            rw [hprice, hqk]
          · rw [hqnew] at hold
            exact absurd hold (List.not_mem_nil nd)
    · rw [if_neg hsel] at hp
      obtain ⟨hdl, hfind, hselh, hprice, htg⟩ := hInv.indexed s' p hp nd hnd
      have hne : nd.ord.id ≠ e.order_id := by
        intro hc
        rw [hc, habs] at hfind
        exact Option.noConfusion hfind
      exact ⟨hdl, by rw [indexFind_insert_ne _ _ _ _ hne]; exact hfind,
        hselh, hprice, htg⟩

theorem bookInv_removeNode (b : Orderbook) (id : Nat) (hdl : OrderHandle)
    (lvl : PriceLevel) (nd : FifoNode) (q px : Nat) (hInv : BookInv b)
    (h1 : indexFind b.index id = some hdl)
    (h2 : b.sideFind hdl.side hdl.price = some lvl)
    (h3 : fifoFindTag lvl.fifo hdl.tag = some nd) :
    BookInv (removeNode b id hdl q px) := by
  have hfindM : mapFind (sideMapOf b hdl.side) hdl.price = some lvl := by
    rw [← sideFind_eq_sideMapOf]
    exact h2
  have hmemlvl : (hdl.price, lvl) ∈ sideMapOf b hdl.side := mapFind_mem _ _ _ hfindM
  have hndmem : nd ∈ lvl.fifo := fifoFindTag_mem _ _ _ h3
  have htagnd : nd.tag = hdl.tag := fifoFindTag_tag _ _ _ h3
  have hlvlnodup : (lvl.fifo.map (fun nd => nd.tag)).Nodup :=
    hInv.ftags hdl.side (hdl.price, lvl) hmemlvl
  have hlenlvl : lvl.num_orders = lvl.fifo.length :=
    hInv.lens hdl.side (hdl.price, lvl) hmemlvl
  have hlpos : 1 ≤ lvl.fifo.length := List.length_pos.mpr (List.ne_nil_of_mem hndmem)
  have hidnd : nd.ord.id = id := by
    obtain ⟨ndr, hres, hid⟩ := hInv.resolve (id, hdl) (indexFind_mem _ _ _ h1)
    have hr : resolveHandle b hdl = some nd := by
      unfold resolveHandle
      rw [h2]
      dsimp only
      exact h3
    have hveq : ndr = nd := by
      rw [hr] at hres
      exact (Option.some_inj.mp hres).symm
    rw [← hveq]
    exact hid
  have hmapB2 : ∀ s', sideMapOf ({ (b.updateLevel hdl.side hdl.price (fun l =>
      { l with aggregate := l.aggregate - q,
               num_orders := l.num_orders - 1,
               fifo := fifoEraseTag l.fifo hdl.tag })) with
        index := indexErase (b.updateLevel hdl.side hdl.price (fun l =>
      { l with aggregate := l.aggregate - q,
               num_orders := l.num_orders - 1,
               fifo := fifoEraseTag l.fifo hdl.tag })).index id,
        last_exec_price := px } : Orderbook) s'
      = if selBid s' = selBid hdl.side
        then mapUpdate (sideMapOf b s') hdl.price (fun l =>
      { l with aggregate := l.aggregate - q,
               num_orders := l.num_orders - 1,
               fifo := fifoEraseTag l.fifo hdl.tag })
        else sideMapOf b s' := by
    intro s'
    have h0 := sideMapOf_congr (b.updateLevel hdl.side hdl.price (fun l =>
      { l with aggregate := l.aggregate - q,
               num_orders := l.num_orders - 1,
               fifo := fifoEraseTag l.fifo hdl.tag }))
      ({ (b.updateLevel hdl.side hdl.price (fun l =>
      { l with aggregate := l.aggregate - q,
               num_orders := l.num_orders - 1,
               fifo := fifoEraseTag l.fifo hdl.tag })) with
          index := indexErase (b.updateLevel hdl.side hdl.price (fun l =>
      { l with aggregate := l.aggregate - q,
               num_orders := l.num_orders - 1,
               fifo := fifoEraseTag l.fifo hdl.tag })).index id,
          last_exec_price := px } : Orderbook) rfl rfl s'
    rw [h0, sideMapOf_updateLevel]
  have hfindB2 : ({ (b.updateLevel hdl.side hdl.price (fun l =>
      { l with aggregate := l.aggregate - q,
               num_orders := l.num_orders - 1,
               fifo := fifoEraseTag l.fifo hdl.tag })) with
        index := indexErase (b.updateLevel hdl.side hdl.price (fun l =>
      { l with aggregate := l.aggregate - q,
               num_orders := l.num_orders - 1,
               fifo := fifoEraseTag l.fifo hdl.tag })).index id,
        last_exec_price := px } : Orderbook).sideFind hdl.side hdl.price
      = some ((fun l =>
      { l with aggregate := l.aggregate - q,
               num_orders := l.num_orders - 1,
               fifo := fifoEraseTag l.fifo hdl.tag }) lvl) := by
    rw [sideFind_eq_sideMapOf, hmapB2 hdl.side, if_pos rfl, mapFind_update, hfindM]
    rfl
  have hidxB2 : (indexErase (b.updateLevel hdl.side hdl.price (fun l =>
      { l with aggregate := l.aggregate - q,
               num_orders := l.num_orders - 1,
               fifo := fifoEraseTag l.fifo hdl.tag })).index id)
      = indexErase b.index id := by
    rw [updateLevel_index]
  have hremeq : removeNode b id hdl q px
      = ({ (b.updateLevel hdl.side hdl.price (fun l =>
      { l with aggregate := l.aggregate - q,
               num_orders := l.num_orders - 1,
               fifo := fifoEraseTag l.fifo hdl.tag })) with
          index := indexErase (b.updateLevel hdl.side hdl.price (fun l =>
      { l with aggregate := l.aggregate - q,
               num_orders := l.num_orders - 1,
               fifo := fifoEraseTag l.fifo hdl.tag })).index id,
          last_exec_price := px } : Orderbook).erase_level_if_empty hdl.side hdl.price := rfl
  by_cases hnz : lvl.num_orders - 1 = 0
  · -- level empties and is erased
    have hone : lvl.fifo.length = 1 := by omega
    have hsingle : ∀ x ∈ lvl.fifo, x = nd := by
      obtain ⟨a, ha⟩ := List.length_eq_one.mp hone
      intro x hx
      rw [ha] at hx hndmem
      rw [List.mem_singleton.mp hx, List.mem_singleton.mp hndmem]
    have hB3 : removeNode b id hdl q px
        = (({ (b.updateLevel hdl.side hdl.price (fun l =>
      { l with aggregate := l.aggregate - q,
               num_orders := l.num_orders - 1,
               fifo := fifoEraseTag l.fifo hdl.tag })) with
            index := indexErase (b.updateLevel hdl.side hdl.price (fun l =>
      { l with aggregate := l.aggregate - q,
               num_orders := l.num_orders - 1,
               fifo := fifoEraseTag l.fifo hdl.tag })).index id,
            last_exec_price := px } : Orderbook).updateLevel hdl.side hdl.price
              (fun _ => { (fun l =>
      { l with aggregate := l.aggregate - q,
               num_orders := l.num_orders - 1,
               fifo := fifoEraseTag l.fifo hdl.tag }) lvl with aggregate := 0 })).eraseLevel hdl.side hdl.price := by
      rw [hremeq]
      exact erase_level_of_zero _ _ _ ((fun l =>
      { l with aggregate := l.aggregate - q,
               num_orders := l.num_orders - 1,
               fifo := fifoEraseTag l.fifo hdl.tag }) lvl) hfindB2 hnz
    have hmapZ : ∀ s', sideMapOf (removeNode b id hdl q px) s'
        = if selBid s' = selBid hdl.side
          then mapErase (sideMapOf b s') hdl.price
          else sideMapOf b s' := by
      intro s'
      by_cases hsel : selBid s' = selBid hdl.side
      · rw [hB3, sideMapOf_eraseLevel, if_pos hsel, sideMapOf_updateLevel, if_pos hsel,
          hmapB2 s', if_pos hsel, if_pos hsel, mapErase_update, mapErase_update]
      · rw [hB3, sideMapOf_eraseLevel, if_neg hsel, sideMapOf_updateLevel, if_neg hsel,
          hmapB2 s', if_neg hsel, if_neg hsel]
    have hidxZ : (removeNode b id hdl q px).index = indexErase b.index id := by
      rw [hB3, eraseLevel_index, updateLevel_index]
      exact hidxB2
    have htagZ : (removeNode b id hdl q px).next_tag = b.next_tag := by
      rw [hB3, eraseLevel_next_tag, updateLevel_next_tag]
      exact updateLevel_next_tag _ _ _ _
    refine ⟨?_, ?_, ?_, ?_, ?_, ?_, ?_, ?_, ?_⟩
    · -- count
      rw [hidxZ, sumCounts_eq, hmapZ Side.Buy, hmapZ Side.Sell]
      have hlen1 : (indexErase b.index id).length + 1 = b.index.length :=
        indexErase_length_found b.index id hdl h1
      have hsumer : mapNumSum (mapErase (sideMapOf b hdl.side) hdl.price) + lvl.num_orders
          = mapNumSum (sideMapOf b hdl.side) :=
        mapNumSum_erase_found _ _ _ hfindM
      have hcount := hInv.count
      rw [sumCounts_eq] at hcount
      by_cases hbs : hdl.side = Side.Buy
      · rw [if_pos (by rw [hbs]), if_neg (by rw [hbs]; simp [selBid])]
        rw [sideMapOf_eq_of_selBid b hdl.side Side.Buy (by rw [hbs])] 
        rw [sideMapOf_eq_of_selBid b hdl.side Side.Buy (by rw [hbs])] at hcount
        omega
      · rw [if_neg (by simp [selBid, hbs]), if_pos (by simp [selBid, hbs])]
        rw [sideMapOf_eq_of_selBid b hdl.side Side.Sell (by simp [selBid, hbs])] 
        rw [sideMapOf_eq_of_selBid b hdl.side Side.Sell (by simp [selBid, hbs])] at hcount
        omega
    · -- lens
      intro s' p hp
      rw [hmapZ s'] at hp
      by_cases hsel : selBid s' = selBid hdl.side
      · rw [if_pos hsel, sideMapOf_eq_of_selBid b hdl.side s' hsel] at hp
        exact hInv.lens hdl.side p ((mem_mapErase_ne _ _ p (hInv.keys hdl.side) hp).1)
      · rw [if_neg hsel] at hp
        exact hInv.lens s' p hp
    · -- ftags
      intro s' p hp
      rw [hmapZ s'] at hp
      by_cases hsel : selBid s' = selBid hdl.side
      · rw [if_pos hsel, sideMapOf_eq_of_selBid b hdl.side s' hsel] at hp
        exact hInv.ftags hdl.side p ((mem_mapErase_ne _ _ p (hInv.keys hdl.side) hp).1)
      · rw [if_neg hsel] at hp
        exact hInv.ftags s' p hp
    · -- keys
      intro s'
      rw [hmapZ s']
      by_cases hsel : selBid s' = selBid hdl.side
      · rw [if_pos hsel, sideMapOf_eq_of_selBid b hdl.side s' hsel]
        exact List.Nodup.sublist (List.Sublist.map _ (mapErase_sublist _ _))
          (hInv.keys hdl.side)
      · rw [if_neg hsel]
        exact hInv.keys s'
    · -- sorted
      intro s'
      rw [hmapZ s']
      by_cases hsel : selBid s' = selBid hdl.side
      · rw [if_pos hsel, sideMapOf_eq_of_selBid b hdl.side s' hsel,
          cmpFor_eq_of_selBid hdl.side s' hsel]
        exact List.Pairwise.sublist (mapErase_sublist _ _) (hInv.sorted hdl.side)
      · rw [if_neg hsel]
        exact hInv.sorted s'
    · -- ikeys
      rw [hidxZ]
      exact indexErase_keysNodup _ _ hInv.ikeys
    · -- tags
      intro s' p hp x hx
      rw [htagZ]
      rw [hmapZ s'] at hp
      by_cases hsel : selBid s' = selBid hdl.side
      · rw [if_pos hsel, sideMapOf_eq_of_selBid b hdl.side s' hsel] at hp
        exact hInv.tags hdl.side p ((mem_mapErase_ne _ _ p (hInv.keys hdl.side) hp).1) x hx
      · rw [if_neg hsel] at hp
        exact hInv.tags s' p hp x hx
    · -- resolve
      intro p hp
      rw [hidxZ] at hp
      obtain ⟨hpold, hpne⟩ := mem_indexErase_ne b.index id p hInv.ikeys hp
      obtain ⟨ndx, hres, hid⟩ := hInv.resolve p hpold
      refine ⟨ndx, ?_, hid⟩
      rw [resolveHandle_eq] at hres ⊢
      cases hL : mapFind (sideMapOf b p.2.side) p.2.price with
      | none =>
        rw [hL] at hres
        exact absurd hres (by simp)
      | some lvl' =>
        rw [hL] at hres
        dsimp only at hres
        rw [hmapZ p.2.side]
        by_cases hsel : selBid p.2.side = selBid hdl.side
        · rw [if_pos hsel, sideMapOf_eq_of_selBid b hdl.side p.2.side hsel]
          have hLM : mapFind (sideMapOf b hdl.side) p.2.price = some lvl' := by
            rw [← sideMapOf_eq_of_selBid b hdl.side p.2.side hsel]
            exact hL
          by_cases hpr : p.2.price = hdl.price
          · exfalso
            have hlvleq : lvl' = lvl := by
              rw [hpr, hfindM] at hLM
              exact Option.some_inj.mp hLM.symm
            have hxmem : ndx ∈ lvl.fifo := by
              rw [← hlvleq]
              exact fifoFindTag_mem _ _ _ hres
            have : ndx = nd := hsingle ndx hxmem
            rw [this, hidnd] at hid
            exact hpne hid.symm
          · rw [mapFind_erase_ne _ _ _ hpr, hLM]
            exact hres
        · rw [if_neg hsel, hL]
          exact hres
    · -- indexed
      intro s' p hp x hx
      rw [hidxZ]
      rw [hmapZ s'] at hp
      by_cases hsel : selBid s' = selBid hdl.side
      · rw [if_pos hsel, sideMapOf_eq_of_selBid b hdl.side s' hsel] at hp
        obtain ⟨hpold, hpne⟩ := mem_mapErase_ne _ _ p (hInv.keys hdl.side) hp
        have hpold' : p ∈ sideMapOf b s' := by
          rw [sideMapOf_eq_of_selBid b hdl.side s' hsel]
          exact hpold
        obtain ⟨hdlx, hfind, hselx, hpricex, htgx⟩ := hInv.indexed s' p hpold' x hx
        have hne : x.ord.id ≠ id := by
          intro hc
          rw [hc, h1] at hfind
          have hhe : hdlx = hdl := Option.some_inj.mp hfind.symm
          rw [hhe] at hpricex
          exact hpne hpricex.symm
        exact ⟨hdlx, by rw [indexFind_erase_ne _ _ _ hne]; exact hfind,
          hselx, hpricex, htgx⟩
      · rw [if_neg hsel] at hp
        obtain ⟨hdlx, hfind, hselx, hpricex, htgx⟩ := hInv.indexed s' p hp x hx
        have hne : x.ord.id ≠ id := by
          intro hc
          rw [hc, h1] at hfind
          have hhe : hdlx = hdl := Option.some_inj.mp hfind.symm
          rw [hhe] at hselx
          exact hsel hselx.symm
        exact ⟨hdlx, by rw [indexFind_erase_ne _ _ _ hne]; exact hfind,
          hselx, hpricex, htgx⟩
  · -- level keeps further orders
    have hB3 : removeNode b id hdl q px
        = ({ (b.updateLevel hdl.side hdl.price (fun l =>
      { l with aggregate := l.aggregate - q,
               num_orders := l.num_orders - 1,
               fifo := fifoEraseTag l.fifo hdl.tag })) with
            index := indexErase (b.updateLevel hdl.side hdl.price (fun l =>
      { l with aggregate := l.aggregate - q,
               num_orders := l.num_orders - 1,
               fifo := fifoEraseTag l.fifo hdl.tag })).index id,
            last_exec_price := px } : Orderbook) := by
      rw [hremeq]
      exact erase_level_of_pos _ _ _ ((fun l =>
      { l with aggregate := l.aggregate - q,
               num_orders := l.num_orders - 1,
               fifo := fifoEraseTag l.fifo hdl.tag }) lvl) hfindB2 hnz
    have hmapP : ∀ s', sideMapOf (removeNode b id hdl q px) s'
        = if selBid s' = selBid hdl.side
          then mapUpdate (sideMapOf b s') hdl.price (fun l =>
      { l with aggregate := l.aggregate - q,
               num_orders := l.num_orders - 1,
               fifo := fifoEraseTag l.fifo hdl.tag })
          else sideMapOf b s' := by
      intro s'
      rw [hB3]
      exact hmapB2 s'
    have hidxP : (removeNode b id hdl q px).index = indexErase b.index id := by
      rw [hB3]
      exact hidxB2
    have htagP : (removeNode b id hdl q px).next_tag = b.next_tag := by
      rw [hB3]
      show (b.updateLevel hdl.side hdl.price (fun l =>
      { l with aggregate := l.aggregate - q,
               num_orders := l.num_orders - 1,
               fifo := fifoEraseTag l.fifo hdl.tag })).next_tag = b.next_tag
      exact updateLevel_next_tag _ _ _ _
    refine ⟨?_, ?_, ?_, ?_, ?_, ?_, ?_, ?_, ?_⟩
    · -- count
      rw [hidxP, sumCounts_eq, hmapP Side.Buy, hmapP Side.Sell]
      have hlen1 : (indexErase b.index id).length + 1 = b.index.length :=
        indexErase_length_found b.index id hdl h1
      have hsumup : mapNumSum (mapUpdate (sideMapOf b hdl.side) hdl.price (fun l =>
      { l with aggregate := l.aggregate - q,
               num_orders := l.num_orders - 1,
               fifo := fifoEraseTag l.fifo hdl.tag }))
            + lvl.num_orders
          = mapNumSum (sideMapOf b hdl.side) + (lvl.num_orders - 1) := by
        have := mapNumSum_update_found (sideMapOf b hdl.side) hdl.price (fun l =>
      { l with aggregate := l.aggregate - q,
               num_orders := l.num_orders - 1,
               fifo := fifoEraseTag l.fifo hdl.tag }) lvl hfindM
        exact this
      have hcount := hInv.count
      rw [sumCounts_eq] at hcount
      by_cases hbs : hdl.side = Side.Buy
      · rw [if_pos (by rw [hbs]), if_neg (by rw [hbs]; simp [selBid])]
        rw [sideMapOf_eq_of_selBid b hdl.side Side.Buy (by rw [hbs])] 
        rw [sideMapOf_eq_of_selBid b hdl.side Side.Buy (by rw [hbs])] at hcount
        omega
      · rw [if_neg (by simp [selBid, hbs]), if_pos (by simp [selBid, hbs])]
        rw [sideMapOf_eq_of_selBid b hdl.side Side.Sell (by simp [selBid, hbs])] 
        rw [sideMapOf_eq_of_selBid b hdl.side Side.Sell (by simp [selBid, hbs])] at hcount
        omega
    · -- lens
      intro s' p hp
      rw [hmapP s'] at hp
      by_cases hsel : selBid s' = selBid hdl.side
      · rw [if_pos hsel, sideMapOf_eq_of_selBid b hdl.side s' hsel] at hp
        refine mapUpdate_forall_found _ _ _ (fun v => v.num_orders = v.fifo.length)
          (fun q' hq' => hInv.lens hdl.side q' hq') ?_ p hp
        intro v hv hPv
        have hveq : v = lvl := Option.some_inj.mp (hv ▸ hfindM)
        subst hveq
        have hel := fifoEraseTag_length_found v.fifo hdl.tag nd h3
        show v.num_orders - 1 = (fifoEraseTag v.fifo hdl.tag).length
        omega
      · rw [if_neg hsel] at hp
        exact hInv.lens s' p hp
    · -- ftags
      intro s' p hp
      rw [hmapP s'] at hp
      by_cases hsel : selBid s' = selBid hdl.side
      · rw [if_pos hsel, sideMapOf_eq_of_selBid b hdl.side s' hsel] at hp
        refine mapUpdate_forall _ _ _ (fun v => (v.fifo.map (fun nd => nd.tag)).Nodup)
          (fun q' hq' => hInv.ftags hdl.side q' hq') ?_ p hp
        intro v hPv
        exact List.Nodup.sublist (List.Sublist.map _ (fifoEraseTag_sublist _ _)) hPv
      · rw [if_neg hsel] at hp
        exact hInv.ftags s' p hp
    · -- keys
      intro s'
      rw [hmapP s']
      by_cases hsel : selBid s' = selBid hdl.side
      · rw [if_pos hsel, sideMapOf_eq_of_selBid b hdl.side s' hsel, mapUpdate_keys]
        exact hInv.keys hdl.side
      · rw [if_neg hsel]
        exact hInv.keys s'
    · -- sorted
      intro s'
      rw [hmapP s']
      by_cases hsel : selBid s' = selBid hdl.side
      · rw [if_pos hsel, sideMapOf_eq_of_selBid b hdl.side s' hsel,
          cmpFor_eq_of_selBid hdl.side s' hsel]
        exact mapUpdate_pairwise _ _ _ _ (hInv.sorted hdl.side)
      · rw [if_neg hsel]
        exact hInv.sorted s'
    · -- ikeys
      rw [hidxP]
      exact indexErase_keysNodup _ _ hInv.ikeys
    · -- tags
      intro s' p hp x hx
      rw [htagP]
      rw [hmapP s'] at hp
      by_cases hsel : selBid s' = selBid hdl.side
      · rw [if_pos hsel, sideMapOf_eq_of_selBid b hdl.side s' hsel] at hp
        refine mapUpdate_forall _ _ _ (fun v => ∀ y ∈ v.fifo, y.tag < b.next_tag)
          (fun q' hq' => hInv.tags hdl.side q' hq') ?_ p hp x hx
        intro v hPv y hy
        exact hPv y (List.Sublist.mem hy (fifoEraseTag_sublist _ _))
      · rw [if_neg hsel] at hp
        exact hInv.tags s' p hp x hx
    · -- resolve
      intro p hp
      rw [hidxP] at hp
      obtain ⟨hpold, hpne⟩ := mem_indexErase_ne b.index id p hInv.ikeys hp
      obtain ⟨ndx, hres, hid⟩ := hInv.resolve p hpold
      refine ⟨ndx, ?_, hid⟩
      rw [resolveHandle_eq] at hres ⊢
      cases hL : mapFind (sideMapOf b p.2.side) p.2.price with
      | none =>
        rw [hL] at hres
        exact absurd hres (by simp)
      | some lvl' =>
        rw [hL] at hres
        dsimp only at hres
        rw [hmapP p.2.side]
        by_cases hsel : selBid p.2.side = selBid hdl.side
        · rw [if_pos hsel, sideMapOf_eq_of_selBid b hdl.side p.2.side hsel]
          have hLM : mapFind (sideMapOf b hdl.side) p.2.price = some lvl' := by
            rw [← sideMapOf_eq_of_selBid b hdl.side p.2.side hsel]
            exact hL
          by_cases hpr : p.2.price = hdl.price
          · have hlvleq : lvl' = lvl := by
              rw [hpr, hfindM] at hLM
              exact Option.some_inj.mp hLM.symm
            rw [hpr, mapFind_update, hfindM]
            dsimp only [Option.map]
            have htagne : p.2.tag ≠ hdl.tag := by
              intro hc
              rw [hlvleq, hc, h3] at hres
              have : ndx = nd := Option.some_inj.mp hres.symm
              rw [this, hidnd] at hid
              exact hpne hid.symm
            rw [fifoFindTag_erase_ne _ _ _ htagne, ← hlvleq]
            exact hres
          · rw [mapFind_update_ne _ _ _ _ hpr, hLM]
            exact hres
        · rw [if_neg hsel, hL]
          exact hres
    · -- indexed
      intro s' p hp x hx
      rw [hidxP]
      rw [hmapP s'] at hp
      by_cases hsel : selBid s' = selBid hdl.side
      · rw [if_pos hsel, sideMapOf_eq_of_selBid b hdl.side s' hsel] at hp
        rcases mem_mapUpdate _ _ _ p hp with hpold | ⟨q', hq', hqk, hpeq⟩
        · have hpold' : p ∈ sideMapOf b s' := by
            rw [sideMapOf_eq_of_selBid b hdl.side s' hsel]
            exact hpold
          obtain ⟨hdlx, hfind, hselx, hpricex, htgx⟩ := hInv.indexed s' p hpold' x hx
          have hne : x.ord.id ≠ id := by
            intro hc
            rw [hc, h1] at hfind
            have hhe : hdlx = hdl := Option.some_inj.mp hfind.symm
            have hpr : p.1 = hdl.price := by
              rw [← hpricex, hhe]
            have hfd : mapFind (mapUpdate (sideMapOf b hdl.side) hdl.price (fun l =>
      { l with aggregate := l.aggregate - q,
               num_orders := l.num_orders - 1,
               fifo := fifoEraseTag l.fifo hdl.tag })) p.1
                = some p.2 :=
              mapFind_eq_of_mem_nodup _ p (by rw [mapUpdate_keys]; exact hInv.keys hdl.side) hp
            rw [hpr, mapFind_update, hfindM] at hfd
            have hfd2 : mapFind (sideMapOf b hdl.side) p.1 = some p.2 :=
              mapFind_eq_of_mem_nodup _ p (hInv.keys hdl.side) hpold
            rw [hpr, hfindM] at hfd2
            have hlv2 : lvl = p.2 := Option.some_inj.mp hfd2
            have hlv : ((fun l =>
      { l with aggregate := l.aggregate - q,
               num_orders := l.num_orders - 1,
               fifo := fifoEraseTag l.fifo hdl.tag }) lvl) = p.2 := Option.some_inj.mp hfd
            have hnum : lvl.num_orders - 1 = lvl.num_orders :=
              congrArg PriceLevel.num_orders (hlv.trans hlv2.symm)
            omega
          exact ⟨hdlx, by rw [indexFind_erase_ne _ _ _ hne]; exact hfind,
            hselx, hpricex, htgx⟩
        · have hq'2 : q'.2 = lvl := by
            have hfd : mapFind (sideMapOf b hdl.side) q'.1 = some q'.2 :=
              mapFind_eq_of_mem_nodup _ q' (hInv.keys hdl.side) hq'
            rw [hqk, hfindM] at hfd
            exact (Option.some_inj.mp hfd).symm
          rw [hpeq] at hx ⊢
          have hx' : x ∈ fifoEraseTag lvl.fifo hdl.tag := by
            rw [← hq'2]
            exact hx
          have hxl : x ∈ lvl.fifo := List.Sublist.mem hx' (fifoEraseTag_sublist _ _)
          have hmem' : (hdl.price, lvl) ∈ sideMapOf b s' := by
            rw [sideMapOf_eq_of_selBid b hdl.side s' hsel]
            exact hmemlvl
          obtain ⟨hdlx, hfind, hselx, hpricex, htgx⟩ :=
            hInv.indexed s' (hdl.price, lvl) hmem' x hxl
          have hne : x.ord.id ≠ id := by
            intro hc
            rw [hc, h1] at hfind
            have hhe : hdlx = hdl := Option.some_inj.mp hfind.symm
            have hxt : x.tag = nd.tag := by
              rw [← htgx, hhe, htagnd]
            have hxnd : x = nd := eq_of_mem_tag_nodup lvl.fifo hlvlnodup x nd hxl hndmem hxt
            rw [hxnd] at hx'
            exact not_mem_fifoEraseTag_self lvl.fifo hdl.tag nd hlvlnodup h3 hx' 
          refine ⟨hdlx, by rw [indexFind_erase_ne _ _ _ hne]; exact hfind, hselx, ?_, htgx⟩
          exact hpricex
      · rw [if_neg hsel] at hp
        obtain ⟨hdlx, hfind, hselx, hpricex, htgx⟩ := hInv.indexed s' p hp x hx
        have hne : x.ord.id ≠ id := by
          intro hc
          rw [hc, h1] at hfind
          have hhe : hdlx = hdl := Option.some_inj.mp hfind.symm
          rw [hhe] at hselx
          exact hsel hselx.symm
        exact ⟨hdlx, by rw [indexFind_erase_ne _ _ _ hne]; exact hfind,
          hselx, hpricex, htgx⟩

theorem bookInv_setQty (b : Orderbook) (id : Nat) (hdl : OrderHandle)
    (lvl : PriceLevel) (nd : FifoNode) (dq nq px : Nat) (hInv : BookInv b)
    (h1 : indexFind b.index id = some hdl)
    (h2 : b.sideFind hdl.side hdl.price = some lvl)
    (h3 : fifoFindTag lvl.fifo hdl.tag = some nd) :
    BookInv ({ (b.updateLevel hdl.side hdl.price (fun l =>
        { l with aggregate := l.aggregate - dq,
                 fifo := fifoSetQty l.fifo hdl.tag nq })) with
        last_exec_price := px } : Orderbook) := by
  have hfindM : mapFind (sideMapOf b hdl.side) hdl.price = some lvl := by
    rw [← sideFind_eq_sideMapOf]
    exact h2
  have hmapQ : ∀ s', sideMapOf ({ (b.updateLevel hdl.side hdl.price (fun l =>
        { l with aggregate := l.aggregate - dq,
                 fifo := fifoSetQty l.fifo hdl.tag nq })) with
        last_exec_price := px } : Orderbook) s'
      = if selBid s' = selBid hdl.side
        then mapUpdate (sideMapOf b s') hdl.price (fun l =>
          { l with aggregate := l.aggregate - dq,
                   fifo := fifoSetQty l.fifo hdl.tag nq })
        else sideMapOf b s' := by
    intro s'
    have h0 := sideMapOf_congr
      (b.updateLevel hdl.side hdl.price (fun l =>
        { l with aggregate := l.aggregate - dq,
                 fifo := fifoSetQty l.fifo hdl.tag nq }))
      ({ (b.updateLevel hdl.side hdl.price (fun l =>
          { l with aggregate := l.aggregate - dq,
                   fifo := fifoSetQty l.fifo hdl.tag nq })) with
          last_exec_price := px } : Orderbook) rfl rfl s'
    rw [h0, sideMapOf_updateLevel]
  have hidxQ : ({ (b.updateLevel hdl.side hdl.price (fun l =>
        { l with aggregate := l.aggregate - dq,
                 fifo := fifoSetQty l.fifo hdl.tag nq })) with
        last_exec_price := px } : Orderbook).index = b.index := by
    show (b.updateLevel hdl.side hdl.price _).index = b.index
    exact updateLevel_index _ _ _ _
  have htagQ : ({ (b.updateLevel hdl.side hdl.price (fun l =>
        { l with aggregate := l.aggregate - dq,
                 fifo := fifoSetQty l.fifo hdl.tag nq })) with
        last_exec_price := px } : Orderbook).next_tag = b.next_tag := by
    show (b.updateLevel hdl.side hdl.price _).next_tag = b.next_tag
    exact updateLevel_next_tag _ _ _ _
  refine ⟨?_, ?_, ?_, ?_, ?_, ?_, ?_, ?_, ?_⟩
  · rw [hidxQ, sumCounts_eq, hmapQ Side.Buy, hmapQ Side.Sell]
    have hsum := mapNumSum_update_found (sideMapOf b hdl.side) hdl.price
      (fun l => { l with aggregate := l.aggregate - dq,
                         fifo := fifoSetQty l.fifo hdl.tag nq }) lvl hfindM
    have hnum : ((fun l : PriceLevel =>
        { l with aggregate := l.aggregate - dq,
                 fifo := fifoSetQty l.fifo hdl.tag nq }) lvl).num_orders
        = lvl.num_orders := rfl
    have hcount := hInv.count
    rw [sumCounts_eq] at hcount
    by_cases hbs : hdl.side = Side.Buy
    · rw [if_pos (by rw [hbs]), if_neg (by rw [hbs]; simp [selBid])]
      rw [sideMapOf_eq_of_selBid b hdl.side Side.Buy (by rw [hbs])]
      rw [sideMapOf_eq_of_selBid b hdl.side Side.Buy (by rw [hbs])] at hcount
      omega
    · rw [if_neg (by simp [selBid, hbs]), if_pos (by simp [selBid, hbs])]
      rw [sideMapOf_eq_of_selBid b hdl.side Side.Sell (by simp [selBid, hbs])]
      rw [sideMapOf_eq_of_selBid b hdl.side Side.Sell (by simp [selBid, hbs])] at hcount
      omega
  · intro s' p hp
    rw [hmapQ s'] at hp
    by_cases hsel : selBid s' = selBid hdl.side
    · rw [if_pos hsel, sideMapOf_eq_of_selBid b hdl.side s' hsel] at hp
      refine mapUpdate_forall _ _ _ (fun v => v.num_orders = v.fifo.length)
        (fun q' hq' => hInv.lens hdl.side q' hq') ?_ p hp
      intro v hPv
      show v.num_orders = (fifoSetQty v.fifo hdl.tag nq).length
      rw [fifoSetQty_length]
      exact hPv
    · rw [if_neg hsel] at hp
      exact hInv.lens s' p hp
  · intro s' p hp
    rw [hmapQ s'] at hp
    by_cases hsel : selBid s' = selBid hdl.side
    · rw [if_pos hsel, sideMapOf_eq_of_selBid b hdl.side s' hsel] at hp
      refine mapUpdate_forall _ _ _ (fun v => (v.fifo.map (fun nd => nd.tag)).Nodup)
        (fun q' hq' => hInv.ftags hdl.side q' hq') ?_ p hp
      intro v hPv
      show ((fifoSetQty v.fifo hdl.tag nq).map (fun nd => nd.tag)).Nodup
      rw [fifoSetQty_tags]
      exact hPv
    · rw [if_neg hsel] at hp
      exact hInv.ftags s' p hp
  · intro s'
    rw [hmapQ s']
    by_cases hsel : selBid s' = selBid hdl.side
    · rw [if_pos hsel, sideMapOf_eq_of_selBid b hdl.side s' hsel, mapUpdate_keys]
      exact hInv.keys hdl.side
    · rw [if_neg hsel]
      exact hInv.keys s'
  · intro s'
    rw [hmapQ s']
    by_cases hsel : selBid s' = selBid hdl.side
    · rw [if_pos hsel, sideMapOf_eq_of_selBid b hdl.side s' hsel,
        cmpFor_eq_of_selBid hdl.side s' hsel]
      exact mapUpdate_pairwise _ _ _ _ (hInv.sorted hdl.side)
    · rw [if_neg hsel]
      exact hInv.sorted s'
  · rw [hidxQ]
    exact hInv.ikeys
  · intro s' p hp x hx
    rw [htagQ]
    rw [hmapQ s'] at hp
    by_cases hsel : selBid s' = selBid hdl.side
    · rw [if_pos hsel, sideMapOf_eq_of_selBid b hdl.side s' hsel] at hp
      refine mapUpdate_forall _ _ _ (fun v => ∀ y ∈ v.fifo, y.tag < b.next_tag)
        (fun q' hq' => hInv.tags hdl.side q' hq') ?_ p hp x hx
      intro v hPv y hy
      rcases fifoSetQty_mem y v.fifo hdl.tag nq hy with h' | ⟨z, hz, hzeq⟩
      · exact hPv y h'
      · rw [hzeq]
        exact hPv z hz
    · rw [if_neg hsel] at hp
      exact hInv.tags s' p hp x hx
  · intro p hp
    rw [hidxQ] at hp
    obtain ⟨ndx, hres, hid⟩ := hInv.resolve p hp
    rw [resolveHandle_eq] at hres
    cases hL : mapFind (sideMapOf b p.2.side) p.2.price with
    | none =>
      rw [hL] at hres
      exact absurd hres (by simp)
    | some lvl' =>
      rw [hL] at hres
      dsimp only at hres
      by_cases hsel : selBid p.2.side = selBid hdl.side
      · have hLM : mapFind (sideMapOf b hdl.side) p.2.price = some lvl' := by
          rw [← sideMapOf_eq_of_selBid b hdl.side p.2.side hsel]
          exact hL
        by_cases hpr : p.2.price = hdl.price
        · have hlvleq : lvl' = lvl := by
            rw [hpr, hfindM] at hLM
            exact Option.some_inj.mp hLM.symm
          by_cases htg : p.2.tag = hdl.tag
          · refine ⟨{ nd with ord := { nd.ord with quantity := nq } }, ?_, ?_⟩
            · rw [resolveHandle_eq, hmapQ p.2.side, if_pos hsel,
                sideMapOf_eq_of_selBid b hdl.side p.2.side hsel, hpr,
                mapFind_update, hfindM]
              dsimp only [Option.map]
              rw [htg]
              exact fifoFindTag_setQty lvl.fifo hdl.tag nq nd h3
            · show nd.ord.id = p.1
              have hxeq : ndx = nd := by
                rw [hlvleq, htg, h3] at hres
                exact (Option.some_inj.mp hres).symm
              rw [← hxeq]
              exact hid
          · refine ⟨ndx, ?_, hid⟩
            rw [resolveHandle_eq, hmapQ p.2.side, if_pos hsel,
              sideMapOf_eq_of_selBid b hdl.side p.2.side hsel, hpr,
              mapFind_update, hfindM]
            dsimp only [Option.map]
            rw [fifoFindTag_setQty_ne _ _ _ _ htg, ← hlvleq]
            exact hres
        · refine ⟨ndx, ?_, hid⟩
          rw [resolveHandle_eq, hmapQ p.2.side, if_pos hsel,
            sideMapOf_eq_of_selBid b hdl.side p.2.side hsel,
            mapFind_update_ne _ _ _ _ hpr, hLM]
          exact hres
      · refine ⟨ndx, ?_, hid⟩
        rw [resolveHandle_eq, hmapQ p.2.side, if_neg hsel, hL]
        exact hres
  · intro s' p hp x hx
    rw [hidxQ]
    rw [hmapQ s'] at hp
    by_cases hsel : selBid s' = selBid hdl.side
    · rw [if_pos hsel, sideMapOf_eq_of_selBid b hdl.side s' hsel] at hp
      rcases mem_mapUpdate _ _ _ p hp with hpold | ⟨q', hq', hqk, hpeq⟩
      · have hpold' : p ∈ sideMapOf b s' := by
          rw [sideMapOf_eq_of_selBid b hdl.side s' hsel]
          exact hpold
        exact hInv.indexed s' p hpold' x hx
      · have hq'2 : q'.2 = lvl := by
          have hfd : mapFind (sideMapOf b hdl.side) q'.1 = some q'.2 :=
            mapFind_eq_of_mem_nodup _ q' (hInv.keys hdl.side) hq'
          rw [hqk, hfindM] at hfd
          exact (Option.some_inj.mp hfd).symm
        rw [hpeq] at hx ⊢
        have hx' : x ∈ fifoSetQty lvl.fifo hdl.tag nq := by
          rw [← hq'2]
          exact hx
        have hmem' : (hdl.price, lvl) ∈ sideMapOf b s' := by
          rw [sideMapOf_eq_of_selBid b hdl.side s' hsel]
          exact mapFind_mem _ _ _ hfindM
        rcases fifoSetQty_mem x lvl.fifo hdl.tag nq hx' with h' | ⟨z, hz, hzeq⟩
        · obtain ⟨hdlx, hfind, hselx, hpricex, htgx⟩ :=
            hInv.indexed s' (hdl.price, lvl) hmem' x h'
          exact ⟨hdlx, hfind, hselx, hpricex, htgx⟩
        · obtain ⟨hdlz, hfind, hselz, hpricez, htgz⟩ :=
            hInv.indexed s' (hdl.price, lvl) hmem' z hz
          subst hzeq
          exact ⟨hdlz, hfind, hselz, hpricez, htgz⟩
    · rw [if_neg hsel] at hp
      exact hInv.indexed s' p hp x hx

theorem bookInv_delete (b : Orderbook) (e : Event) (hInv : BookInv b) :
    BookInv (b.handle_delete e) := by
  unfold Orderbook.handle_delete
  cases hf : indexFind b.index e.order_id with
  | none => exact hInv
  | some hdl =>
    dsimp only
    cases hs : b.sideFind hdl.side hdl.price with
    | none => exact hInv
    | some lvl =>
      dsimp only
      cases ht : fifoFindTag lvl.fifo hdl.tag with
      | none => exact hInv
      | some nd =>
        dsimp only
        exact bookInv_removeNode b e.order_id hdl lvl nd nd.ord.quantity _ hInv hf hs ht

theorem bookInv_exec (b : Orderbook) (e : Event) (hInv : BookInv b) :
    BookInv (b.handle_exec e) := by
  unfold Orderbook.handle_exec
  cases hf : indexFind b.index e.order_id with
  | none => exact hInv
  | some hdl =>
    dsimp only
    by_cases hq : e.quantity = 0 ∨ e.quantity > MAX_SUSPICIOUS_QUANTITY
    · rw [if_pos hq]
      exact hInv
    · rw [if_neg hq]
      cases hs : b.sideFind hdl.side hdl.price with
      | none => exact hInv
      | some lvl =>
        dsimp only
        cases ht : fifoFindTag lvl.fifo hdl.tag with
        | none => exact hInv
        | some nd =>
          dsimp only
          by_cases hfull : nd.ord.quantity ≤ e.quantity
          · rw [if_pos hfull]
            exact bookInv_removeNode b e.order_id hdl lvl nd nd.ord.quantity _ hInv hf hs ht
          · rw [if_neg hfull]
            exact bookInv_setQty b e.order_id hdl lvl nd e.quantity
              (nd.ord.quantity - e.quantity) _ hInv hf hs ht

theorem bookInv_apply (b : Orderbook) (e : Event) (hInv : BookInv b)
    (hdup : e.type = MessageType.AddOrder → indexFind b.index e.order_id = none) :
    BookInv (b.apply e) := by
  unfold Orderbook.apply
  cases he : e.type with
  | OrderbookState => exact bookInv_state b e hInv
  | AddOrder => exact bookInv_add b e hInv (hdup he)
  | ExecuteOrder => exact bookInv_exec b e hInv
  | DeleteOrder => exact bookInv_delete b e hInv
  | Other => exact hInv

theorem bookInv_applyEvents (evs : List Event) :
    ∀ b, BookInv b → noDupAdds b evs = true → BookInv (applyEvents b evs) := by
  induction evs with
  | nil =>
    intro b h _
    exact h
  | cons e es ih =>
    intro b h hdup
    unfold noDupAdds at hdup
    rw [Bool.and_eq_true] at hdup
    obtain ⟨h1, h2⟩ := hdup
    have hguard : e.type = MessageType.AddOrder → indexFind b.index e.order_id = none := by
      intro he
      rw [if_pos he] at h1
      rw [Option.isNone_iff_eq_none] at h1
      exact h1
    show BookInv (applyEvents (b.apply e) es)
    exact ih (b.apply e) (bookInv_apply b e h hguard) h2

/-- Claim C2 (corrected): after any event sequence from the empty book in
which no AddOrder carries an id already present in the index, the index
size equals the sum of order_count over all levels of both sides, index
keys are unique, every index entry resolves to a live order with the
entry's id, and every FIFO order has an index entry (under unique keys,
exactly one) whose stored iterator tag is the order's node. -/
theorem C2_index_invariant (evs : List Event) (h : noDupAdds emptyBook evs = true) :
    (applyEvents emptyBook evs).order_count = sumCounts (applyEvents emptyBook evs) ∧
    ((applyEvents emptyBook evs).index.map (fun p => p.1)).Nodup ∧
    (∀ p ∈ (applyEvents emptyBook evs).index, ∃ nd,
        resolveHandle (applyEvents emptyBook evs) p.2 = some nd ∧ nd.ord.id = p.1) ∧
    (∀ nd ∈ allNodes (applyEvents emptyBook evs), ∃ hdl,
        indexFind (applyEvents emptyBook evs).index nd.ord.id = some hdl ∧
        hdl.tag = nd.tag) := by
  have hInv := bookInv_applyEvents evs emptyBook bookInv_empty h
  refine ⟨hInv.count, hInv.ikeys, hInv.resolve, ?_⟩
  intro nd hnd
  unfold allNodes at hnd
  rcases List.mem_append.mp hnd with hb | ha
  · rcases List.mem_flatten.mp hb with ⟨l, hl, hndl⟩
    rcases List.mem_map.mp hl with ⟨p, hp, hpl⟩
    have hp' : p ∈ sideMapOf (applyEvents emptyBook evs) Side.Buy := by
      have hsm : sideMapOf (applyEvents emptyBook evs) Side.Buy
          = (applyEvents emptyBook evs).bids := by simp [sideMapOf]
      rw [hsm]
      exact hp
    obtain ⟨hdl, hfind, _, _, htg⟩ := hInv.indexed Side.Buy p hp' nd (hpl ▸ hndl)
    exact ⟨hdl, hfind, htg⟩
  · rcases List.mem_flatten.mp ha with ⟨l, hl, hndl⟩
    rcases List.mem_map.mp hl with ⟨p, hp, hpl⟩
    have hp' : p ∈ sideMapOf (applyEvents emptyBook evs) Side.Sell := by
      have hsm : sideMapOf (applyEvents emptyBook evs) Side.Sell
          = (applyEvents emptyBook evs).asks := by simp [sideMapOf]
      rw [hsm]
      exact hp
    obtain ⟨hdl, hfind, _, _, htg⟩ := hInv.indexed Side.Sell p hp' nd (hpl ▸ hndl)
    exact ⟨hdl, hfind, htg⟩

theorem C2_witness :
    noDupAdds emptyBook
      [make_state "P_SUREKLI_ISLEM",
       make_add 1000 Side.Buy 100 1000 1 1,
       make_add 2000 Side.Sell 110 1000 1 1,
       make_add 2001 Side.Sell 120 1000 1 2] = true ∧
    (applyEvents emptyBook
      [make_state "P_SUREKLI_ISLEM",
       make_add 1000 Side.Buy 100 1000 1 1,
       make_add 2000 Side.Sell 110 1000 1 1,
       make_add 2001 Side.Sell 120 1000 1 2]).order_count
      = sumCounts (applyEvents emptyBook
        [make_state "P_SUREKLI_ISLEM",
         make_add 1000 Side.Buy 100 1000 1 1,
         make_add 2000 Side.Sell 110 1000 1 1,
         make_add 2001 Side.Sell 120 1000 1 2]) :=
  ⟨by decide,
    (C2_index_invariant
      [make_state "P_SUREKLI_ISLEM",
       make_add 1000 Side.Buy 100 1000 1 1,
       make_add 2000 Side.Sell 110 1000 1 1,
       make_add 2001 Side.Sell 120 1000 1 2] (by decide)).1⟩

end OrderbookStrategy
